import Mathlib

/-!
# Placeholder rewriting and statement builders of `sqrl`

A shallow embedding of the placeholder engine of the SQL builder
(placeholder.go): the two scanning loops `replacePlaceholders` and
`replacePlaceholdersMixed`, the formatter values `Question` and `Dollar` and
the function `Placeholders`; of `WherePart` (where.go); and of the methods
`ToSql`, `Set`, `SetMap`, `What` and `From` of the update and delete builders
(update.go, delete.go, extract.go), with the properties of the specification
that concern them.

Modelling conventions.

* A Go `string` is a `List Char`.  Every character the engine inspects
  (`?`, `$`, `0`..`9`) is ASCII, so slicing by position in the list is the
  slicing of the source.
* The counters `i` and `arg` are `Nat`: they start at 0 and grow by one per
  loop iteration at most, so they stay far below the range of a Go `int`.
* `strconv.Atoi` yields a 64-bit `int`; a digit run whose value exceeds
  `2^63 - 1` makes it return an error, on which the source panics.
* The formatter callback `func(buf *bytes.Buffer, i int) error` is a Go
  closure: it may write to the buffer, change what it captured, and fail.  It
  is modelled by explicit state passing over a state type `σ`.
* A Go `for` loop becomes a recursion on a fuel counter; the entry points
  supply `len(sql) + 1`, which is shown to be enough.
* A slice that may be `nil` is an `Option` of a list; a value of type
  `interface{}` is kept by the case of the type switch that inspects it.
* Outside the scanning loops a `panic` is the error of an `Except`
  (`strings.Repeat` in `Placeholders`, the `default` cases of extract.go).
* The builders are changed in place in the source and returned; here a
  method returns the changed builder.  Functions of the repository whose
  source is not among the files are parameters (`Externals`).
-/

namespace Sqrl

/-! ## Outcomes of a call -/

/-- The two run-time panics the engine can raise. -/
inductive Panic where
  /-- Reading `args[arg]` with `arg` outside the slice. -/
  | indexOutOfRange
  /-- The `panic(err)` taken when `strconv.Atoi` reports an error. -/
  | atoiError
  deriving DecidableEq, Repr

/-- How a call ends: it returns a value, it panics, or the fuel of the
model ran out before the loop finished. -/
inductive Run (α : Type) where
  | returned (v : α)
  | panicked (why : Panic)
  | exhausted
  deriving DecidableEq, Repr

/-- Go's `error` values, identified by their message. -/
abbrev GoError := String

/-- The callback `replace func(buf *bytes.Buffer, i int) error`: from the
captured state, the buffer contents and the number it yields the new state,
the new buffer contents and the error (`none` is `nil`). -/
abbrev Formatter (σ ε : Type) := σ → List Char → Nat → σ × List Char × Option ε

/-! ## Library functions used by the engine -/

/-- Go's `strings.Index(s, substr)` for a one-character `substr`: the position
of its first occurrence, `none` standing for `-1`. -/
def stringsIndex (s : List Char) (c : Char) : Option Nat :=
  match s with
  | [] => none
  | x :: r => if x = c then some 0 else (stringsIndex r c).map (· + 1)

/-- Go's `strings.IndexAny(s, chars)`: the position of the first character of
`s` that occurs in `chars`, `none` standing for `-1`. -/
def stringsIndexAny (s : List Char) (chars : List Char) : Option Nat :=
  match s with
  | [] => none
  | x :: r => if x ∈ chars then some 0 else (stringsIndexAny r chars).map (· + 1)

/-- The test `sql[end] >= '0' && sql[end] <= '9'` of the digit loop. -/
def isDigit (c : Char) : Bool := decide (48 ≤ c.toNat ∧ c.toNat ≤ 57)

/-- The largest value of a Go `int` (64 bits). -/
def maxInt : Nat := 2 ^ 63 - 1

/-- The value of a run of decimal digits, read left to right. -/
def digitsValue (ds : List Char) : Nat :=
  ds.foldl (fun acc c => 10 * acc + (c.toNat - 48)) 0

/-- Go's `strconv.Atoi` on a non-empty run of decimal digits (the only
strings the engine passes to it): the value of the run when it fits a Go
`int`, and an error (`none`) when it is out of range. -/
def Atoi (ds : List Char) : Option Nat :=
  if digitsValue ds ≤ maxInt then some (digitsValue ds) else none

/-- The text `fmt.Fprintf(buf, "%d", i)` writes for a natural number. -/
def itoa (i : Nat) : List Char := Nat.toDigits 10 i

/-! ## The scanning loops -/

/-- The loop of `replacePlaceholders` (placeholder.go, lines 62-83), with
the statements after it (lines 85-86).  `sql`, `buf` and `i` are the
variables of the source, `st` the state captured by the callback. -/
def replacePlaceholdersLoop {σ ε : Type} (replace : Formatter σ ε) :
    Nat → σ → List Char → List Char → Nat → σ × Run (List Char × Option ε)
  | 0, st, _, _, _ => (st, Run.exhausted)
  | fuel + 1, st, sql, buf, i =>
    match stringsIndex sql '?' with
    | none => (st, Run.returned (buf ++ sql, none))
    | some p =>
      if (sql.drop p).length > 1 ∧ (sql.drop p).take 2 = ['?', '?'] then
        -- escape ?? => ?
        let buf := buf ++ sql.take p ++ ['?']
        if (sql.drop p).length = 1 then
          (st, Run.returned (buf ++ sql, none))
        else
          replacePlaceholdersLoop replace fuel st (sql.drop (p + 2)) buf i
      else
        let i := i + 1
        let buf := buf ++ sql.take p
        match replace st buf i with
        | (st, _, some err) => (st, Run.returned ([], some err))
        | (st, buf, none) =>
          replacePlaceholdersLoop replace fuel st (sql.drop (p + 1)) buf i

/-- The function `replacePlaceholders(sql, replace)`: the rewritten text and
the error, together with the final state of the callback. -/
def replacePlaceholders {σ ε : Type} (replace : Formatter σ ε) (st : σ)
    (sql : List Char) : σ × Run (List Char × Option ε) :=
  replacePlaceholdersLoop replace (sql.length + 1) st sql [] 0

/-- The position `end` reached by the digit loop of lines 133-135, started
at `start`. -/
def digitsEnd (sql : List Char) (start : Nat) : Nat :=
  start + ((sql.drop start).takeWhile isDigit).length

/-- The loop of `replacePlaceholdersMixed` (placeholder.go, lines 97-162),
with the statements after it (lines 164-165).  `renumbered` is the map of
the source as an association list, the empty list standing for the `nil` map
as well; the returned argument list is `none` for a `nil` slice.  A `break`
inside the `switch` leaves the `switch` only, so the loop goes on with the
same `sql`. -/
def replacePlaceholdersMixedLoop {α σ ε : Type} (replace : Formatter σ ε)
    (args : List α) :
    Nat → σ → List Char → List Char → Nat → List α → Nat → List (Nat × Nat) →
      σ × Run (List Char × Option (List α) × Option ε)
  | 0, st, _, _, _, _, _, _ => (st, Run.exhausted)
  | fuel + 1, st, sql, buf, i, newArgs, arg, renumbered =>
    match stringsIndexAny sql ['?', '$'] with
    | none => (st, Run.returned (buf ++ sql, some newArgs, none))
    | some p =>
      if (sql.drop p).length > 1 ∧ (sql.drop p).take 2 = ['?', '?'] then
        -- escape ?? => ?
        let buf := buf ++ sql.take p ++ ['?']
        if (sql.drop p).length = 1 then
          replacePlaceholdersMixedLoop replace args fuel st sql buf i newArgs arg
            renumbered
        else
          replacePlaceholdersMixedLoop replace args fuel st (sql.drop (p + 2)) buf i
            newArgs arg renumbered
      else if (sql.drop p).take 1 = ['?'] then
        let i := i + 1
        match args[arg]? with
        | none => (st, Run.panicked Panic.indexOutOfRange)
        | some a =>
          let newArgs := newArgs ++ [a]
          let arg := arg + 1
          let buf := buf ++ sql.take p
          match replace st buf i with
          | (st, _, some err) => (st, Run.returned ([], none, some err))
          | (st, buf, none) =>
            replacePlaceholdersMixedLoop replace args fuel st (sql.drop (p + 1)) buf i
              newArgs arg renumbered
      else if (sql.drop p).length > 1 ∧ (sql.drop p).take 2 = ['$', '$'] then
        -- escape $$ => $
        let buf := buf ++ sql.take p ++ ['$']
        if (sql.drop p).length = 1 then
          replacePlaceholdersMixedLoop replace args fuel st sql buf i newArgs arg
            renumbered
        else
          replacePlaceholdersMixedLoop replace args fuel st (sql.drop (p + 2)) buf i
            newArgs arg renumbered
      else
        -- $ placeholder
        let stop := digitsEnd sql (p + 1)
        if stop = p + 1 then
          -- just a $, but not a placeholder
          replacePlaceholdersMixedLoop replace args fuel st (sql.drop (p + 1))
            (buf ++ sql.take (p + 1)) i newArgs arg renumbered
        else
          match Atoi ((sql.take stop).drop (p + 1)) with
          | none => (st, Run.panicked Panic.atoiError)
          | some num =>
            let found : Option (Nat × Nat × List α × List (Nat × Nat)) :=
              match renumbered.lookup num with
              | some j => some (j, i, newArgs, renumbered)
              | none =>
                match args[arg]? with
                | none => none
                | some a => some (i + 1, i + 1, newArgs ++ [a], (num, i + 1) :: renumbered)
            match found with
            | none => (st, Run.panicked Panic.indexOutOfRange)
            | some (j, i, newArgs, renumbered) =>
              let arg := arg + 1
              let buf := buf ++ sql.take p
              match replace st buf j with
              | (st, _, some err) => (st, Run.returned ([], none, some err))
              | (st, buf, none) =>
                replacePlaceholdersMixedLoop replace args fuel st (sql.drop stop) buf i
                  newArgs arg renumbered

/-- The function `replacePlaceholdersMixed(sql, args, replace)`: the rewritten
text, the new argument list and the error, together with the final state of
the callback. -/
def replacePlaceholdersMixed {α σ ε : Type} (replace : Formatter σ ε) (st : σ)
    (sql : List Char) (args : List α) :
    σ × Run (List Char × Option (List α) × Option ε) :=
  replacePlaceholdersMixedLoop replace args (sql.length + 1) st sql [] 0 [] 0 []

/-! ## The formatter values -/

/-- The method `questionFormat.ReplacePlaceholders`: `return sql, nil`. -/
def questionFormat.ReplacePlaceholders (sql : List Char) : List Char × Option GoError :=
  (sql, none)

/-- The callback both `dollarFormat` methods pass:
`fmt.Fprintf(buf, "$%d", i); return nil`.  It captures nothing. -/
def dollarReplace : Formatter Unit GoError :=
  fun _ buf i => ((), buf ++ '$' :: itoa i, none)

/-- The method `dollarFormat.ReplacePlaceholders`. -/
def dollarFormat.ReplacePlaceholders (sql : List Char) : Run (List Char × Option GoError) :=
  (replacePlaceholders dollarReplace () sql).2

/-- The method `dollarFormat.ReplacePlaceholdersMixed`. -/
def dollarFormat.ReplacePlaceholdersMixed {α : Type} (sql : List Char) (args : List α) :
    Run (List Char × Option (List α) × Option GoError) :=
  (replacePlaceholdersMixed dollarReplace () sql args).2

/-! ## Auxiliary definitions used to state and prove the properties -/

/-- The run of `replacePlaceholders` from a loop state, with the fuel the
entry point would give for the text still to scan. -/
def scanFrom {σ ε : Type} (replace : Formatter σ ε) (st : σ) (sql buf : List Char)
    (i : Nat) : σ × Run (List Char × Option ε) :=
  replacePlaceholdersLoop replace (sql.length + 1) st sql buf i

/-- The run of `replacePlaceholdersMixed` from a loop state, with the fuel the
entry point would give for the text still to scan. -/
def mixedFrom {α σ ε : Type} (replace : Formatter σ ε) (args : List α) (st : σ)
    (sql buf : List Char) (i : Nat) (newArgs : List α) (arg : Nat)
    (renumbered : List (Nat × Nat)) : σ × Run (List Char × Option (List α) × Option ε) :=
  replacePlaceholdersMixedLoop replace args (sql.length + 1) st sql buf i newArgs arg renumbered

/-- What the loop does once a marker has been given the number `j`: the
callback writes it, and the scan goes on with `rest` unless the callback
failed. -/
def emitThen {α σ ε : Type} (replace : Formatter σ ε) (args : List α) (st : σ)
    (rest buf : List Char) (j i : Nat) (newArgs : List α) (arg : Nat)
    (renumbered : List (Nat × Nat)) : σ × Run (List Char × Option (List α) × Option ε) :=
  match replace st buf j with
  | (st, _, some err) => (st, Run.returned ([], none, some err))
  | (st, buf, none) => mixedFrom replace args st rest buf i newArgs arg renumbered

/-- A callback that behaves as `replace` and also records, in call order,
the number it was given and the error it returned. -/
def traced {σ ε : Type} (replace : Formatter σ ε) :
    Formatter (σ × List (Nat × Option ε)) ε :=
  fun s buf i =>
    (((replace s.1 buf i).1, s.2 ++ [(i, (replace s.1 buf i).2.2)]),
      (replace s.1 buf i).2.1, (replace s.1 buf i).2.2)

/-- The template `"?" ++ s₁ ++ "?" ++ s₂ ++ ...` for the segments `s₁, s₂, ...`. -/
def joinQuestion : List (List Char) → List Char
  | [] => []
  | s :: ss => '?' :: (s ++ joinQuestion ss)

/-- The text `"$(i+1)" ++ s₁ ++ "$(i+2)" ++ s₂ ++ ...` for the segments
`s₁, s₂, ...`. -/
def joinDollar (i : Nat) : List (List Char) → List Char
  | [] => []
  | s :: ss => '$' :: (itoa (i + 1) ++ (s ++ joinDollar (i + 1) ss))

/-! ## Markers of a template -/

/-- A marker occurrence of a template: an anonymous `?`, or a `$` followed
by a run of decimal digits, kept by the integer the run denotes. -/
inductive Marker where
  | anon
  | numbered (n : Nat)
  deriving DecidableEq, Repr

/-- The marker occurrences of a template in scan order, read off the
grammar: pairs `??` and `$$` are escapes, a `?` that is not the first half of
a pair is an anonymous marker, a `$` followed by digits is a numbered marker
with its maximal digit run, and a `$` followed by anything else is text. -/
def markerOccurrences : List Char → List Marker
  | [] => []
  | [c] => if c = '?' then [Marker.anon] else []
  | c :: d :: r =>
    if c = '?' then
      if d = '?' then markerOccurrences r
      else Marker.anon :: markerOccurrences (d :: r)
    else if c = '$' then
      if d = '$' then markerOccurrences r
      else if isDigit d then
        Marker.numbered (digitsValue ((d :: r).takeWhile isDigit)) :: markerOccurrences (d :: r)
      else markerOccurrences (d :: r)
    else markerOccurrences (d :: r)

/-- Whether the integer of a marker is one a Go `int` can hold. -/
def Marker.fits : Marker → Bool
  | Marker.anon => true
  | Marker.numbered n => decide (n ≤ maxInt)

/-- Every digit run of the markers denotes an integer a Go `int` can hold. -/
def FitsInt (ms : List Marker) : Prop := ∀ m ∈ ms, m.fits = true

instance (ms : List Marker) : Decidable (FitsInt ms) :=
  inferInstanceAs (Decidable (∀ m ∈ ms, m.fits = true))

/-- Whether the `k`-th marker occurrence introduces a new placeholder: it is
anonymous, or it is the first occurrence of its integer. -/
def introduces (ms : List Marker) (k : Nat) : Bool :=
  match ms[k]? with
  | none => false
  | some Marker.anon => true
  | some (Marker.numbered n) => !(ms.take k).contains (Marker.numbered n)

/-- The elements of `as` at the positions flagged `true`, in order. -/
def pick {α : Type} : List α → List Bool → List α
  | a :: as, true :: fs => a :: pick as fs
  | _ :: as, false :: fs => pick as fs
  | _, _ => []

/-- The numbers the loop of `replacePlaceholdersMixed` hands to the markers
`ms` from the counter `i` and the map `renumbered`, each with the flag of
whether the marker took a new number. -/
def renumber : List Marker → Nat → List (Nat × Nat) → List (Nat × Bool)
  | [], _, _ => []
  | Marker.anon :: ms, i, renumbered => (i + 1, true) :: renumber ms (i + 1) renumbered
  | Marker.numbered n :: ms, i, renumbered =>
    match renumbered.lookup n with
    | some j => (j, false) :: renumber ms i renumbered
    | none => (i + 1, true) :: renumber ms (i + 1) ((n, i + 1) :: renumbered)

/-- The record of the calls made by a run of `replacePlaceholdersMixed` that
started with the record `log`, against the same run `u` without the record:
both end alike, and either every new call succeeded and the function
panicked or returned a text and a list with a nil error, or the last call
failed with `e` and the function returned `("", nil, e)`. -/
def AtomicMixed {α σ ε : Type} (log : List (Nat × Option ε))
    (r : (σ × List (Nat × Option ε)) × Run (List Char × Option (List α) × Option ε))
    (u : σ × Run (List Char × Option (List α) × Option ε)) : Prop :=
  r.1.1 = u.1 ∧ r.2 = u.2 ∧
    ((∃ new, r.1.2 = log ++ new ∧ (∀ c ∈ new, c.2 = none) ∧
        ((∃ w, r.2 = Run.panicked w) ∨ ∃ s n, r.2 = Run.returned (s, some n, none))) ∨
     (∃ ok j e, r.1.2 = log ++ ok ++ [(j, some e)] ∧ (∀ c ∈ ok, c.2 = none) ∧
        r.2 = Run.returned ([], none, some e)))

/-- The flag of `introduces` relative to a map already holding some integers. -/
def introducesFrom (renumbered : List (Nat × Nat)) (ms : List Marker) (k : Nat) : Bool :=
  match ms[k]? with
  | none => false
  | some Marker.anon => true
  | some (Marker.numbered n) =>
    (renumbered.lookup n).isNone && !(ms.take k).contains (Marker.numbered n)

/-- The invariant of the map `renumbered` against the counter `i`: every
number it holds lies in `1..i`, and no number is held for two integers. -/
def RenOK (i : Nat) (renumbered : List (Nat × Nat)) : Prop :=
  (∀ n j, renumbered.lookup n = some j → 1 ≤ j ∧ j ≤ i) ∧
  (∀ n1 n2 j, renumbered.lookup n1 = some j → renumbered.lookup n2 = some j → n1 = n2)

/-- The integer of a numbered marker. -/
def Marker.number? : Marker → Option Nat
  | Marker.anon => none
  | Marker.numbered n => some n

/-- The number of distinct markers: every anonymous occurrence counts, and
every integer of a numbered marker counts once. -/
def distinctMarkers (ms : List Marker) : Nat :=
  ms.count Marker.anon + (ms.filterMap Marker.number?).toFinset.card

/-- The integers `Dollar.ReplacePlaceholdersMixed` passes to its callback, in
call order: the record of the traced run. -/
def handedNumbers {α : Type} (sql : List Char) (args : List α) : List Nat :=
  ((replacePlaceholdersMixed (traced dollarReplace) ((), []) sql args).1.2).map Prod.fst

/-- The texts `a` and `t` can be scanned one after the other: no marker or
escape of `a ++ t` straddles the seam.  A final `?` of `a` is not followed by
`?`, a final `$` neither by `$` nor by a digit, and a final digit by no
digit. -/
def Joins (a t : List Char) : Prop :=
  (a.getLast? = some '?' → t.head? ≠ some '?') ∧
  (a.getLast? = some '$' → t.head? ≠ some '$' ∧ ∀ d, t.head? = some d → isDigit d = false) ∧
  (∀ x, a.getLast? = some x → isDigit x = true → ∀ d, t.head? = some d → isDigit d = false)

/-! ## `Placeholders` -/

/-- The text `s` written `count` times. -/
def repeatText (s : List Char) (count : Nat) : List Char :=
  (List.replicate count s).flatten

/-- Go's `strings.Repeat(s, count)`; the error stands for its `panic`, on a
negative count and on a result whose length `len(s) * count` an `int` cannot
hold.  Below that length the result is taken to fit in memory. -/
def stringsRepeat (s : List Char) (count : Int) : Except String (List Char) :=
  if count = 0 then Except.ok []
  else if count = 1 then Except.ok s
  else if count < 0 then Except.error "strings: negative Repeat count"
  else if (s.length : Int) * count > (maxInt : Int) then
    Except.error "strings: Repeat output length overflow"
  else Except.ok (repeatText s count.toNat)

/-- The function `Placeholders(count)` (placeholder.go, lines 51-57); `count`
is a Go `int`, and the error stands for a `panic`.  The slice `[1:]` drops the
first byte of a string that has one. -/
def Placeholders (count : Int) : Except String (List Char) :=
  if count < 1 then Except.ok []
  else
    match stringsRepeat [',', '?'] count with
    | Except.error e => Except.error e
    | Except.ok [] => Except.error "slice bounds out of range [1:0]"
    | Except.ok (_ :: rest) => Except.ok rest

/-! ## Values of type `interface{}` and results of `ToSql` -/

/-- What a `ToSql` method returns: the text, the arguments (`none` is the
`nil` slice) and the error (`none` is `nil`). -/
abbrev SqlResult (α : Type) := List Char × Option (List α) × Option GoError

/-- Go's `append(s, xs...)` on a slice that may be `nil`: appending nothing
to `nil` leaves it `nil`. -/
def goAppend {α : Type} (s : Option (List α)) (xs : List α) : Option (List α) :=
  match s with
  | some l => some (l ++ xs)
  | none => if xs.isEmpty then none else some xs

/-- Go's `strings.Join(elems, sep)`. -/
def stringsJoin (elems : List (List Char)) (sep : List Char) : List Char :=
  match elems with
  | [] => []
  | [e] => e
  | e :: rest => e ++ sep ++ stringsJoin rest sep

/-! ## `WherePart` (where.go) -/

/-- The predicate of a `WherePart` as the type switch of `WherePart.ToSql`
sees it: `nil`, a `Sqlizer` (kept as what its `ToSql` returns), a
`map[string]interface{}`, a `string`, or a value of any other type, kept as
the name `%T` prints for its type. -/
inductive PredValue (α μ : Type) where
  | nil
  | sqlizer (toSql : SqlResult α)
  | stringMap (m : μ)
  | str (s : List Char)
  | other (typeName : String)

/-- The struct `part` behind `WherePart`. -/
structure WherePart (α μ : Type) where
  pred : PredValue α μ
  args : Option (List α)

/-- The function `NewWherePart(pred, args...)`. -/
def NewWherePart {α μ : Type} (pred : PredValue α μ) (args : Option (List α)) :
    WherePart α μ :=
  { pred := pred, args := args }

/-- The method `WherePart.Pred`. -/
def WherePart.Pred {α μ : Type} (p : WherePart α μ) : PredValue α μ := p.pred

/-- The method `WherePart.Args`. -/
def WherePart.Args {α μ : Type} (p : WherePart α μ) : Option (List α) := p.args

/-- The method `WherePart.ToSql` (where.go, lines 19-34).  `eqToSql` is
`Eq(pred).ToSql()`, whose source is not among the files. -/
def WherePart.ToSql {α μ : Type} (eqToSql : μ → SqlResult α) (p : WherePart α μ) :
    SqlResult α :=
  match p.pred with
  | PredValue.nil => ([], none, none)
  | PredValue.sqlizer toSql => toSql
  | PredValue.stringMap m => eqToSql m
  | PredValue.str s => (s, p.args, none)
  | PredValue.other typeName =>
    ([], none, some ("expected string-keyed map or string, not " ++ typeName))

/-! ## The builders (update.go, delete.go, extract.go) -/

/-- The value of a set clause as the type switch of `UpdateBuilder.ToSql`
sees it: a `Sqlizer`, kept as what its `ToSql` returns, or any other value. -/
inductive SetValue (α : Type) where
  | sqlizer (toSql : SqlResult α)
  | plain (v : α)

/-- The struct `setClause`. -/
structure setClause (α : Type) where
  column : List Char
  value : SetValue α

/-- The functions the builders call whose source is not among the files.
Each takes the contents of the buffer it writes to and yields the new
contents, the new arguments and the error.  The parts they write (values of
the types `expr` and `Sqlizer`) are of a type `ς` that only they inspect. -/
structure Externals (α ς : Type) where
  /-- The method `exprs.AppendToSql(w, sep, args)`. -/
  exprsAppendToSql : List ς → List Char → List Char → Option (List α) →
    List Char × Option (List α) × Option GoError
  /-- The function `appendToSql(parts, w, sep, args)`. -/
  appendToSql : List ς → List Char → List Char → Option (List α) →
    List Char × Option (List α) × Option GoError
  /-- The method `returning.AppendToSql(w, args)`. -/
  returningAppendToSql : List ς → List Char → Option (List α) →
    List Char × Option (List α) × Option GoError

/-- A value of the interface `PlaceholderFormat`, as its method
`ReplacePlaceholders`. -/
abbrev PlaceholderFormat := List Char → Run (List Char × Option GoError)

/-- The value `Question`. -/
def Question : PlaceholderFormat :=
  fun sql => Run.returned (questionFormat.ReplacePlaceholders sql)

/-- The value `Dollar`. -/
def Dollar : PlaceholderFormat := dollarFormat.ReplacePlaceholders

/-- The last statements of both `ToSql` methods:
`sqlStr, err = b.placeholderFormat.ReplacePlaceholders(sql.String()); return`. -/
def finishToSql {α : Type} (format : PlaceholderFormat) (sql : List Char)
    (args : Option (List α)) : Run (SqlResult α) :=
  match format sql with
  | Run.returned (sqlStr, err) => Run.returned (sqlStr, args, err)
  | Run.panicked w => Run.panicked w
  | Run.exhausted => Run.exhausted

/-- The part both `ToSql` methods share, from the `WHERE` clause to the end
(update.go, lines 156-193; delete.go, lines 140-177). -/
def tailToSql {α ς : Type} (ext : Externals α ς) (format : PlaceholderFormat)
    (whereParts : List ς) (orderBys : List (List Char)) (limit : Nat) (limitValid : Bool)
    (offset : Nat) (offsetValid : Bool) (returning suffixes : List ς)
    (sql : List Char) (args : Option (List α)) : Run (SqlResult α) :=
  let r1 : List Char × Option (List α) × Option GoError :=
    if whereParts.length > 0 then ext.appendToSql whereParts (sql ++ " WHERE ".toList) " AND ".toList args
    else (sql, args, none)
  match r1 with
  | (_, args, some err) => Run.returned ([], args, some err)
  | (sql, args, none) =>
    let sql := if orderBys.length > 0 then sql ++ " ORDER BY ".toList ++ stringsJoin orderBys ", ".toList
      else sql
    let sql := if limitValid then sql ++ " LIMIT ".toList ++ itoa limit else sql
    let sql := if offsetValid then sql ++ " OFFSET ".toList ++ itoa offset else sql
    let r2 : List Char × Option (List α) × Option GoError :=
      if returning.length > 0 then ext.returningAppendToSql returning sql args
      else (sql, args, none)
    match r2 with
    | (_, args, some err) => Run.returned ([], args, some err)
    | (sql, args, none) =>
      let r3 : List Char × Option (List α) :=
        if suffixes.length > 0 then
          ((ext.exprsAppendToSql suffixes (sql ++ " ".toList) " ".toList args).1,
            (ext.exprsAppendToSql suffixes (sql ++ " ".toList) " ".toList args).2.1)
        else (sql, args)
      finishToSql format r3.1 r3.2

/-- The struct `UpdateBuilder`.  Of the embedded `StatementBuilderType` only
the placeholder format is kept; `limit` and `offset` are `uint64`. -/
structure UpdateBuilder (α ς : Type) where
  placeholderFormat : PlaceholderFormat
  returning : List ς
  prefixes : List ς
  table : List Char
  fromParts : List ς
  setClauses : List (setClause α)
  whereParts : List ς
  orderBys : List (List Char)
  limit : Nat
  limitValid : Bool
  offset : Nat
  offsetValid : Bool
  suffixes : List ς

/-- The function `NewUpdateBuilder(b)`: every field but the embedded
`StatementBuilderType` has its zero value. -/
def NewUpdateBuilder {α ς : Type} (format : PlaceholderFormat) : UpdateBuilder α ς :=
  { placeholderFormat := format, returning := [], prefixes := [], table := [],
    fromParts := [], setClauses := [], whereParts := [], orderBys := [], limit := 0,
    limitValid := false, offset := 0, offsetValid := false, suffixes := [] }

/-- The method `UpdateBuilder.Table`. -/
def UpdateBuilder.Table {α ς : Type} (b : UpdateBuilder α ς) (table : List Char) :
    UpdateBuilder α ς :=
  { b with table := table }

/-- The method `UpdateBuilder.Set`. -/
def UpdateBuilder.Set {α ς : Type} (b : UpdateBuilder α ς) (column : List Char)
    (value : SetValue α) : UpdateBuilder α ς :=
  { b with setClauses := b.setClauses ++ [{ column := column, value := value }] }

/-- Go's `sort.Strings`: the strings in ascending order of Go's `<`, the
lexicographic order of their bytes, which is the lexicographic order of their
characters. -/
def sortStrings (keys : List (List Char)) : List (List Char) :=
  keys.insertionSort (· ≤ ·)

/-- The index expression `clauses[key]` of a `map[string]interface{}`, the
map being the list of its entries: the value of the key, and the zero value,
the `nil` interface, for a key the map does not hold. -/
def mapIndex {α : Type} [Inhabited α] (clauses : List (List Char × SetValue α))
    (key : List Char) : SetValue α :=
  match clauses.lookup key with
  | some v => v
  | none => SetValue.plain default

/-- The method `UpdateBuilder.SetMap` (update.go, lines 217-227).  The map
`clauses` is the list of its entries, in the order in which this run of
`for key := range clauses` meets them; its keys are distinct. -/
def UpdateBuilder.SetMap {α ς : Type} [Inhabited α] (b : UpdateBuilder α ς)
    (clauses : List (List Char × SetValue α)) : UpdateBuilder α ς :=
  let keys := clauses.foldl (fun keys entry => keys ++ [entry.1]) []
  let keys := sortStrings keys
  keys.foldl (fun b key => b.Set key (mapIndex clauses key)) b

/-- The loop over the set clauses in `UpdateBuilder.ToSql` (update.go, lines
130-145): the texts `setSqls` and the arguments, or the arguments so far and
the error of a `Sqlizer` value. -/
def setClausesToSql {α : Type} :
    List (setClause α) → List (List Char) → Option (List α) →
      Except (Option (List α) × GoError) (List (List Char) × Option (List α))
  | [], setSqls, args => Except.ok (setSqls, args)
  | clause :: rest, setSqls, args =>
    match clause.value with
    | SetValue.sqlizer (valSql, valArgs, err) =>
      match err with
      | some e => Except.error (args, e)
      | none =>
        setClausesToSql rest (setSqls ++ [clause.column ++ " = ".toList ++ valSql])
          (goAppend args (valArgs.getD []))
    | SetValue.plain v =>
      setClausesToSql rest (setSqls ++ [clause.column ++ " = ".toList ++ ['?']])
        (goAppend args [v])

/-- The method `UpdateBuilder.ToSql` (update.go, lines 108-194). -/
def UpdateBuilder.ToSql {α ς : Type} (ext : Externals α ς) (b : UpdateBuilder α ς) :
    Run (SqlResult α) :=
  if b.table.length = 0 then
    Run.returned ([], none, some "update statements must specify a table")
  else if b.setClauses.length = 0 then
    Run.returned ([], none, some "update statements must have at least one Set clause")
  else
    let start : List Char × Option (List α) :=
      if b.prefixes.length > 0 then
        ((ext.exprsAppendToSql b.prefixes [] " ".toList none).1 ++ " ".toList,
          (ext.exprsAppendToSql b.prefixes [] " ".toList none).2.1)
      else ([], none)
    let sql := start.1 ++ "UPDATE ".toList ++ b.table ++ " SET ".toList
    match setClausesToSql b.setClauses [] start.2 with
    | Except.error (args, err) => Run.returned ([], args, some err)
    | Except.ok (setSqls, args) =>
      let sql := sql ++ stringsJoin setSqls ", ".toList
      let r : List Char × Option (List α) × Option GoError :=
        if b.fromParts.length > 0 then
          ext.appendToSql b.fromParts (sql ++ " FROM ".toList) ", ".toList args
        else (sql, args, none)
      match r with
      | (_, args, some err) => Run.returned ([], args, some err)
      | (sql, args, none) =>
        tailToSql ext b.placeholderFormat b.whereParts b.orderBys b.limit b.limitValid
          b.offset b.offsetValid b.returning b.suffixes sql args

/-- The values the type switches of extract.go tell apart: an
`*UpdateBuilder`, an `*InsertBuilder` (kept as its fields `columns` and
`values`), or anything else. -/
inductive Builder (α ς : Type) where
  | update (b : UpdateBuilder α ς)
  | insert (columns : List (List Char)) (values : List (List (SetValue α)))
  | other

/-- The function `ExtractColumns`; the error stands for its `panic`. -/
def ExtractColumns {α ς : Type} (builder : Builder α ς) : Except String (List (List Char)) :=
  match builder with
  | Builder.update b => Except.ok (b.setClauses.map fun clause => clause.column)
  | Builder.insert columns _ => Except.ok columns
  | Builder.other => Except.error "failed to extract columns"

/-- The function `ExtractValues`; the error stands for its `panic`. -/
def ExtractValues {α ς : Type} (builder : Builder α ς) :
    Except String (List (List (SetValue α))) :=
  match builder with
  | Builder.update b => Except.ok [b.setClauses.map fun clause => clause.value]
  | Builder.insert _ values => Except.ok values
  | Builder.other => Except.error "failed to extract values"

/-- The struct `DeleteBuilder`.  Of the embedded `StatementBuilderType` only
the placeholder format is kept; the field `from` is `from_` here. -/
structure DeleteBuilder (α ς : Type) where
  placeholderFormat : PlaceholderFormat
  returning : List ς
  prefixes : List ς
  what : List (List Char)
  from_ : List Char
  joins : List (List Char)
  usingParts : List ς
  whereParts : List ς
  orderBys : List (List Char)
  limit : Nat
  limitValid : Bool
  offset : Nat
  offsetValid : Bool
  suffixes : List ς

/-- The function `NewDeleteBuilder(b)`. -/
def NewDeleteBuilder {α ς : Type} (format : PlaceholderFormat) : DeleteBuilder α ς :=
  { placeholderFormat := format, returning := [], prefixes := [], what := [], from_ := [],
    joins := [], usingParts := [], whereParts := [], orderBys := [], limit := 0,
    limitValid := false, offset := 0, offsetValid := false, suffixes := [] }

/-- The method `DeleteBuilder.From`. -/
def DeleteBuilder.From {α ς : Type} (b : DeleteBuilder α ς) (from_ : List Char) :
    DeleteBuilder α ς :=
  { b with from_ := from_ }

/-- The method `DeleteBuilder.What` (delete.go, lines 193-207). -/
def DeleteBuilder.What {α ς : Type} (b : DeleteBuilder α ς) (what : List (List Char)) :
    DeleteBuilder α ς :=
  let filteredWhat := what.foldl
    (fun filtered item => if item.length > 0 then filtered ++ [item] else filtered) []
  let b := { b with what := filteredWhat }
  match filteredWhat with
  | [item] => b.From item
  | _ => b

/-- The method `DeleteBuilder.ToSql` (delete.go, lines 103-178). -/
def DeleteBuilder.ToSql {α ς : Type} (ext : Externals α ς) (b : DeleteBuilder α ς) :
    Run (SqlResult α) :=
  if b.from_.length = 0 then
    Run.returned ([], none, some "delete statements must specify a From table")
  else
    let start : List Char × Option (List α) :=
      if b.prefixes.length > 0 then
        ((ext.exprsAppendToSql b.prefixes [] " ".toList none).1 ++ " ".toList,
          (ext.exprsAppendToSql b.prefixes [] " ".toList none).2.1)
      else ([], none)
    let sql := start.1 ++ "DELETE ".toList
    let sql :=
      if b.what.length > 0 ∧ (b.what.length ≠ 1 ∨ b.what.head? ≠ some b.from_) then
        sql ++ stringsJoin b.what ", ".toList ++ " ".toList
      else sql
    let sql := sql ++ "FROM ".toList ++ b.from_
    let sql := if b.joins.length > 0 then sql ++ " ".toList ++ stringsJoin b.joins " ".toList
      else sql
    let r : List Char × Option (List α) × Option GoError :=
      if b.usingParts.length > 0 then
        ext.appendToSql b.usingParts (sql ++ " USING ".toList) ", ".toList start.2
      else (sql, start.2, none)
    match r with
    | (_, args, some err) => Run.returned ([], args, some err)
    | (sql, args, none) =>
      tailToSql ext b.placeholderFormat b.whereParts b.orderBys b.limit b.limitValid
        b.offset b.offsetValid b.returning b.suffixes sql args

/-- The `SET` list of the columns `c₁, c₂, ...` with the placeholders
`$(i+1), $(i+2), ...`: the text `c₁ = $(i+1), c₂ = $(i+2), ...`. -/
def dollarSetList (i : Nat) : List (List Char) → List Char
  | [] => []
  | [c] => c ++ " = $".toList ++ itoa (i + 1)
  | c :: cs => c ++ " = $".toList ++ itoa (i + 1) ++ ", ".toList ++ dollarSetList (i + 1) cs

/-- The statements of `DeleteBuilder.ToSql` between the check of the `FROM`
table and the keyword `DELETE` (delete.go, lines 109-114): the contents of
the buffer and the arguments once the prefixes are written. -/
def DeleteBuilder.beforeDelete {α ς : Type} (ext : Externals α ς) (b : DeleteBuilder α ς) :
    List Char × Option (List α) :=
  if b.prefixes.length > 0 then
    ((ext.exprsAppendToSql b.prefixes [] " ".toList none).1 ++ " ".toList,
      (ext.exprsAppendToSql b.prefixes [] " ".toList none).2.1)
  else ([], none)

/-- The statements of `DeleteBuilder.ToSql` after the `FROM` table is written
(delete.go, lines 127-177), on the contents of the buffer and the arguments
at that point. -/
def DeleteBuilder.afterFrom {α ς : Type} (ext : Externals α ς) (b : DeleteBuilder α ς)
    (sql : List Char) (args : Option (List α)) : Run (SqlResult α) :=
  let sql := if b.joins.length > 0 then sql ++ " ".toList ++ stringsJoin b.joins " ".toList
    else sql
  let r : List Char × Option (List α) × Option GoError :=
    if b.usingParts.length > 0 then
      ext.appendToSql b.usingParts (sql ++ " USING ".toList) ", ".toList args
    else (sql, args, none)
  match r with
  | (_, args, some err) => Run.returned ([], args, some err)
  | (sql, args, none) =>
    tailToSql ext b.placeholderFormat b.whereParts b.orderBys b.limit b.limitValid
      b.offset b.offsetValid b.returning b.suffixes sql args

/-! ## Texts the properties name -/

/-- The number of anonymous markers of a template without `$`, as the
specification counts them: the `?` characters that are left when the pairs
`??` are taken greedily from the left. -/
def anonymousMarkers : List Char → Nat
  | [] => 0
  | [c] => if c = '?' then 1 else 0
  | c :: d :: r =>
    if c = '?' then
      if d = '?' then anonymousMarkers r
      else 1 + anonymousMarkers (d :: r)
    else anonymousMarkers (d :: r)

/-- The text `$1,$2,...,$n`: the decimal numbers `1..n`, each after a `$`,
joined by commas. -/
def dollarList (n : Nat) : List Char :=
  stringsJoin ((List.range n).map fun i => '$' :: itoa (i + 1)) [',']

/-! ## Facts about the library functions -/

theorem stringsIndex_lt {s : List Char} {c : Char} {p : Nat}
    (h : stringsIndex s c = some p) : p < s.length := by
  induction s generalizing p with
  | nil => simp [stringsIndex] at h
  | cons x r ih =>
    unfold stringsIndex at h
    split at h
    · cases h; simp
    · cases hr : stringsIndex r c with
      | none => simp [hr] at h
      | some q =>
        simp [hr] at h
        have := ih hr
        subst h
        simp
        omega

theorem stringsIndexAny_lt {s chars : List Char} {p : Nat}
    (h : stringsIndexAny s chars = some p) : p < s.length := by
  induction s generalizing p with
  | nil => simp [stringsIndexAny] at h
  | cons x r ih =>
    unfold stringsIndexAny at h
    split at h
    · cases h; simp
    · cases hr : stringsIndexAny r chars with
      | none => simp [hr] at h
      | some q =>
        simp [hr] at h
        have := ih hr
        subst h
        simp
        omega

/-! ## Fuel -/

/-- Any two amounts of fuel above the length of `sql` give the same run. -/
theorem replacePlaceholdersLoop_fuel {σ ε : Type} (replace : Formatter σ ε) :
    ∀ (f1 f2 : Nat) (st : σ) (sql buf : List Char) (i : Nat),
      sql.length < f1 → sql.length < f2 →
      replacePlaceholdersLoop replace f1 st sql buf i
        = replacePlaceholdersLoop replace f2 st sql buf i := by
  intro f1
  induction f1 with
  | zero => intro f2 st sql buf i h1; omega
  | succ a ih =>
    intro f2 st sql buf i h1 h2
    cases f2 with
    | zero => omega
    | succ b =>
      simp only [replacePlaceholdersLoop]
      cases hp : stringsIndex sql '?' with
      | none => rfl
      | some p =>
        have hlt := stringsIndex_lt hp
        simp only
        split
        · split
          · rfl
          · apply ih <;> simp <;> omega
        · split
          · rfl
          · apply ih <;> simp <;> omega

theorem replacePlaceholders_eq_scanFrom {σ ε : Type} (replace : Formatter σ ε) (st : σ)
    (sql : List Char) : replacePlaceholders replace st sql = scanFrom replace st sql [] 0 :=
  rfl

theorem scanFrom_nil {σ ε : Type} (replace : Formatter σ ε) (st : σ) (buf : List Char)
    (i : Nat) : scanFrom replace st [] buf i = (st, Run.returned (buf, none)) := by
  simp [scanFrom, replacePlaceholdersLoop, stringsIndex]

theorem replacePlaceholdersLoop_succ {σ ε : Type} (replace : Formatter σ ε) (fuel : Nat)
    (st : σ) (sql buf : List Char) (i : Nat) :
    replacePlaceholdersLoop replace (fuel + 1) st sql buf i =
      match stringsIndex sql '?' with
      | none => (st, Run.returned (buf ++ sql, none))
      | some p =>
        if (sql.drop p).length > 1 ∧ (sql.drop p).take 2 = ['?', '?'] then
          if (sql.drop p).length = 1 then
            (st, Run.returned (buf ++ sql.take p ++ ['?'] ++ sql, none))
          else
            replacePlaceholdersLoop replace fuel st (sql.drop (p + 2))
              (buf ++ sql.take p ++ ['?']) i
        else
          match replace st (buf ++ sql.take p) (i + 1) with
          | (st, _, some err) => (st, Run.returned ([], some err))
          | (st, buf, none) =>
            replacePlaceholdersLoop replace fuel st (sql.drop (p + 1)) buf (i + 1) :=
  rfl

theorem scanFrom_literal {σ ε : Type} (replace : Formatter σ ε) (st : σ) (c : Char)
    (r buf : List Char) (i : Nat) (hc : c ≠ '?') :
    scanFrom replace st (c :: r) buf i = scanFrom replace st r (buf ++ [c]) i := by
  unfold scanFrom
  rw [List.length_cons, replacePlaceholdersLoop_succ, replacePlaceholdersLoop_succ]
  simp only [stringsIndex, if_neg hc]
  cases hp : stringsIndex r '?' with
  | none => simp
  | some p =>
    have hlt := stringsIndex_lt hp
    simp only [Option.map_some', List.drop_succ_cons, List.take_succ_cons, List.append_assoc,
      List.singleton_append]
    split
    · split
      · rename_i h1 h2
        omega
      · apply replacePlaceholdersLoop_fuel <;> simp <;> omega
    · split
      · rfl
      · apply replacePlaceholdersLoop_fuel <;> simp <;> omega

theorem scanFrom_escape {σ ε : Type} (replace : Formatter σ ε) (st : σ)
    (r buf : List Char) (i : Nat) :
    scanFrom replace st ('?' :: '?' :: r) buf i = scanFrom replace st r (buf ++ ['?']) i := by
  unfold scanFrom
  rw [List.length_cons, replacePlaceholdersLoop_succ]
  simp [stringsIndex]
  apply replacePlaceholdersLoop_fuel
  · omega
  · omega

theorem scanFrom_marker {σ ε : Type} (replace : Formatter σ ε) (st : σ)
    (r buf : List Char) (i : Nat) (hr : r.head? ≠ some '?') :
    scanFrom replace st ('?' :: r) buf i =
      match replace st buf (i + 1) with
      | (st, _, some err) => (st, Run.returned ([], some err))
      | (st, buf, none) => scanFrom replace st r buf (i + 1) := by
  have hne : ¬ (r.length + 1 > 1 ∧ List.take 2 ('?' :: r) = ['?', '?']) := by
    rintro ⟨-, h⟩
    cases r with
    | nil => simp at h
    | cons x t => simp at h; simp [h] at hr
  unfold scanFrom
  rw [List.length_cons, replacePlaceholdersLoop_succ]
  simp only [stringsIndex, if_true, List.drop_zero, List.length_cons, if_neg hne, List.take_zero,
    List.append_nil, zero_add, List.drop_succ_cons]

/-- Induction along the scan of `replacePlaceholders`: literal character,
escape `??`, marker `?`. -/
theorem scan_induction {P : List Char → Prop} (nil : P [])
    (literal : ∀ c r, c ≠ '?' → P r → P (c :: r))
    (escape : ∀ r, P r → P ('?' :: '?' :: r))
    (marker : ∀ r, r.head? ≠ some '?' → P r → P ('?' :: r)) : ∀ s, P s := by
  intro s
  generalize h : s.length = n
  induction n using Nat.strong_induction_on generalizing s with
  | _ n ih =>
    match s, h with
    | [], _ => exact nil
    | c :: r, h =>
      by_cases hc : c = '?'
      · subst hc
        match r, h with
        | [], _ => exact marker [] (by simp) nil
        | d :: t, h =>
          by_cases hd : d = '?'
          · subst hd
            exact escape t (ih t.length (by simp at h; omega) t rfl)
          · exact marker (d :: t) (by simpa using hd)
              (ih (d :: t).length (by simp at h ⊢; omega) (d :: t) rfl)
      · exact literal c r hc (ih r.length (by simp at h; omega) r rfl)

/-! ## The loop of `replacePlaceholdersMixed`, one step at a time -/

theorem le_digitsEnd (sql : List Char) (start : Nat) : start ≤ digitsEnd sql start := by
  unfold digitsEnd
  omega

theorem digitsEnd_cons_succ (c : Char) (r : List Char) (n : Nat) :
    digitsEnd (c :: r) (n + 1) = digitsEnd r n + 1 := by
  simp [digitsEnd]
  omega

theorem replacePlaceholdersMixedLoop_succ {α σ ε : Type} (replace : Formatter σ ε)
    (args : List α) (fuel : Nat) (st : σ) (sql buf : List Char) (i : Nat) (newArgs : List α)
    (arg : Nat) (renumbered : List (Nat × Nat)) :
    replacePlaceholdersMixedLoop replace args (fuel + 1) st sql buf i newArgs arg renumbered =
      match stringsIndexAny sql ['?', '$'] with
      | none => (st, Run.returned (buf ++ sql, some newArgs, none))
      | some p =>
        if (sql.drop p).length > 1 ∧ (sql.drop p).take 2 = ['?', '?'] then
          if (sql.drop p).length = 1 then
            replacePlaceholdersMixedLoop replace args fuel st sql (buf ++ sql.take p ++ ['?']) i
              newArgs arg renumbered
          else
            replacePlaceholdersMixedLoop replace args fuel st (sql.drop (p + 2))
              (buf ++ sql.take p ++ ['?']) i newArgs arg renumbered
        else if (sql.drop p).take 1 = ['?'] then
          match args[arg]? with
          | none => (st, Run.panicked Panic.indexOutOfRange)
          | some a =>
            match replace st (buf ++ sql.take p) (i + 1) with
            | (st, _, some err) => (st, Run.returned ([], none, some err))
            | (st, buf, none) =>
              replacePlaceholdersMixedLoop replace args fuel st (sql.drop (p + 1)) buf (i + 1)
                (newArgs ++ [a]) (arg + 1) renumbered
        else if (sql.drop p).length > 1 ∧ (sql.drop p).take 2 = ['$', '$'] then
          if (sql.drop p).length = 1 then
            replacePlaceholdersMixedLoop replace args fuel st sql (buf ++ sql.take p ++ ['$']) i
              newArgs arg renumbered
          else
            replacePlaceholdersMixedLoop replace args fuel st (sql.drop (p + 2))
              (buf ++ sql.take p ++ ['$']) i newArgs arg renumbered
        else
          if digitsEnd sql (p + 1) = p + 1 then
            replacePlaceholdersMixedLoop replace args fuel st (sql.drop (p + 1))
              (buf ++ sql.take (p + 1)) i newArgs arg renumbered
          else
            match Atoi ((sql.take (digitsEnd sql (p + 1))).drop (p + 1)) with
            | none => (st, Run.panicked Panic.atoiError)
            | some num =>
              match
                (match renumbered.lookup num with
                  | some j => some (j, i, newArgs, renumbered)
                  | none =>
                    match args[arg]? with
                    | none => none
                    | some a => some (i + 1, i + 1, newArgs ++ [a], (num, i + 1) :: renumbered)
                  : Option (Nat × Nat × List α × List (Nat × Nat))) with
              | none => (st, Run.panicked Panic.indexOutOfRange)
              | some (j, i, newArgs, renumbered) =>
                match replace st (buf ++ sql.take p) j with
                | (st, _, some err) => (st, Run.returned ([], none, some err))
                | (st, buf, none) =>
                  replacePlaceholdersMixedLoop replace args fuel st
                    (sql.drop (digitsEnd sql (p + 1))) buf i newArgs (arg + 1) renumbered :=
  rfl

/-- Any two amounts of fuel above the length of `sql` give the same run. -/
theorem replacePlaceholdersMixedLoop_fuel {α σ ε : Type} (replace : Formatter σ ε)
    (args : List α) :
    ∀ (f1 f2 : Nat) (st : σ) (sql buf : List Char) (i : Nat) (newArgs : List α) (arg : Nat)
      (renumbered : List (Nat × Nat)),
      sql.length < f1 → sql.length < f2 →
      replacePlaceholdersMixedLoop replace args f1 st sql buf i newArgs arg renumbered
        = replacePlaceholdersMixedLoop replace args f2 st sql buf i newArgs arg renumbered := by
  intro f1
  induction f1 with
  | zero => intro f2 st sql buf i newArgs arg renumbered h1; omega
  | succ a ih =>
    intro f2 st sql buf i newArgs arg renumbered h1 h2
    cases f2 with
    | zero => omega
    | succ b =>
      rw [replacePlaceholdersMixedLoop_succ, replacePlaceholdersMixedLoop_succ]
      cases hp : stringsIndexAny sql ['?', '$'] with
      | none => rfl
      | some p =>
        have hlt := stringsIndexAny_lt hp
        have hde := le_digitsEnd sql (p + 1)
        simp only
        split
        · split
          · rename_i h3 h4
            omega
          · apply ih <;> simp <;> omega
        · split
          · split
            · rfl
            · split
              · rfl
              · apply ih <;> simp <;> omega
          · split
            · split
              · rename_i h3 h4
                omega
              · apply ih <;> simp <;> omega
            · split
              · apply ih <;> simp <;> omega
              · split
                · rfl
                · split
                  · rfl
                  · split
                    · rfl
                    · apply ih <;> simp <;> omega

section MixedSteps

variable {α σ ε : Type} (replace : Formatter σ ε) (args : List α) (st : σ)
  (buf : List Char) (i : Nat) (newArgs : List α) (arg : Nat) (renumbered : List (Nat × Nat))

theorem replacePlaceholdersMixed_eq_mixedFrom (sql : List Char) :
    replacePlaceholdersMixed replace st sql args = mixedFrom replace args st sql [] 0 [] 0 [] :=
  rfl

theorem mixedFrom_nil :
    mixedFrom replace args st [] buf i newArgs arg renumbered
      = (st, Run.returned (buf, some newArgs, none)) := by
  simp [mixedFrom, replacePlaceholdersMixedLoop, stringsIndexAny]

theorem mixedFrom_literal (c : Char) (r : List Char) (hq : c ≠ '?') (hd : c ≠ '$') :
    mixedFrom replace args st (c :: r) buf i newArgs arg renumbered
      = mixedFrom replace args st r (buf ++ [c]) i newArgs arg renumbered := by
  unfold mixedFrom
  rw [List.length_cons, replacePlaceholdersMixedLoop_succ, replacePlaceholdersMixedLoop_succ]
  have hc : c ∉ ['?', '$'] := by simp [hq, hd]
  simp only [stringsIndexAny, if_neg hc]
  cases hp : stringsIndexAny r ['?', '$'] with
  | none => simp
  | some p =>
    have hlt := stringsIndexAny_lt hp
    have hde := le_digitsEnd r (p + 1)
    simp only [Option.map_some', List.drop_succ_cons, List.take_succ_cons, List.append_assoc,
      List.singleton_append, digitsEnd_cons_succ, add_left_inj, List.cons_append,
      List.nil_append]
    split
    · split
      · rename_i h1 h2
        omega
      · apply replacePlaceholdersMixedLoop_fuel <;> simp <;> omega
    · split
      · split
        · rfl
        · split
          · rfl
          · apply replacePlaceholdersMixedLoop_fuel <;> simp <;> omega
      · split
        · split
          · rename_i h3 h4
            omega
          · apply replacePlaceholdersMixedLoop_fuel <;> simp <;> omega
        · split
          · apply replacePlaceholdersMixedLoop_fuel <;> simp <;> omega
          · split
            · rfl
            · split
              · rfl
              · split
                · rfl
                · apply replacePlaceholdersMixedLoop_fuel <;> simp <;> omega

theorem mixedFrom_escapeQ (r : List Char) :
    mixedFrom replace args st ('?' :: '?' :: r) buf i newArgs arg renumbered
      = mixedFrom replace args st r (buf ++ ['?']) i newArgs arg renumbered := by
  unfold mixedFrom
  rw [List.length_cons, replacePlaceholdersMixedLoop_succ]
  simp [stringsIndexAny]
  apply replacePlaceholdersMixedLoop_fuel
  · omega
  · omega

theorem mixedFrom_anon (r : List Char) (hr : r.head? ≠ some '?') :
    mixedFrom replace args st ('?' :: r) buf i newArgs arg renumbered =
      match args[arg]? with
      | none => (st, Run.panicked Panic.indexOutOfRange)
      | some a =>
        emitThen replace args st r buf (i + 1) (i + 1) (newArgs ++ [a]) (arg + 1) renumbered := by
  have hne : ¬ (r.length + 1 > 1 ∧ '?' :: List.take 1 r = ['?', '?']) := by
    rintro ⟨-, h⟩
    cases r with
    | nil => simp at h
    | cons x t => simp at h; simp [h] at hr
  unfold mixedFrom emitThen mixedFrom
  rw [List.length_cons, replacePlaceholdersMixedLoop_succ]
  simp only [stringsIndexAny, List.mem_cons, true_or, if_true, List.drop_zero, List.length_cons,
    List.take_zero, List.append_nil, zero_add, List.drop_succ_cons, List.take_succ_cons]
  rw [if_neg hne]

theorem mixedFrom_escapeD (r : List Char) :
    mixedFrom replace args st ('$' :: '$' :: r) buf i newArgs arg renumbered
      = mixedFrom replace args st r (buf ++ ['$']) i newArgs arg renumbered := by
  unfold mixedFrom
  rw [List.length_cons, replacePlaceholdersMixedLoop_succ]
  simp [stringsIndexAny]
  apply replacePlaceholdersMixedLoop_fuel
  · omega
  · omega

theorem takeWhile_digits (ds rest : List Char) (hall : ∀ c ∈ ds, isDigit c = true)
    (hrest : ∀ d, rest.head? = some d → isDigit d = false) :
    (ds ++ rest).takeWhile isDigit = ds := by
  induction ds with
  | nil =>
    cases rest with
    | nil => rfl
    | cons d t => simp [List.takeWhile, hrest d (by simp)]
  | cons c t ih =>
    have hc : isDigit c = true := hall c (by simp)
    rw [List.cons_append, List.takeWhile_cons, hc]
    simp only [if_true]
    rw [ih (fun x hx => hall x (by simp [hx]))]

theorem isDigit_ne_question {c : Char} (h : isDigit c = true) : c ≠ '?' := by
  rintro rfl
  simp [isDigit] at h

theorem isDigit_ne_dollar {c : Char} (h : isDigit c = true) : c ≠ '$' := by
  rintro rfl
  simp [isDigit] at h

theorem mixedFrom_bare (r : List Char) (hd : r.head? ≠ some '$')
    (hr : ∀ d, r.head? = some d → isDigit d = false) :
    mixedFrom replace args st ('$' :: r) buf i newArgs arg renumbered
      = mixedFrom replace args st r (buf ++ ['$']) i newArgs arg renumbered := by
  have h1 : ¬ (r.length + 1 > 1 ∧ '$' :: List.take 1 r = ['?', '?']) := by simp
  have h2 : ¬ (r.length + 1 > 1 ∧ '$' :: List.take 1 r = ['$', '$']) := by
    rintro ⟨-, h⟩
    cases r with
    | nil => simp at h
    | cons x t => simp at h; simp [h] at hd
  have h3 : digitsEnd ('$' :: r) 1 = 1 := by
    have := takeWhile_digits [] r (by simp) hr
    simp only [List.nil_append] at this
    simp [digitsEnd, this]
  have hidx : stringsIndexAny ('$' :: r) ['?', '$'] = some 0 := by simp [stringsIndexAny]
  unfold mixedFrom
  rw [List.length_cons, replacePlaceholdersMixedLoop_succ, hidx]
  simp only [List.drop_zero, List.length_cons, List.take_zero, List.append_nil, zero_add,
    List.drop_succ_cons, List.take_succ_cons]
  rw [if_neg h1, if_neg (by simp), if_neg h2, if_pos h3]

theorem mixedFrom_numbered (ds rest : List Char) (hne : ds ≠ [])
    (hall : ∀ c ∈ ds, isDigit c = true)
    (hrest : ∀ d, rest.head? = some d → isDigit d = false) :
    mixedFrom replace args st ('$' :: (ds ++ rest)) buf i newArgs arg renumbered =
      match Atoi ds with
      | none => (st, Run.panicked Panic.atoiError)
      | some num =>
        match renumbered.lookup num with
        | some j => emitThen replace args st rest buf j i newArgs (arg + 1) renumbered
        | none =>
          match args[arg]? with
          | none => (st, Run.panicked Panic.indexOutOfRange)
          | some a =>
            emitThen replace args st rest buf (i + 1) (i + 1) (newArgs ++ [a]) (arg + 1)
              ((num, i + 1) :: renumbered) := by
  obtain ⟨d, t, rfl⟩ := List.exists_cons_of_ne_nil hne
  have hdd : isDigit d = true := hall d (by simp)
  have h1 : ¬ ((d :: t ++ rest).length + 1 > 1 ∧
      '$' :: List.take 1 (d :: t ++ rest) = ['?', '?']) := by simp
  have h2 : ¬ ((d :: t ++ rest).length + 1 > 1 ∧
      '$' :: List.take 1 (d :: t ++ rest) = ['$', '$']) := by
    simp [isDigit_ne_dollar hdd]
  have h3 : digitsEnd ('$' :: (d :: t ++ rest)) 1 = 1 + (d :: t).length := by
    simp only [digitsEnd, List.drop_succ_cons, List.drop_zero]
    rw [takeWhile_digits (d :: t) rest hall hrest]
  have h4 : ¬ (1 + (d :: t).length = 1) := by simp
  have h5 : List.drop 1 (List.take (1 + (d :: t).length) ('$' :: (d :: t ++ rest))) = d :: t := by
    rw [Nat.add_comm, List.take_succ_cons, List.drop_succ_cons, List.drop_zero,
      List.take_left]
  have h6 : List.drop (1 + (d :: t).length) ('$' :: (d :: t ++ rest)) = rest := by
    rw [Nat.add_comm, List.drop_succ_cons, List.drop_left]
  have hidx : stringsIndexAny ('$' :: (d :: t ++ rest)) ['?', '$'] = some 0 := by
    simp [stringsIndexAny]
  unfold mixedFrom
  rw [List.length_cons, replacePlaceholdersMixedLoop_succ, hidx]
  simp only [List.drop_zero, List.length_cons, List.take_zero, List.append_nil, zero_add]
  rw [List.take_succ_cons, if_neg h1, if_neg (by simp), if_neg h2, h3, if_neg h4, h5, h6]
  cases Atoi (d :: t) with
  | none => rfl
  | some num =>
    simp only
    cases renumbered.lookup num with
    | some j =>
      simp only [emitThen, mixedFrom]
      split
      · rfl
      · apply replacePlaceholdersMixedLoop_fuel <;> (simp; try omega)
    | none =>
      simp only
      cases args[arg]? with
      | none => rfl
      | some a =>
        simp only [emitThen, mixedFrom]
        split
        · rfl
        · apply replacePlaceholdersMixedLoop_fuel <;> (simp; try omega)

end MixedSteps

/-- Induction along the scan of `replacePlaceholdersMixed`: literal character,
escape `??`, marker `?`, escape `$$`, bare `$`, marker `$digits`. -/
theorem mixed_induction {P : List Char → Prop} (nil : P [])
    (literal : ∀ c r, c ≠ '?' → c ≠ '$' → P r → P (c :: r))
    (escapeQ : ∀ r, P r → P ('?' :: '?' :: r))
    (anon : ∀ r, r.head? ≠ some '?' → P r → P ('?' :: r))
    (escapeD : ∀ r, P r → P ('$' :: '$' :: r))
    (bare : ∀ r, r.head? ≠ some '$' → (∀ d, r.head? = some d → isDigit d = false) →
      P r → P ('$' :: r))
    (numbered : ∀ ds rest, ds ≠ [] → (∀ c ∈ ds, isDigit c = true) →
      (∀ d, rest.head? = some d → isDigit d = false) → P rest → P ('$' :: (ds ++ rest))) :
    ∀ s, P s := by
  intro s
  generalize h : s.length = n
  induction n using Nat.strong_induction_on generalizing s with
  | _ n ih =>
    match s, h with
    | [], _ => exact nil
    | c :: r, h =>
      have hr : P r := ih r.length (by simp at h; omega) r rfl
      by_cases hq : c = '?'
      · subst hq
        match r, h, hr with
        | [], _, _ => exact anon [] (by simp) nil
        | d :: t, h, hr =>
          by_cases hd : d = '?'
          · subst hd
            exact escapeQ t (ih t.length (by simp at h; omega) t rfl)
          · exact anon (d :: t) (by simpa using hd) hr
      · by_cases hd : c = '$'
        · subst hd
          match r, h, hr with
          | [], _, _ => exact bare [] (by simp) (by simp) nil
          | d :: t, h, hr =>
            by_cases hdd : d = '$'
            · subst hdd
              exact escapeD t (ih t.length (by simp at h; omega) t rfl)
            · cases hdig : isDigit d with
              | false =>
                exact bare (d :: t) (by simpa using hdd) (by simpa using hdig) hr
              | true =>
                have hsplit : d :: t = (d :: t).takeWhile isDigit ++ (d :: t).dropWhile isDigit :=
                  (List.takeWhile_append_dropWhile _ _).symm
                rw [hsplit]
                apply numbered
                · simp [List.takeWhile_cons, hdig]
                · intro x hx
                  exact (List.mem_takeWhile_imp hx)
                · intro x hx
                  have := List.head?_dropWhile_not isDigit (d :: t)
                  rw [hx] at this
                  simpa using this
                · apply ih _ _ _ rfl
                  have hle := congrArg List.length hsplit
                  rw [List.length_append] at hle
                  simp only [List.length_cons] at h hle
                  omega
        · exact literal c r hq hd hr

/-! ## The `Dollar` formatter on `replacePlaceholders` -/

theorem dollarFormat_eq_scanFrom (sql : List Char) :
    dollarFormat.ReplacePlaceholders sql = (scanFrom dollarReplace () sql [] 0).2 :=
  rfl

theorem dollarScan_marker (r buf : List Char) (i : Nat) (hr : r.head? ≠ some '?') :
    scanFrom dollarReplace () ('?' :: r) buf i
      = scanFrom dollarReplace () r (buf ++ '$' :: itoa (i + 1)) (i + 1) := by
  rw [scanFrom_marker _ _ _ _ _ hr]
  rfl

/-- Text without `?` is copied to the buffer. -/
theorem dollarScan_skip (s t buf : List Char) (i : Nat) (hs : '?' ∉ s) :
    scanFrom dollarReplace () (s ++ t) buf i = scanFrom dollarReplace () t (buf ++ s) i := by
  induction s generalizing buf with
  | nil => simp
  | cons c r ih =>
    have hc : c ≠ '?' := fun h => hs (by simp [h])
    have hr : '?' ∉ r := fun h => hs (by simp [h])
    rw [List.cons_append, scanFrom_literal _ _ _ _ _ _ hc, ih _ hr]
    simp

/-- The scan always returns, with a nil error, the buffer it started from
followed by a text that does not depend on the buffer. -/
theorem dollarScan_returns (sql : List Char) :
    ∀ i, ∃ q, ∀ buf,
      scanFrom dollarReplace () sql buf i = ((), Run.returned (buf ++ q, none)) := by
  induction sql using scan_induction with
  | nil => intro i; exact ⟨[], fun buf => by simp [scanFrom_nil]⟩
  | literal c r hc ih =>
    intro i
    obtain ⟨q, hq⟩ := ih i
    exact ⟨c :: q, fun buf => by rw [scanFrom_literal _ _ _ _ _ _ hc, hq]; simp⟩
  | escape r ih =>
    intro i
    obtain ⟨q, hq⟩ := ih i
    exact ⟨'?' :: q, fun buf => by rw [scanFrom_escape, hq]; simp⟩
  | marker r hr ih =>
    intro i
    obtain ⟨q, hq⟩ := ih (i + 1)
    exact ⟨'$' :: (itoa (i + 1) ++ q), fun buf => by rw [dollarScan_marker _ _ _ hr, hq]; simp⟩

theorem getLast?_cons_ne {c x : Char} {r : List Char} (h : (c :: r).getLast? ≠ some x) :
    r.getLast? ≠ some x := by
  cases r with
  | nil => simp
  | cons d t => simpa [List.getLast?_cons_cons] using h

/-- A text that does not end in `?` is scanned the same way whatever follows
it: the scan of `a ++ t` reaches `t` with the buffer and the counter the scan
of `a` alone ends with. -/
theorem dollarScan_split (a : List Char) :
    a.getLast? ≠ some '?' → ∀ i, ∃ p k,
      (∀ buf, scanFrom dollarReplace () a buf i = ((), Run.returned (buf ++ p, none))) ∧
      ∀ t buf, scanFrom dollarReplace () (a ++ t) buf i
        = scanFrom dollarReplace () t (buf ++ p) k := by
  induction a using scan_induction with
  | nil => intro _ i; exact ⟨[], i, fun buf => by simp [scanFrom_nil], fun t buf => by simp⟩
  | literal c r hc ih =>
    intro ha i
    obtain ⟨p, k, h1, h2⟩ := ih (getLast?_cons_ne ha) i
    refine ⟨c :: p, k, fun buf => ?_, fun t buf => ?_⟩
    · rw [scanFrom_literal _ _ _ _ _ _ hc, h1]; simp
    · rw [List.cons_append, scanFrom_literal _ _ _ _ _ _ hc, h2]; simp
  | escape r ih =>
    intro ha i
    obtain ⟨p, k, h1, h2⟩ := ih (getLast?_cons_ne (getLast?_cons_ne ha)) i
    refine ⟨'?' :: p, k, fun buf => ?_, fun t buf => ?_⟩
    · rw [scanFrom_escape, h1]; simp
    · rw [List.cons_append, List.cons_append, scanFrom_escape, h2]; simp
  | marker r hr ih =>
    intro ha i
    obtain ⟨p, k, h1, h2⟩ := ih (getLast?_cons_ne ha) (i + 1)
    have hne : r ≠ [] := by
      rintro rfl
      simp at ha
    refine ⟨'$' :: (itoa (i + 1) ++ p), k, fun buf => ?_, fun t buf => ?_⟩
    · rw [dollarScan_marker _ _ _ hr, h1]; simp
    · have hrt : (r ++ t).head? ≠ some '?' := by
        cases r with
        | nil => exact absurd rfl hne
        | cons d u => simpa using hr
      rw [List.cons_append, dollarScan_marker _ _ _ hrt, h2]; simp

/-- Text without `?` and `$` is copied to the buffer by the mixed scan. -/
theorem mixedFrom_skip {α σ ε : Type} (replace : Formatter σ ε) (args : List α) (st : σ)
    (s t buf : List Char) (i : Nat) (newArgs : List α) (arg : Nat)
    (renumbered : List (Nat × Nat)) (hq : '?' ∉ s) (hd : '$' ∉ s) :
    mixedFrom replace args st (s ++ t) buf i newArgs arg renumbered
      = mixedFrom replace args st t (buf ++ s) i newArgs arg renumbered := by
  induction s generalizing buf with
  | nil => simp
  | cons c r ih =>
    have hc1 : c ≠ '?' := fun h => hq (by simp [h])
    have hc2 : c ≠ '$' := fun h => hd (by simp [h])
    have hr1 : '?' ∉ r := fun h => hq (by simp [h])
    have hr2 : '$' ∉ r := fun h => hd (by simp [h])
    rw [List.cons_append, mixedFrom_literal _ _ _ _ _ _ _ _ _ _ hc1 hc2, ih _ hr1 hr2]
    simp

theorem dollarScan_segments (segs : List (List Char)) :
    (∀ s ∈ segs, '?' ∉ s) → (∀ s ∈ segs.dropLast, s ≠ []) → ∀ buf i,
      scanFrom dollarReplace () (joinQuestion segs) buf i
        = ((), Run.returned (buf ++ joinDollar i segs, none)) := by
  induction segs with
  | nil => intro _ _ buf i; simp [joinQuestion, joinDollar, scanFrom_nil]
  | cons s ss ih =>
    intro hs hin buf i
    have hs0 : '?' ∉ s := hs s (by simp)
    have hss : ∀ x ∈ ss, '?' ∉ x := fun x hx => hs x (by simp [hx])
    have hin2 : ∀ x ∈ ss.dropLast, x ≠ [] := by
      intro x hx
      cases ss with
      | nil => simp at hx
      | cons y ys => exact hin x (by simp [List.dropLast_cons₂, hx])
    have hhead : (s ++ joinQuestion ss).head? ≠ some '?' := by
      cases s with
      | nil =>
        cases ss with
        | nil => simp [joinQuestion]
        | cons y ys => exact absurd rfl (hin [] (by simp [List.dropLast_cons₂]))
      | cons c r =>
        intro h
        simp at h
        exact hs0 (by simp [h])
    rw [joinQuestion, dollarScan_marker _ _ _ hhead, dollarScan_skip _ _ _ _ hs0, ih hss hin2]
    simp [joinDollar]

/-! ## The claims on `replacePlaceholders` and on templates without markers -/

/-- C4 (sequential numbering).  For segments `s₀, s₁, …, s_k` without `?`, the
inner ones non-empty, `Dollar.ReplacePlaceholders` turns
`s₀ ? s₁ ? … ? s_k` into `s₀ $1 s₁ $2 … $k s_k` and returns a nil error: the
`k` question marks are numbered 1..k from left to right, in decimal. -/
theorem dollar_sequential_numbering (s0 : List Char) (segs : List (List Char))
    (h0 : '?' ∉ s0) (hs : ∀ s ∈ segs, '?' ∉ s) (hin : ∀ s ∈ segs.dropLast, s ≠ []) :
    dollarFormat.ReplacePlaceholders (s0 ++ joinQuestion segs)
      = Run.returned (s0 ++ joinDollar 0 segs, none) := by
  rw [dollarFormat_eq_scanFrom, dollarScan_skip _ _ _ _ h0, dollarScan_segments segs hs hin]
  simp

/-- C4, at the template of `TestDollar`: `"x = ? AND y = ?"` gives
`"x = $1 AND y = $2"`. -/
theorem dollar_sequential_numbering_witness :
    "x = ".toList ++ joinQuestion [" AND y = ".toList, []] = "x = ? AND y = ?".toList ∧
    "x = ".toList ++ joinDollar 0 [" AND y = ".toList, []] = "x = $1 AND y = $2".toList ∧
    dollarFormat.ReplacePlaceholders ("x = ".toList ++ joinQuestion [" AND y = ".toList, []])
      = Run.returned ("x = ".toList ++ joinDollar 0 [" AND y = ".toList, []], none) :=
  ⟨by decide, by decide,
    dollar_sequential_numbering "x = ".toList [" AND y = ".toList, []]
      (by decide) (by decide) (by decide)⟩

/-- C5 (escape law for `??`).  When `a` does not end in `?` and `c` is not
`?`, the outputs of `Dollar.ReplacePlaceholders` for `a ++ c ++ b` and for
`a ++ "??" ++ b` are the output `p` for `a` alone, then `c` resp. one `?`,
then the same text `q`: the escape becomes one literal `?`, takes no number,
and the markers after it are numbered as if it were ordinary text. -/
theorem dollar_escape_law (a b : List Char) (c : Char)
    (ha : a.getLast? ≠ some '?') (hc : c ≠ '?') :
    ∃ p q,
      dollarFormat.ReplacePlaceholders a = Run.returned (p, none) ∧
      dollarFormat.ReplacePlaceholders (a ++ c :: b) = Run.returned (p ++ c :: q, none) ∧
      dollarFormat.ReplacePlaceholders (a ++ '?' :: '?' :: b)
        = Run.returned (p ++ '?' :: q, none) := by
  obtain ⟨p, k, h1, h2⟩ := dollarScan_split a ha 0
  obtain ⟨q, hq⟩ := dollarScan_returns b k
  refine ⟨p, q, ?_, ?_, ?_⟩
  · rw [dollarFormat_eq_scanFrom, h1]; simp
  · rw [dollarFormat_eq_scanFrom, h2, scanFrom_literal _ _ _ _ _ _ hc, hq]; simp
  · rw [dollarFormat_eq_scanFrom, h2, scanFrom_escape, hq]; simp

/-- C5, on a shortened form of the template of `TestEscape`. -/
theorem dollar_escape_law_witness :
    ∃ p q,
      dollarFormat.ReplacePlaceholders "'tags' ".toList = Run.returned (p, none) ∧
      dollarFormat.ReplacePlaceholders ("'tags' ".toList ++ '#' :: "| array['?'] AND e = ?".toList)
        = Run.returned (p ++ '#' :: q, none) ∧
      dollarFormat.ReplacePlaceholders
          ("'tags' ".toList ++ '?' :: '?' :: "| array['?'] AND e = ?".toList)
        = Run.returned (p ++ '?' :: q, none) :=
  dollar_escape_law "'tags' ".toList "| array['?'] AND e = ?".toList '#' (by decide) (by decide)

/-- C8 (identity law).  A template without `?` is returned unchanged, with a
nil error, by `Question.ReplacePlaceholders` and by
`Dollar.ReplacePlaceholders`; when it has no `$` either,
`Dollar.ReplacePlaceholdersMixed` returns it unchanged with an empty, non-nil
argument list and a nil error, whatever `args` is. -/
theorem identity_law {α : Type} (t : List Char) (args : List α) (hq : '?' ∉ t) :
    questionFormat.ReplacePlaceholders t = (t, none) ∧
    dollarFormat.ReplacePlaceholders t = Run.returned (t, none) ∧
    ('$' ∉ t →
      dollarFormat.ReplacePlaceholdersMixed t args = Run.returned (t, some [], none)) := by
  refine ⟨rfl, ?_, fun hd => ?_⟩
  · have h := dollarScan_skip t [] [] 0 hq
    rw [List.append_nil] at h
    rw [dollarFormat_eq_scanFrom, h, scanFrom_nil]
    simp
  · have h := mixedFrom_skip dollarReplace args () t [] [] 0 [] 0 [] hq hd
    rw [List.append_nil] at h
    unfold dollarFormat.ReplacePlaceholdersMixed
    rw [replacePlaceholdersMixed_eq_mixedFrom, h, mixedFrom_nil]
    simp

/-- C8, at a template without markers and a non-empty argument list, which
is dropped. -/
theorem identity_law_witness :
    '?' ∉ "SELECT 1".toList ∧ '$' ∉ "SELECT 1".toList ∧
    questionFormat.ReplacePlaceholders "SELECT 1".toList = ("SELECT 1".toList, none) ∧
    dollarFormat.ReplacePlaceholders "SELECT 1".toList
      = Run.returned ("SELECT 1".toList, none) ∧
    dollarFormat.ReplacePlaceholdersMixed "SELECT 1".toList [7, 8]
      = Run.returned ("SELECT 1".toList, some [], none) :=
  have h := identity_law "SELECT 1".toList [7, 8] (by decide)
  ⟨by decide, by decide, h.1, h.2.1, h.2.2 (by decide)⟩

/-- C9 (identity strategy).  `Question.ReplacePlaceholders` returns every
string unchanged with a nil error, so applying it to its own output gives the
same result again. -/
theorem question_identity (s : List Char) :
    questionFormat.ReplacePlaceholders s = (s, none) ∧
    questionFormat.ReplacePlaceholders (questionFormat.ReplacePlaceholders s).1
      = questionFormat.ReplacePlaceholders s :=
  ⟨rfl, rfl⟩

/-! ## Tracing the callback -/

/-- The run that records the calls of the callback ends as the run that does
not, and its record is one of two: every call succeeded and the function
returned a text with a nil error, or the last call failed with `e` and the
function returned the empty text with `e`. -/
theorem traced_scanFrom {σ ε : Type} (replace : Formatter σ ε) (sql : List Char) :
    ∀ (st : σ) (log : List (Nat × Option ε)) (buf : List Char) (i : Nat),
      (scanFrom (traced replace) (st, log) sql buf i).1.1 = (scanFrom replace st sql buf i).1 ∧
      (scanFrom (traced replace) (st, log) sql buf i).2 = (scanFrom replace st sql buf i).2 ∧
      ((∃ new s, (scanFrom (traced replace) (st, log) sql buf i).1.2 = log ++ new ∧
          (∀ c ∈ new, c.2 = none) ∧
          (scanFrom (traced replace) (st, log) sql buf i).2 = Run.returned (s, none)) ∨
       (∃ ok j e, (scanFrom (traced replace) (st, log) sql buf i).1.2 = log ++ ok ++ [(j, some e)] ∧
          (∀ c ∈ ok, c.2 = none) ∧
          (scanFrom (traced replace) (st, log) sql buf i).2 = Run.returned ([], some e))) := by
  induction sql using scan_induction with
  | nil =>
    intro st log buf i
    simp only [scanFrom_nil]
    exact ⟨trivial, trivial, Or.inl ⟨[], buf, by simp, by simp, rfl⟩⟩
  | literal c r hc ih =>
    intro st log buf i
    simp only [scanFrom_literal _ _ _ _ _ _ hc]
    exact ih st log _ i
  | escape r ih =>
    intro st log buf i
    simp only [scanFrom_escape]
    exact ih st log _ i
  | marker r hr ih =>
    intro st log buf i
    simp only [scanFrom_marker _ _ _ _ _ hr]
    rcases h : replace st buf (i + 1) with ⟨st1, buf1, oe⟩
    cases oe with
    | some e =>
      simp only [traced, h]
      exact ⟨trivial, trivial, Or.inr ⟨[], i + 1, e, by simp, by simp, rfl⟩⟩
    | none =>
      simp only [traced, h]
      obtain ⟨h1, h2, h3⟩ := ih st1 (log ++ [(i + 1, none)]) buf1 (i + 1)
      refine ⟨h1, h2, ?_⟩
      rcases h3 with ⟨new, s, e1, e2, e3⟩ | ⟨ok, j, e, e1, e2, e3⟩
      · refine Or.inl ⟨(i + 1, none) :: new, s, by simp [e1], ?_, e3⟩
        intro c hcm
        rcases List.mem_cons.1 hcm with rfl | hcm
        · rfl
        · exact e2 c hcm
      · refine Or.inr ⟨(i + 1, none) :: ok, j, e, by simp [e1], ?_, e3⟩
        intro c hcm
        rcases List.mem_cons.1 hcm with rfl | hcm
        · rfl
        · exact e2 c hcm


theorem AtomicMixed.step {α σ ε : Type} {log : List (Nat × Option ε)} {j : Nat}
    {r : (σ × List (Nat × Option ε)) × Run (List Char × Option (List α) × Option ε)}
    {u : σ × Run (List Char × Option (List α) × Option ε)}
    (h : AtomicMixed (log ++ [(j, none)]) r u) : AtomicMixed log r u := by
  obtain ⟨h1, h2, h3⟩ := h
  refine ⟨h1, h2, ?_⟩
  rcases h3 with ⟨new, e1, e2, e3⟩ | ⟨ok, k, e, e1, e2, e3⟩
  · refine Or.inl ⟨(j, none) :: new, by simp [e1], ?_, e3⟩
    intro c hcm
    rcases List.mem_cons.1 hcm with rfl | hcm
    · rfl
    · exact e2 c hcm
  · refine Or.inr ⟨(j, none) :: ok, k, e, by simp [e1], ?_, e3⟩
    intro c hcm
    rcases List.mem_cons.1 hcm with rfl | hcm
    · rfl
    · exact e2 c hcm

theorem AtomicMixed.panicked {α σ ε : Type} (log : List (Nat × Option ε)) (st : σ) (w : Panic) :
    AtomicMixed (α := α) log ((st, log), Run.panicked w) (st, Run.panicked w) :=
  ⟨rfl, rfl, Or.inl ⟨[], by simp, by simp, Or.inl ⟨w, rfl⟩⟩⟩

theorem traced_emitThen {α σ ε : Type} (replace : Formatter σ ε) (args : List α)
    (rest : List Char)
    (ih : ∀ (st : σ) (log : List (Nat × Option ε)) (buf : List Char) (i : Nat)
      (newArgs : List α) (arg : Nat) (renumbered : List (Nat × Nat)),
      AtomicMixed log (mixedFrom (traced replace) args (st, log) rest buf i newArgs arg renumbered)
        (mixedFrom replace args st rest buf i newArgs arg renumbered))
    (st : σ) (log : List (Nat × Option ε)) (buf : List Char) (j i : Nat)
    (newArgs : List α) (arg : Nat) (renumbered : List (Nat × Nat)) :
    AtomicMixed log (emitThen (traced replace) args (st, log) rest buf j i newArgs arg renumbered)
      (emitThen replace args st rest buf j i newArgs arg renumbered) := by
  unfold emitThen
  rcases h : replace st buf j with ⟨st1, buf1, oe⟩
  cases oe with
  | some e =>
    simp only [traced, h]
    exact ⟨rfl, rfl, Or.inr ⟨[], j, e, by simp, by simp, rfl⟩⟩
  | none =>
    simp only [traced, h]
    exact (ih st1 (log ++ [(j, none)]) buf1 i newArgs arg renumbered).step

theorem traced_mixedFrom {α σ ε : Type} (replace : Formatter σ ε) (args : List α)
    (sql : List Char) :
    ∀ (st : σ) (log : List (Nat × Option ε)) (buf : List Char) (i : Nat)
      (newArgs : List α) (arg : Nat) (renumbered : List (Nat × Nat)),
      AtomicMixed log (mixedFrom (traced replace) args (st, log) sql buf i newArgs arg renumbered)
        (mixedFrom replace args st sql buf i newArgs arg renumbered) := by
  induction sql using mixed_induction with
  | nil =>
    intro st log buf i newArgs arg renumbered
    simp only [mixedFrom_nil]
    exact ⟨rfl, rfl, Or.inl ⟨[], by simp, by simp, Or.inr ⟨buf, newArgs, rfl⟩⟩⟩
  | literal c r hq hd ih =>
    intro st log buf i newArgs arg renumbered
    simp only [mixedFrom_literal _ _ _ _ _ _ _ _ _ _ hq hd]
    exact ih _ _ _ _ _ _ _
  | escapeQ r ih =>
    intro st log buf i newArgs arg renumbered
    simp only [mixedFrom_escapeQ]
    exact ih _ _ _ _ _ _ _
  | anon r hr ih =>
    intro st log buf i newArgs arg renumbered
    simp only [mixedFrom_anon _ _ _ _ _ _ _ _ _ hr]
    cases args[arg]? with
    | none => exact AtomicMixed.panicked log st _
    | some a => exact traced_emitThen replace args r ih _ _ _ _ _ _ _ _
  | escapeD r ih =>
    intro st log buf i newArgs arg renumbered
    simp only [mixedFrom_escapeD]
    exact ih _ _ _ _ _ _ _
  | bare r hd hr ih =>
    intro st log buf i newArgs arg renumbered
    simp only [mixedFrom_bare _ _ _ _ _ _ _ _ _ hd hr]
    exact ih _ _ _ _ _ _ _
  | numbered ds rest hne hall hrest ih =>
    intro st log buf i newArgs arg renumbered
    simp only [mixedFrom_numbered _ _ _ _ _ _ _ _ _ _ hne hall hrest]
    cases Atoi ds with
    | none => exact AtomicMixed.panicked log st _
    | some num =>
      dsimp only
      cases renumbered.lookup num with
      | some j => exact traced_emitThen replace args rest ih _ _ _ _ _ _ _ _
      | none =>
        dsimp only
        cases args[arg]? with
        | none => exact AtomicMixed.panicked log st _
        | some a => exact traced_emitThen replace args rest ih _ _ _ _ _ _ _ _

/-- C10 (formatter failure is atomic).  Run either function with any callback
`replace`, recording its calls.  The record changes nothing of the outcome.
If a recorded call returned an error `e`, the function returned the empty
text with exactly `e` (and, for the mixed function, a nil argument list), and
that call is the last of the record: no call follows a failing one.  If no
recorded call failed, `replacePlaceholders` returned with a nil error, and
`replacePlaceholdersMixed` either panicked or returned a text and an argument
list with a nil error. -/
theorem formatter_failure_atomic {α σ ε : Type} (replace : Formatter σ ε) (st : σ)
    (sql : List Char) (args : List α) :
    ((replacePlaceholders (traced replace) (st, []) sql).2
        = (replacePlaceholders replace st sql).2 ∧
      (∀ j e, (j, some e) ∈ (replacePlaceholders (traced replace) (st, []) sql).1.2 →
        (replacePlaceholders replace st sql).2 = Run.returned ([], some e) ∧
        ∃ ok, (replacePlaceholders (traced replace) (st, []) sql).1.2 = ok ++ [(j, some e)] ∧
          ∀ c ∈ ok, c.2 = none) ∧
      ((∀ c ∈ (replacePlaceholders (traced replace) (st, []) sql).1.2, c.2 = none) →
        ∃ s, (replacePlaceholders replace st sql).2 = Run.returned (s, none))) ∧
    ((replacePlaceholdersMixed (traced replace) (st, []) sql args).2
        = (replacePlaceholdersMixed replace st sql args).2 ∧
      (∀ j e, (j, some e) ∈ (replacePlaceholdersMixed (traced replace) (st, []) sql args).1.2 →
        (replacePlaceholdersMixed replace st sql args).2 = Run.returned ([], none, some e) ∧
        ∃ ok, (replacePlaceholdersMixed (traced replace) (st, []) sql args).1.2
            = ok ++ [(j, some e)] ∧
          ∀ c ∈ ok, c.2 = none) ∧
      ((∀ c ∈ (replacePlaceholdersMixed (traced replace) (st, []) sql args).1.2, c.2 = none) →
        (∃ w, (replacePlaceholdersMixed replace st sql args).2 = Run.panicked w) ∨
        ∃ s n, (replacePlaceholdersMixed replace st sql args).2
          = Run.returned (s, some n, none))) := by
  constructor
  · obtain ⟨-, h2, h3⟩ := traced_scanFrom replace sql st [] [] 0
    simp only [← replacePlaceholders_eq_scanFrom] at h2 h3
    refine ⟨h2, ?_, ?_⟩
    · intro j e hmem
      rcases h3 with ⟨new, s, e1, e2, -⟩ | ⟨ok, k, e', e1, e2, e3⟩
      · rw [e1] at hmem
        have := e2 _ (by simpa using hmem)
        simp at this
      · rw [e1] at hmem
        simp only [List.nil_append, List.mem_append, List.mem_singleton] at hmem
        rcases hmem with hmem | hmem
        · have := e2 _ hmem
          simp at this
        · cases hmem
          exact ⟨by rw [← h2, e3], ok, by simpa using e1, e2⟩
    · intro hall
      rcases h3 with ⟨new, s, -, -, e3⟩ | ⟨ok, k, e', e1, -, -⟩
      · exact ⟨s, by rw [← h2, e3]⟩
      · have := hall (k, some e') (by rw [e1]; simp)
        simp at this
  · obtain ⟨-, h2, h3⟩ := traced_mixedFrom replace args sql st [] [] 0 [] 0 []
    simp only [← replacePlaceholdersMixed_eq_mixedFrom] at h2 h3
    refine ⟨h2, ?_, ?_⟩
    · intro j e hmem
      rcases h3 with ⟨new, e1, e2, -⟩ | ⟨ok, k, e', e1, e2, e3⟩
      · rw [e1] at hmem
        have := e2 _ (by simpa using hmem)
        simp at this
      · rw [e1] at hmem
        simp only [List.nil_append, List.mem_append, List.mem_singleton] at hmem
        rcases hmem with hmem | hmem
        · have := e2 _ hmem
          simp at this
        · cases hmem
          exact ⟨by rw [← h2, e3], ok, by simpa using e1, e2⟩
    · intro hall
      rcases h3 with ⟨new, -, -, e3⟩ | ⟨ok, k, e', e1, -, -⟩
      · rcases e3 with ⟨w, e3⟩ | ⟨s, n, e3⟩
        · exact Or.inl ⟨w, by rw [← h2, e3]⟩
        · exact Or.inr ⟨s, n, by rw [← h2, e3]⟩
      · have := hall (k, some e') (by rw [e1]; simp)
        simp at this

/-! ## Marker occurrences along the scan -/

theorem markerOccurrences_literal (c : Char) (r : List Char) (hq : c ≠ '?') (hd : c ≠ '$') :
    markerOccurrences (c :: r) = markerOccurrences r := by
  cases r with
  | nil => simp [markerOccurrences, hq]
  | cons d t => simp [markerOccurrences, hq, hd]

theorem markerOccurrences_escapeQ (r : List Char) :
    markerOccurrences ('?' :: '?' :: r) = markerOccurrences r := by
  simp [markerOccurrences]

theorem markerOccurrences_anon (r : List Char) (hr : r.head? ≠ some '?') :
    markerOccurrences ('?' :: r) = Marker.anon :: markerOccurrences r := by
  cases r with
  | nil => simp [markerOccurrences]
  | cons d t =>
    have hd : d ≠ '?' := by simpa using hr
    simp [markerOccurrences, hd]

theorem markerOccurrences_escapeD (r : List Char) :
    markerOccurrences ('$' :: '$' :: r) = markerOccurrences r := by
  simp [markerOccurrences]

theorem markerOccurrences_bare (r : List Char) (hd : r.head? ≠ some '$')
    (hr : ∀ d, r.head? = some d → isDigit d = false) :
    markerOccurrences ('$' :: r) = markerOccurrences r := by
  cases r with
  | nil => simp [markerOccurrences]
  | cons d t =>
    have h1 : d ≠ '$' := by simpa using hd
    have h2 : isDigit d = false := hr d (by simp)
    simp [markerOccurrences, h1, h2]

theorem markerOccurrences_digits (ds rest : List Char) (hall : ∀ c ∈ ds, isDigit c = true) :
    markerOccurrences (ds ++ rest) = markerOccurrences rest := by
  induction ds with
  | nil => rfl
  | cons c t ih =>
    have hc : isDigit c = true := hall c (by simp)
    rw [List.cons_append,
      markerOccurrences_literal _ _ (isDigit_ne_question hc) (isDigit_ne_dollar hc),
      ih (fun x hx => hall x (by simp [hx]))]

theorem markerOccurrences_numbered (ds rest : List Char) (hne : ds ≠ [])
    (hall : ∀ c ∈ ds, isDigit c = true)
    (hrest : ∀ d, rest.head? = some d → isDigit d = false) :
    markerOccurrences ('$' :: (ds ++ rest))
      = Marker.numbered (digitsValue ds) :: markerOccurrences rest := by
  obtain ⟨d, t, rfl⟩ := List.exists_cons_of_ne_nil hne
  have hd : isDigit d = true := hall d (by simp)
  have h1 : d ≠ '$' := isDigit_ne_dollar hd
  have h2 := takeWhile_digits (d :: t) rest hall hrest
  have h3 := markerOccurrences_digits (d :: t) rest hall
  rw [List.cons_append] at h2 h3
  rw [List.cons_append, markerOccurrences]
  simp only [h1, hd, if_true, if_false, h2, h3]
  simp

/-! ## The `Dollar` formatter on `replacePlaceholdersMixed` -/

theorem emitThen_dollar {α : Type} (args : List α) (log : List (Nat × Option GoError))
    (rest buf : List Char) (j i : Nat) (newArgs : List α) (arg : Nat)
    (renumbered : List (Nat × Nat)) :
    emitThen (traced dollarReplace) args ((), log) rest buf j i newArgs arg renumbered
      = mixedFrom (traced dollarReplace) args ((), log ++ [(j, none)]) rest
          (buf ++ '$' :: itoa j) i newArgs arg renumbered :=
  rfl

theorem Atoi_of_le {ds : List Char} (h : digitsValue ds ≤ maxInt) :
    Atoi ds = some (digitsValue ds) := by
  simp [Atoi, h]

theorem drop_of_getElem? {α : Type} {args : List α} {arg : Nat} {a : α}
    (h : args[arg]? = some a) : args.drop arg = a :: args.drop (arg + 1) := by
  obtain ⟨hlt, rfl⟩ := List.getElem?_eq_some.1 h
  exact List.drop_eq_getElem_cons hlt

theorem pick_drop_true {α : Type} {args : List α} {arg : Nat} {a : α}
    (h : args[arg]? = some a) (fs : List Bool) :
    pick (args.drop arg) (true :: fs) = a :: pick (args.drop (arg + 1)) fs := by
  rw [drop_of_getElem? h, pick]

theorem pick_drop_false {α : Type} {args : List α} {arg : Nat} {a : α}
    (h : args[arg]? = some a) (fs : List Bool) :
    pick (args.drop arg) (false :: fs) = pick (args.drop (arg + 1)) fs := by
  rw [drop_of_getElem? h, pick]

/-- With digit runs that fit an `int` and an argument for every marker
occurrence still to come, the mixed scan returns: the calls it makes are the
numbers of `renumber`, and the arguments it keeps are those flagged new. -/
theorem dollarMixed_run {α : Type} (args : List α) (sql : List Char) :
    ∀ (i arg : Nat) (renumbered : List (Nat × Nat)),
      FitsInt (markerOccurrences sql) →
      arg + (markerOccurrences sql).length ≤ args.length →
      ∃ q, ∀ (log : List (Nat × Option GoError)) (buf : List Char) (newArgs : List α),
        mixedFrom (traced dollarReplace) args ((), log) sql buf i newArgs arg renumbered
          = (((), log ++ (renumber (markerOccurrences sql) i renumbered).map
                fun p => (p.1, none)),
              Run.returned (buf ++ q,
                some (newArgs ++ pick (args.drop arg)
                  ((renumber (markerOccurrences sql) i renumbered).map Prod.snd)),
                none)) := by
  induction sql using mixed_induction with
  | nil =>
    intro i arg renumbered _ _
    exact ⟨[], fun log buf newArgs => by
      simp [mixedFrom_nil, markerOccurrences, renumber, pick]⟩
  | literal c r hq hd ih =>
    intro i arg renumbered hf hs
    rw [markerOccurrences_literal c r hq hd] at hf hs ⊢
    obtain ⟨q, h⟩ := ih i arg renumbered hf hs
    exact ⟨c :: q, fun log buf newArgs => by
      rw [mixedFrom_literal _ _ _ _ _ _ _ _ _ _ hq hd, h]; simp⟩
  | escapeQ r ih =>
    intro i arg renumbered hf hs
    rw [markerOccurrences_escapeQ] at hf hs ⊢
    obtain ⟨q, h⟩ := ih i arg renumbered hf hs
    exact ⟨'?' :: q, fun log buf newArgs => by rw [mixedFrom_escapeQ, h]; simp⟩
  | anon r hr ih =>
    intro i arg renumbered hf hs
    rw [markerOccurrences_anon r hr] at hf hs ⊢
    have hlt : arg < args.length := by simp at hs; omega
    have hget : args[arg]? = some args[arg] := List.getElem?_eq_getElem hlt
    obtain ⟨q, h⟩ := ih (i + 1) (arg + 1) renumbered
      (fun m hm => hf m (by simp [hm])) (by simp at hs; omega)
    refine ⟨'$' :: (itoa (i + 1) ++ q), fun log buf newArgs => ?_⟩
    rw [mixedFrom_anon _ _ _ _ _ _ _ _ _ hr, hget]
    simp only [emitThen_dollar]
    rw [h]
    simp only [renumber, List.map_cons, pick_drop_true hget]
    simp
  | escapeD r ih =>
    intro i arg renumbered hf hs
    rw [markerOccurrences_escapeD] at hf hs ⊢
    obtain ⟨q, h⟩ := ih i arg renumbered hf hs
    exact ⟨'$' :: q, fun log buf newArgs => by rw [mixedFrom_escapeD, h]; simp⟩
  | bare r hd hr ih =>
    intro i arg renumbered hf hs
    rw [markerOccurrences_bare r hd hr] at hf hs ⊢
    obtain ⟨q, h⟩ := ih i arg renumbered hf hs
    exact ⟨'$' :: q, fun log buf newArgs => by
      rw [mixedFrom_bare _ _ _ _ _ _ _ _ _ hd hr, h]; simp⟩
  | numbered ds rest hne hall hrest ih =>
    intro i arg renumbered hf hs
    rw [markerOccurrences_numbered ds rest hne hall hrest] at hf hs ⊢
    have hfit : digitsValue ds ≤ maxInt := by
      have := hf (Marker.numbered (digitsValue ds)) (by simp)
      simpa [Marker.fits] using this
    have hlt : arg < args.length := by simp at hs; omega
    have hget : args[arg]? = some args[arg] := List.getElem?_eq_getElem hlt
    have hf2 : FitsInt (markerOccurrences rest) := fun m hm => hf m (by simp [hm])
    have hs2 : arg + 1 + (markerOccurrences rest).length ≤ args.length := by
      simp at hs; omega
    cases hl : renumbered.lookup (digitsValue ds) with
    | some j =>
      obtain ⟨q, h⟩ := ih i (arg + 1) renumbered hf2 hs2
      refine ⟨'$' :: (itoa j ++ q), fun log buf newArgs => ?_⟩
      rw [mixedFrom_numbered _ _ _ _ _ _ _ _ _ _ hne hall hrest, Atoi_of_le hfit]
      simp only [hl, emitThen_dollar]
      rw [h]
      simp only [renumber, hl, List.map_cons, pick_drop_false hget]
      simp
    | none =>
      obtain ⟨q, h⟩ := ih (i + 1) (arg + 1) ((digitsValue ds, i + 1) :: renumbered) hf2 hs2
      refine ⟨'$' :: (itoa (i + 1) ++ q), fun log buf newArgs => ?_⟩
      rw [mixedFrom_numbered _ _ _ _ _ _ _ _ _ _ hne hall hrest, Atoi_of_le hfit]
      simp only [hl, hget, emitThen_dollar]
      rw [h]
      simp only [renumber, hl, List.map_cons, pick_drop_true hget]
      simp

/-! ## Which arguments are kept -/

theorem introducesFrom_nil (ms : List Marker) (k : Nat) :
    introducesFrom [] ms k = introduces ms k := by
  unfold introducesFrom introduces
  cases ms[k]? with
  | none => rfl
  | some m => cases m <;> simp [List.lookup]

theorem introducesFrom_anon (renumbered : List (Nat × Nat)) (ms : List Marker) (k : Nat) :
    introducesFrom renumbered (Marker.anon :: ms) (k + 1) = introducesFrom renumbered ms k := by
  unfold introducesFrom
  rw [List.getElem?_cons_succ]
  cases ms[k]? with
  | none => rfl
  | some m => cases m <;> simp [List.take_succ_cons]

theorem introducesFrom_seen (renumbered : List (Nat × Nat)) (ms : List Marker) (k n j : Nat)
    (h : renumbered.lookup n = some j) :
    introducesFrom renumbered (Marker.numbered n :: ms) (k + 1)
      = introducesFrom renumbered ms k := by
  unfold introducesFrom
  rw [List.getElem?_cons_succ]
  cases ms[k]? with
  | none => rfl
  | some m =>
    cases m with
    | anon => rfl
    | numbered n2 =>
      by_cases hn : n2 = n
      · subst hn; simp [h]
      · simp [List.take_succ_cons, hn]

theorem introducesFrom_new (renumbered : List (Nat × Nat)) (ms : List Marker) (k n j : Nat) :
    introducesFrom renumbered (Marker.numbered n :: ms) (k + 1)
      = introducesFrom ((n, j) :: renumbered) ms k := by
  unfold introducesFrom
  rw [List.getElem?_cons_succ]
  cases ms[k]? with
  | none => rfl
  | some m =>
    cases m with
    | anon => rfl
    | numbered n2 =>
      by_cases hn : n2 = n
      · subst hn; simp [List.take_succ_cons, List.lookup]
      · have hb : (n2 == n) = false := by simpa using hn
        simp [List.take_succ_cons, List.lookup, hn, hb]

theorem renumber_flags (ms : List Marker) :
    ∀ (i : Nat) (renumbered : List (Nat × Nat)),
      (renumber ms i renumbered).map Prod.snd
        = (List.range ms.length).map (introducesFrom renumbered ms) := by
  induction ms with
  | nil => intro i renumbered; rfl
  | cons m ms ih =>
    intro i renumbered
    rw [List.length_cons, List.range_succ_eq_map, List.map_cons, List.map_map]
    cases m with
    | anon =>
      rw [renumber, List.map_cons, ih]
      congr 1
      · simp [introducesFrom]
      · apply List.map_congr_left
        intro k _
        exact (introducesFrom_anon renumbered ms k).symm
    | numbered n =>
      cases hl : renumbered.lookup n with
      | some j =>
        simp only [renumber, hl, List.map_cons]
        rw [ih]
        congr 1
        · simp [introducesFrom, hl]
        · apply List.map_congr_left
          intro k _
          exact (introducesFrom_seen renumbered ms k n j hl).symm
      | none =>
        simp only [renumber, hl, List.map_cons]
        rw [ih]
        congr 1
        · simp [introducesFrom, hl]
        · apply List.map_congr_left
          intro k _
          exact (introducesFrom_new renumbered ms k n (i + 1)).symm

theorem renumber_length (ms : List Marker) :
    ∀ (i : Nat) (renumbered : List (Nat × Nat)), (renumber ms i renumbered).length = ms.length := by
  intro i renumbered
  have h := congrArg List.length (renumber_flags ms i renumbered)
  simpa using h

theorem pick_sublist {α : Type} : ∀ (as : List α) (fs : List Bool), (pick as fs).Sublist as
  | [], _ => by simp [pick]
  | a :: as, [] => by simp [pick]
  | a :: as, true :: fs => by
    rw [pick]
    exact (pick_sublist as fs).cons₂ a
  | a :: as, false :: fs => by
    rw [pick]
    exact (pick_sublist as fs).cons a

theorem pick_all_true {α : Type} : ∀ (as : List α) (fs : List Bool),
    (∀ f ∈ fs, f = true) → pick as fs = as.take fs.length
  | [], fs, _ => by cases fs <;> simp [pick]
  | a :: as, [], _ => by simp [pick]
  | a :: as, true :: fs, h => by
    rw [pick, pick_all_true as fs (fun f hf => h f (by simp [hf]))]
    simp
  | a :: as, false :: fs, h => by
    have := h false (by simp)
    simp at this

/-! ## The numbers handed to the markers -/

theorem lookup_cons_self (n j : Nat) (renumbered : List (Nat × Nat)) :
    List.lookup n ((n, j) :: renumbered) = some j := by
  simp [List.lookup]

theorem lookup_cons_ne {n m : Nat} (j : Nat) (renumbered : List (Nat × Nat)) (h : n ≠ m) :
    List.lookup n ((m, j) :: renumbered) = List.lookup n renumbered := by
  have hb : (n == m) = false := by simpa using h
  simp [List.lookup, hb]

theorem RenOK.nil : RenOK 0 [] :=
  ⟨fun n j h => by simp [List.lookup] at h, fun n1 n2 j h => by simp [List.lookup] at h⟩

theorem RenOK.succ {i : Nat} {renumbered : List (Nat × Nat)} (h : RenOK i renumbered) :
    RenOK (i + 1) renumbered :=
  ⟨fun n j hl => ⟨(h.1 n j hl).1, Nat.le_succ_of_le (h.1 n j hl).2⟩, h.2⟩

theorem RenOK.insert {i n : Nat} {renumbered : List (Nat × Nat)} (h : RenOK i renumbered)
    (hn : renumbered.lookup n = none) : RenOK (i + 1) ((n, i + 1) :: renumbered) := by
  constructor
  · intro m j hl
    by_cases hm : m = n
    · subst hm
      rw [lookup_cons_self] at hl
      cases hl
      omega
    · rw [lookup_cons_ne _ _ hm] at hl
      have := h.1 m j hl
      omega
  · intro n1 n2 j h1 h2
    by_cases hm1 : n1 = n
    · by_cases hm2 : n2 = n
      · rw [hm1, hm2]
      · subst hm1
        rw [lookup_cons_self] at h1
        rw [lookup_cons_ne _ _ hm2] at h2
        cases h1
        have := h.1 n2 _ h2
        omega
    · by_cases hm2 : n2 = n
      · subst hm2
        rw [lookup_cons_self] at h2
        rw [lookup_cons_ne _ _ hm1] at h1
        cases h2
        have := h.1 n1 _ h1
        omega
      · rw [lookup_cons_ne _ _ hm1] at h1
        rw [lookup_cons_ne _ _ hm2] at h2
        exact h.2 n1 n2 j h1 h2

/-- Where the number of a marker occurrence comes from: the map, for an
integer the map already holds, and the counter otherwise. -/
theorem renumber_classify (ms : List Marker) :
    ∀ (i : Nat) (renumbered : List (Nat × Nat)) (k : Nat) (m : Marker),
      ms[k]? = some m →
      ∃ j f, (renumber ms i renumbered)[k]? = some (j, f) ∧
        match m with
        | Marker.anon => i < j
        | Marker.numbered n =>
          renumbered.lookup n = some j ∨ (renumbered.lookup n = none ∧ i < j) := by
  induction ms with
  | nil => intro i renumbered k m h; simp at h
  | cons m0 ms ih =>
    intro i renumbered k m h
    cases k with
    | zero =>
      simp only [List.getElem?_cons_zero, Option.some.injEq] at h
      subst h
      cases m0 with
      | anon => exact ⟨i + 1, true, by simp [renumber], by simp⟩
      | numbered n =>
        cases hl : renumbered.lookup n with
        | some j => exact ⟨j, false, by simp [renumber, hl], Or.inl hl⟩
        | none => exact ⟨i + 1, true, by simp [renumber, hl], Or.inr ⟨hl, by omega⟩⟩
    | succ k =>
      rw [List.getElem?_cons_succ] at h
      cases m0 with
      | anon =>
        obtain ⟨j, f, h1, h2⟩ := ih (i + 1) renumbered k m h
        refine ⟨j, f, by simpa [renumber] using h1, ?_⟩
        cases m with
        | anon => simp only at h2 ⊢; omega
        | numbered n =>
          simp only at h2 ⊢
          rcases h2 with h2 | ⟨h2, h3⟩
          · exact Or.inl h2
          · exact Or.inr ⟨h2, by omega⟩
      | numbered n0 =>
        cases hl : renumbered.lookup n0 with
        | some j0 =>
          obtain ⟨j, f, h1, h2⟩ := ih i renumbered k m h
          exact ⟨j, f, by simpa [renumber, hl] using h1, h2⟩
        | none =>
          obtain ⟨j, f, h1, h2⟩ := ih (i + 1) ((n0, i + 1) :: renumbered) k m h
          refine ⟨j, f, by simpa [renumber, hl] using h1, ?_⟩
          cases m with
          | anon => simp only at h2 ⊢; omega
          | numbered n =>
            simp only at h2 ⊢
            by_cases hn : n = n0
            · subst hn
              rw [lookup_cons_self] at h2
              rcases h2 with h2 | ⟨h2, -⟩
              · cases h2
                exact Or.inr ⟨hl, by omega⟩
              · simp at h2
            · rw [lookup_cons_ne _ _ hn] at h2
              rcases h2 with h2 | ⟨h2, h3⟩
              · exact Or.inl h2
              · exact Or.inr ⟨h2, by omega⟩

/-- Two different marker occurrences are handed the same number exactly when
both are numbered markers of the same integer. -/
theorem renumber_pair (ms : List Marker) :
    ∀ (i : Nat) (renumbered : List (Nat × Nat)), RenOK i renumbered →
      ∀ (a b : Nat) (ma mb : Marker) (pa pb : Nat × Bool), a < b →
        ms[a]? = some ma → ms[b]? = some mb →
        (renumber ms i renumbered)[a]? = some pa →
        (renumber ms i renumbered)[b]? = some pb →
        (pa.1 = pb.1 ↔ ∃ n, ma = Marker.numbered n ∧ mb = Marker.numbered n) := by
  induction ms with
  | nil => intro i renumbered _ a b ma mb pa pb _ h; simp at h
  | cons m0 ms ih =>
    intro i renumbered hok a b ma mb pa pb hab hma hmb hpa hpb
    cases b with
    | zero => omega
    | succ b =>
      rw [List.getElem?_cons_succ] at hmb
      cases a with
      | succ a =>
        rw [List.getElem?_cons_succ] at hma
        have hab2 : a < b := by omega
        cases m0 with
        | anon =>
          simp only [renumber, List.getElem?_cons_succ] at hpa hpb
          exact ih (i + 1) renumbered hok.succ a b ma mb pa pb hab2 hma hmb hpa hpb
        | numbered n0 =>
          cases hl : renumbered.lookup n0 with
          | some j0 =>
            simp only [renumber, hl, List.getElem?_cons_succ] at hpa hpb
            exact ih i renumbered hok a b ma mb pa pb hab2 hma hmb hpa hpb
          | none =>
            simp only [renumber, hl, List.getElem?_cons_succ] at hpa hpb
            exact ih (i + 1) _ (hok.insert hl) a b ma mb pa pb hab2 hma hmb hpa hpb
      | zero =>
        simp only [List.getElem?_cons_zero, Option.some.injEq] at hma
        subst hma
        cases m0 with
        | anon =>
          simp only [renumber, List.getElem?_cons_succ, List.getElem?_cons_zero,
            Option.some.injEq] at hpa hpb
          obtain ⟨j, f, h1, h2⟩ := renumber_classify ms (i + 1) renumbered b mb hmb
          rw [hpb] at h1
          cases h1
          subst hpa
          have hne : i + 1 ≠ j := by
            cases mb with
            | anon => simp only at h2; omega
            | numbered n =>
              simp only at h2
              rcases h2 with h2 | ⟨-, h2⟩
              · have := (hok.1 n j h2).2
                omega
              · omega
          constructor
          · intro h; exact absurd h hne
          · rintro ⟨n, h, -⟩; cases h
        | numbered n0 =>
          cases hl : renumbered.lookup n0 with
          | some j0 =>
            simp only [renumber, hl, List.getElem?_cons_succ, List.getElem?_cons_zero,
              Option.some.injEq] at hpa hpb
            obtain ⟨j, f, h1, h2⟩ := renumber_classify ms i renumbered b mb hmb
            rw [hpb] at h1
            cases h1
            subst hpa
            have hj0 := (hok.1 n0 j0 hl).2
            cases mb with
            | anon =>
              simp only at h2
              constructor
              · intro h; simp only at h; omega
              · rintro ⟨n, -, h⟩; cases h
            | numbered n =>
              simp only at h2
              rcases h2 with h2 | ⟨h2, h3⟩
              · constructor
                · intro h
                  simp only at h
                  subst h
                  exact ⟨n, by rw [hok.2 n0 n j0 hl h2], rfl⟩
                · rintro ⟨n', h, h'⟩
                  cases h
                  cases h'
                  rw [hl] at h2
                  cases h2
                  rfl
              · constructor
                · intro h; simp only at h; omega
                · rintro ⟨n', h, h'⟩
                  cases h
                  cases h'
                  rw [hl] at h2
                  cases h2
          | none =>
            simp only [renumber, hl, List.getElem?_cons_succ, List.getElem?_cons_zero,
              Option.some.injEq] at hpa hpb
            obtain ⟨j, f, h1, h2⟩ :=
              renumber_classify ms (i + 1) ((n0, i + 1) :: renumbered) b mb hmb
            rw [hpb] at h1
            cases h1
            subst hpa
            cases mb with
            | anon =>
              simp only at h2
              constructor
              · intro h; simp only at h; omega
              · rintro ⟨n, -, h⟩; cases h
            | numbered n =>
              simp only at h2
              by_cases hn : n = n0
              · subst hn
                rw [lookup_cons_self] at h2
                rcases h2 with h2 | ⟨h2, -⟩
                · cases h2
                  exact ⟨fun _ => ⟨n, rfl, rfl⟩, fun _ => rfl⟩
                · simp at h2
              · rw [lookup_cons_ne _ _ hn] at h2
                constructor
                · intro h
                  simp only at h
                  rcases h2 with h2 | ⟨-, h2⟩
                  · have := (hok.1 n j h2).2
                    omega
                  · omega
                · rintro ⟨n', h, h'⟩
                  cases h
                  cases h'
                  exact absurd rfl hn

/-! ## Dense renumbering -/

theorem lookup_eq_none_iff_keys (n : Nat) (renumbered : List (Nat × Nat)) :
    renumbered.lookup n = none ↔ n ∉ (renumbered.map Prod.fst).toFinset := by
  induction renumbered with
  | nil => simp [List.lookup]
  | cons p t ih =>
    obtain ⟨m, j⟩ := p
    by_cases hn : n = m
    · subst hn
      simp [lookup_cons_self]
    · rw [lookup_cons_ne _ _ hn, ih]
      simp [hn]

theorem pick_length {α : Type} : ∀ (as : List α) (fs : List Bool),
    fs.length ≤ as.length → (pick as fs).length = fs.count true
  | [], [], _ => by simp [pick]
  | [], f :: fs, h => by simp at h
  | a :: as, [], _ => by simp [pick]
  | a :: as, true :: fs, h => by
    rw [pick, List.length_cons, pick_length as fs (by simpa using h)]
    simp
  | a :: as, false :: fs, h => by
    rw [pick, pick_length as fs (by simpa using h)]
    simp

/-- The number of markers that take a new number is the number of distinct
markers the map does not hold yet. -/
theorem renumber_count (ms : List Marker) :
    ∀ (i : Nat) (renumbered : List (Nat × Nat)),
      ((renumber ms i renumbered).map Prod.snd).count true
        = ms.count Marker.anon
          + ((ms.filterMap Marker.number?).toFinset \ (renumbered.map Prod.fst).toFinset).card := by
  induction ms with
  | nil => intro i renumbered; simp [renumber]
  | cons m ms ih =>
    intro i renumbered
    cases m with
    | anon =>
      simp only [renumber, List.map_cons, List.count_cons_self, ih, List.filterMap_cons,
        Marker.number?]
      omega
    | numbered n =>
      have hc : List.count Marker.anon (Marker.numbered n :: ms) = List.count Marker.anon ms :=
        List.count_cons_of_ne (by simp) ms
      cases hl : renumbered.lookup n with
      | some j =>
        have hmem : n ∈ (renumbered.map Prod.fst).toFinset := by
          by_contra hcon
          rw [(lookup_eq_none_iff_keys n renumbered).2 hcon] at hl
          cases hl
        simp only [renumber, hl, List.map_cons, ih, List.filterMap_cons, Marker.number?,
          List.toFinset_cons, hc]
        rw [List.count_cons_of_ne (by simp), Finset.insert_sdiff_of_mem _ hmem]
        exact ih i renumbered
      | none =>
        have hmem : n ∉ (renumbered.map Prod.fst).toFinset :=
          (lookup_eq_none_iff_keys n renumbered).1 hl
        simp only [renumber, hl, List.map_cons, ih, List.filterMap_cons, Marker.number?,
          List.toFinset_cons, hc, List.count_cons_self, Prod.fst]
        rw [Finset.insert_sdiff_of_not_mem _ hmem, Finset.sdiff_insert]
        by_cases hx : n ∈ (ms.filterMap Marker.number?).toFinset \ (renumbered.map Prod.fst).toFinset
        · rw [Finset.card_erase_of_mem hx, Finset.insert_eq_of_mem hx]
          have := Finset.card_pos.2 ⟨n, hx⟩
          omega
        · rw [Finset.erase_eq_of_not_mem hx, Finset.card_insert_of_not_mem hx]
          omega

/-- The numbers handed out are the numbers the map held for the integers that
occur, and the block of new numbers after the counter. -/
theorem renumber_mem (ms : List Marker) :
    ∀ (i : Nat) (renumbered : List (Nat × Nat)) (j : Nat),
      j ∈ (renumber ms i renumbered).map Prod.fst ↔
        (∃ n, Marker.numbered n ∈ ms ∧ renumbered.lookup n = some j) ∨
        (i < j ∧ j ≤ i + ((renumber ms i renumbered).map Prod.snd).count true) := by
  induction ms with
  | nil => intro i renumbered j; simp [renumber]
  | cons m ms ih =>
    intro i renumbered j
    cases m with
    | anon =>
      simp only [renumber, List.map_cons, List.mem_cons, ih, List.count_cons_self]
      constructor
      · rintro (h | ⟨n, h1, h2⟩ | ⟨h1, h2⟩)
        · exact Or.inr ⟨by omega, by omega⟩
        · exact Or.inl ⟨n, by simp [h1], h2⟩
        · exact Or.inr ⟨by omega, by omega⟩
      · rintro (⟨n, h1, h2⟩ | ⟨h1, h2⟩)
        · have h1 : Marker.numbered n ∈ ms := by simpa using h1
          exact Or.inr (Or.inl ⟨n, h1, h2⟩)
        · by_cases hj : j = i + 1
          · exact Or.inl hj
          · exact Or.inr (Or.inr ⟨by omega, by omega⟩)
    | numbered n0 =>
      cases hl : renumbered.lookup n0 with
      | some j0 =>
        simp only [renumber, hl, List.map_cons, List.mem_cons, ih]
        rw [List.count_cons_of_ne (by simp)]
        constructor
        · rintro (h | ⟨n, h1, h2⟩ | h)
          · exact Or.inl ⟨n0, by simp, by rw [hl, h]⟩
          · exact Or.inl ⟨n, by simp [h1], h2⟩
          · exact Or.inr h
        · rintro (⟨n, h1, h2⟩ | h)
          · simp only [List.mem_cons, Marker.numbered.injEq] at h1
            rcases h1 with h1 | h1
            · subst h1
              rw [hl] at h2
              cases h2
              exact Or.inl rfl
            · exact Or.inr (Or.inl ⟨n, h1, h2⟩)
          · exact Or.inr (Or.inr h)
      | none =>
        simp only [renumber, hl, List.map_cons, List.mem_cons, ih, List.count_cons_self]
        constructor
        · rintro (h | ⟨n, h1, h2⟩ | ⟨h1, h2⟩)
          · exact Or.inr ⟨by omega, by omega⟩
          · by_cases hn : n = n0
            · subst hn
              rw [lookup_cons_self] at h2
              cases h2
              exact Or.inr ⟨by omega, by omega⟩
            · rw [lookup_cons_ne _ _ hn] at h2
              exact Or.inl ⟨n, by simp [h1], h2⟩
          · exact Or.inr ⟨by omega, by omega⟩
        · rintro (⟨n, h1, h2⟩ | ⟨h1, h2⟩)
          · simp only [List.mem_cons, Marker.numbered.injEq] at h1
            rcases h1 with h1 | h1
            · subst h1
              rw [hl] at h2
              cases h2
            · have hn : n ≠ n0 := by
                rintro rfl
                rw [hl] at h2
                cases h2
              exact Or.inr (Or.inl ⟨n, h1, by rw [lookup_cons_ne _ _ hn]; exact h2⟩)
          · by_cases hj : j = i + 1
            · exact Or.inl hj
            · exact Or.inr (Or.inr ⟨by omega, by omega⟩)

/-- A number handed out is at most one more than the largest handed out
before it (the counter, at the start), and a new number is exactly that. -/
theorem renumber_runmax (ms : List Marker) :
    ∀ (i : Nat) (renumbered : List (Nat × Nat)), RenOK i renumbered →
      ∀ (t j : Nat) (f : Bool), (renumber ms i renumbered)[t]? = some (j, f) →
        j ≤ 1 + (((renumber ms i renumbered).map Prod.fst).take t).foldl max i ∧
        (f = true → j = 1 + (((renumber ms i renumbered).map Prod.fst).take t).foldl max i) := by
  induction ms with
  | nil => intro i renumbered _ t j f h; simp [renumber] at h
  | cons m ms ih =>
    intro i renumbered hok t j f h
    cases m with
    | anon =>
      cases t with
      | zero =>
        simp only [renumber, List.getElem?_cons_zero, Option.some.injEq, Prod.mk.injEq] at h
        obtain ⟨rfl, rfl⟩ := h
        simp
        omega
      | succ t =>
        simp only [renumber, List.getElem?_cons_succ] at h
        have := ih (i + 1) renumbered hok.succ t j f h
        simpa [renumber, List.take_succ_cons, List.foldl_cons] using this
    | numbered n0 =>
      cases hl : renumbered.lookup n0 with
      | some j0 =>
        have hj0 := (hok.1 n0 j0 hl).2
        cases t with
        | zero =>
          simp only [renumber, hl, List.getElem?_cons_zero, Option.some.injEq,
            Prod.mk.injEq] at h
          obtain ⟨rfl, rfl⟩ := h
          simp
          omega
        | succ t =>
          simp only [renumber, hl, List.getElem?_cons_succ] at h
          have := ih i renumbered hok t j f h
          simpa [renumber, hl, List.take_succ_cons, List.foldl_cons, Nat.max_eq_left hj0]
            using this
      | none =>
        cases t with
        | zero =>
          simp only [renumber, hl, List.getElem?_cons_zero, Option.some.injEq,
            Prod.mk.injEq] at h
          obtain ⟨rfl, rfl⟩ := h
          simp
          omega
        | succ t =>
          simp only [renumber, hl, List.getElem?_cons_succ] at h
          have := ih (i + 1) _ (hok.insert hl) t j f h
          simpa [renumber, hl, List.take_succ_cons, List.foldl_cons] using this

/-! ## `Dollar.ReplacePlaceholdersMixed` on templates whose digit runs fit -/

theorem dollarMixed_traced_result {α : Type} (sql : List Char) (args : List α) :
    (replacePlaceholdersMixed (traced dollarReplace) ((), []) sql args).2
      = dollarFormat.ReplacePlaceholdersMixed sql args :=
  (traced_mixedFrom dollarReplace args sql () [] [] 0 [] 0 []).2.1

/-- The run on a template whose digit runs fit an `int`, with an argument per
marker occurrence: the numbers handed out and the arguments kept. -/
theorem mixed_summary {α : Type} (sql : List Char) (args : List α)
    (hf : FitsInt (markerOccurrences sql))
    (hs : (markerOccurrences sql).length ≤ args.length) :
    handedNumbers sql args = (renumber (markerOccurrences sql) 0 []).map Prod.fst ∧
    ∃ q, dollarFormat.ReplacePlaceholdersMixed sql args
      = Run.returned (q, some (pick args
          ((List.range (markerOccurrences sql).length).map
            (introduces (markerOccurrences sql)))), none) := by
  obtain ⟨q, h⟩ := dollarMixed_run args sql 0 0 [] hf (by simpa using hs)
  have h0 := h [] [] []
  rw [← replacePlaceholdersMixed_eq_mixedFrom] at h0
  constructor
  · unfold handedNumbers
    rw [h0]
    simp [List.map_map, Function.comp_def]
  · refine ⟨q, ?_⟩
    rw [← dollarMixed_traced_result, h0, renumber_flags]
    have hfun : introducesFrom [] (markerOccurrences sql) = introduces (markerOccurrences sql) :=
      funext (introducesFrom_nil _)
    simp only [List.nil_append, List.drop_zero, hfun]

theorem handedNumbers_getElem? {α : Type} (sql : List Char) (args : List α)
    (hf : FitsInt (markerOccurrences sql))
    (hs : (markerOccurrences sql).length ≤ args.length) (k : Nat) :
    (handedNumbers sql args)[k]?
      = ((renumber (markerOccurrences sql) 0 [])[k]?).map Prod.fst := by
  rw [(mixed_summary sql args hf hs).1, List.getElem?_map]

/-- Dedup of numbered markers, on templates whose digit runs fit an `int`:
two numbered occurrences get the same number exactly when their integers are
equal, and the number of an anonymous occurrence is given to no other
occurrence. -/
theorem mixed_dedup_of_fits {α : Type} (sql : List Char) (args : List α)
    (hf : FitsInt (markerOccurrences sql))
    (hs : (markerOccurrences sql).length ≤ args.length) :
    (∃ s newArgs, dollarFormat.ReplacePlaceholdersMixed sql args
      = Run.returned (s, some newArgs, none)) ∧
    (handedNumbers sql args).length = (markerOccurrences sql).length ∧
    (∀ (a b n1 n2 : Nat), (markerOccurrences sql)[a]? = some (Marker.numbered n1) →
      (markerOccurrences sql)[b]? = some (Marker.numbered n2) →
      ((handedNumbers sql args)[a]? = (handedNumbers sql args)[b]? ↔ n1 = n2)) ∧
    (∀ (a b : Nat), (markerOccurrences sql)[a]? = some Marker.anon →
      b < (markerOccurrences sql).length → b ≠ a →
      (handedNumbers sql args)[b]? ≠ (handedNumbers sql args)[a]?) := by
  obtain ⟨h1, q, h2⟩ := mixed_summary sql args hf hs
  have hlen : (handedNumbers sql args).length = (markerOccurrences sql).length := by
    rw [h1, List.length_map, renumber_length]
  -- the number of every occurrence, with its marker
  have hget : ∀ (k : Nat) (m : Marker), (markerOccurrences sql)[k]? = some m →
      ∃ p, (renumber (markerOccurrences sql) 0 [])[k]? = some p ∧
        (handedNumbers sql args)[k]? = some p.1 := by
    intro k m hk
    obtain ⟨j, f, hj, -⟩ := renumber_classify (markerOccurrences sql) 0 [] k m hk
    exact ⟨(j, f), hj, by rw [handedNumbers_getElem? sql args hf hs, hj]; rfl⟩
  -- any two different occurrences
  have hpair : ∀ (a b : Nat) (ma mb : Marker), a ≠ b →
      (markerOccurrences sql)[a]? = some ma →
      (markerOccurrences sql)[b]? = some mb →
      ((handedNumbers sql args)[a]? = (handedNumbers sql args)[b]? ↔
        ∃ n, ma = Marker.numbered n ∧ mb = Marker.numbered n) := by
    intro a b ma mb hab hma hmb
    obtain ⟨pa, hpa, hna⟩ := hget a ma hma
    obtain ⟨pb, hpb, hnb⟩ := hget b mb hmb
    rw [hna, hnb, Option.some.injEq]
    rcases Nat.lt_or_gt_of_ne hab with hlt | hgt
    · exact renumber_pair _ 0 [] RenOK.nil a b ma mb pa pb hlt hma hmb hpa hpb
    · have := renumber_pair _ 0 [] RenOK.nil b a mb ma pb pa hgt hmb hma hpb hpa
      constructor
      · intro h
        obtain ⟨n, e1, e2⟩ := this.1 h.symm
        exact ⟨n, e2, e1⟩
      · rintro ⟨n, e1, e2⟩
        exact (this.2 ⟨n, e2, e1⟩).symm
  refine ⟨⟨q, _, h2⟩, hlen, ?_, ?_⟩
  · intro a b n1 n2 ha hb
    by_cases hab : a = b
    · subst hab
      rw [ha] at hb
      cases hb
      simp
    · rw [hpair a b _ _ hab ha hb]
      constructor
      · rintro ⟨n, e1, e2⟩
        cases e1
        cases e2
        rfl
      · rintro rfl
        exact ⟨n1, rfl, rfl⟩
  · intro a b ha hb hba h
    obtain ⟨mb, hmb⟩ : ∃ mb, (markerOccurrences sql)[b]? = some mb :=
      ⟨_, List.getElem?_eq_getElem hb⟩
    obtain ⟨n, e1, -⟩ := (hpair a b _ _ (Ne.symm hba) ha hmb).1 h.symm
    cases e1

/-- Argument reconciliation, on templates whose digit runs fit an `int`: the
returned list holds the arguments of the occurrences that introduce a
placeholder, in order; it is a subsequence of `args`, and it is the first `n`
arguments when every occurrence introduces one. -/
theorem mixed_args_of_fits {α : Type} (sql : List Char) (args : List α)
    (hf : FitsInt (markerOccurrences sql))
    (hs : (markerOccurrences sql).length ≤ args.length) :
    (∃ s, dollarFormat.ReplacePlaceholdersMixed sql args
      = Run.returned (s, some (pick args
          ((List.range (markerOccurrences sql).length).map
            (introduces (markerOccurrences sql)))), none)) ∧
    (pick args ((List.range (markerOccurrences sql).length).map
      (introduces (markerOccurrences sql)))).Sublist args ∧
    ((∀ k, k < (markerOccurrences sql).length → introduces (markerOccurrences sql) k = true) →
      pick args ((List.range (markerOccurrences sql).length).map
        (introduces (markerOccurrences sql))) = args.take (markerOccurrences sql).length) := by
  refine ⟨(mixed_summary sql args hf hs).2, pick_sublist _ _, fun hall => ?_⟩
  rw [pick_all_true]
  · simp
  · intro f hfm
    obtain ⟨k, hk, rfl⟩ := List.mem_map.1 hfm
    exact hall k (List.mem_range.1 hk)

/-- Dense renumbering, on templates whose digit runs fit an `int`: the first
number is 1, every number is at most one more than the largest before it, the
numbers used are exactly `1 .. len(newArgs)`, and `len(newArgs)` is the number
of distinct markers. -/
theorem mixed_dense_of_fits {α : Type} (sql : List Char) (args : List α)
    (hf : FitsInt (markerOccurrences sql))
    (hs : (markerOccurrences sql).length ≤ args.length) :
    ∃ s newArgs,
      dollarFormat.ReplacePlaceholdersMixed sql args = Run.returned (s, some newArgs, none) ∧
      (markerOccurrences sql ≠ [] → (handedNumbers sql args)[0]? = some 1) ∧
      (∀ (t j : Nat), (handedNumbers sql args)[t]? = some j →
        j ≤ 1 + ((handedNumbers sql args).take t).foldl max 0 ∧
        (introduces (markerOccurrences sql) t = true →
          j = 1 + ((handedNumbers sql args).take t).foldl max 0)) ∧
      (∀ j, j ∈ handedNumbers sql args ↔ 1 ≤ j ∧ j ≤ newArgs.length) ∧
      newArgs.length = distinctMarkers (markerOccurrences sql) ∧
      (∀ j ∈ handedNumbers sql args, ∃ x, newArgs[j - 1]? = some x) := by
  obtain ⟨h1, q, h2⟩ := mixed_summary sql args hf hs
  have hflags := renumber_flags (markerOccurrences sql) 0 []
  have hfun : introducesFrom [] (markerOccurrences sql) = introduces (markerOccurrences sql) :=
    funext (introducesFrom_nil _)
  rw [hfun] at hflags
  have hlen : (pick args ((List.range (markerOccurrences sql).length).map
      (introduces (markerOccurrences sql)))).length
      = ((renumber (markerOccurrences sql) 0 []).map Prod.snd).count true := by
    rw [pick_length _ _ (by simpa using hs), hflags]
  have hmem : ∀ j, j ∈ handedNumbers sql args ↔
      1 ≤ j ∧ j ≤ ((renumber (markerOccurrences sql) 0 []).map Prod.snd).count true := by
    intro j
    rw [h1, renumber_mem]
    simp [List.lookup]
    omega
  have hmax : ∀ (t j : Nat), (handedNumbers sql args)[t]? = some j →
      j ≤ 1 + ((handedNumbers sql args).take t).foldl max 0 ∧
      (introduces (markerOccurrences sql) t = true →
        j = 1 + ((handedNumbers sql args).take t).foldl max 0) := by
    intro t j ht
    rw [h1] at ht ⊢
    rw [List.getElem?_map] at ht
    cases hp : (renumber (markerOccurrences sql) 0 [])[t]? with
    | none => simp [hp] at ht
    | some p =>
      obtain ⟨j', f⟩ := p
      simp only [hp, Option.map_some', Option.some.injEq] at ht
      subst ht
      have hrm := renumber_runmax _ 0 [] RenOK.nil t j' f hp
      refine ⟨hrm.1, fun hin => hrm.2 ?_⟩
      have hft : ((renumber (markerOccurrences sql) 0 []).map Prod.snd)[t]? = some f := by
        rw [List.getElem?_map, hp]; rfl
      rw [hflags, List.getElem?_map] at hft
      have htl : t < (markerOccurrences sql).length := by
        have := (List.getElem?_eq_some.1 hp).1
        rwa [renumber_length] at this
      rw [List.getElem?_range htl] at hft
      simp only [Option.map_some', Option.some.injEq] at hft
      rw [← hft, hin]
  refine ⟨q, _, h2, ?_, hmax, ?_, ?_, ?_⟩
  · intro hne
    obtain ⟨m, ms, hms⟩ := List.exists_cons_of_ne_nil hne
    have h0 : ∃ j, (handedNumbers sql args)[0]? = some j := by
      rw [h1, hms]
      cases m with
      | anon => exact ⟨1, by simp [renumber]⟩
      | numbered n => exact ⟨1, by simp [renumber, List.lookup]⟩
    obtain ⟨j, hj⟩ := h0
    have hle := (hmax 0 j hj).1
    have hge := ((hmem j).1 (List.getElem?_mem hj)).1
    simp at hle
    rw [hj]
    congr 1
    omega
  · intro j
    rw [hmem, hlen]
  · rw [hlen, renumber_count]
    simp [distinctMarkers]
  · intro j hj
    have := (hmem j).1 hj
    have hlt : j - 1 < (pick args ((List.range (markerOccurrences sql).length).map
        (introduces (markerOccurrences sql)))).length := by
      rw [hlen]; omega
    exact ⟨_, List.getElem?_eq_getElem hlt⟩

/-! ## Scanning a template in two parts -/

theorem Joins.nil_left (t : List Char) : Joins [] t := by
  simp [Joins]

theorem Joins.nil_right (a : List Char) : Joins a [] := by
  simp [Joins]

theorem Joins.tail {c : Char} {r t : List Char} (h : Joins (c :: r) t) : Joins r t := by
  cases r with
  | nil => exact Joins.nil_left t
  | cons d u => simpa [Joins, List.getLast?_cons_cons] using h

theorem getLast?_cons_of_ne_nil {c : Char} {r : List Char} (h : r ≠ []) :
    (c :: r).getLast? = r.getLast? := by
  obtain ⟨d, u, rfl⟩ := List.exists_cons_of_ne_nil h
  exact List.getLast?_cons_cons

theorem getLast?_append_of_ne_nil (l : List Char) {r : List Char} (h : r ≠ []) :
    (l ++ r).getLast? = r.getLast? := by
  induction l with
  | nil => rfl
  | cons c l ih =>
    rw [List.cons_append, getLast?_cons_of_ne_nil (by simp [h]), ih]

theorem getLast?_mem_of_ne_nil {ds : List Char} (h : ds ≠ []) :
    ∃ x, x ∈ ds ∧ ds.getLast? = some x :=
  ⟨ds.getLast h, List.getLast_mem h, List.getLast?_eq_getLast ds h⟩

theorem emitThen_dollar_plain {α : Type} (args : List α) (rest buf : List Char) (j i : Nat)
    (newArgs : List α) (arg : Nat) (renumbered : List (Nat × Nat)) :
    emitThen dollarReplace args () rest buf j i newArgs arg renumbered
      = mixedFrom dollarReplace args () rest (buf ++ '$' :: itoa j) i newArgs arg renumbered :=
  rfl

/-- The scan of `a ++ t`, when `a` and `t` join: either it panics inside `a`,
whatever `t` is, or it reaches `t` in a state that depends on `a` alone, the
buffer and the new arguments having grown by a text `p` and a list `na`. -/
theorem dollarMixed_split {α : Type} (args : List α) (a : List Char) :
    ∀ (i arg : Nat) (renumbered : List (Nat × Nat)),
      (∃ w, ∀ t, Joins a t → ∀ (buf : List Char) (newArgs : List α),
        mixedFrom dollarReplace args () (a ++ t) buf i newArgs arg renumbered
          = ((), Run.panicked w)) ∨
      (∃ p na i2 arg2 renumbered2, ∀ t, Joins a t → ∀ (buf : List Char) (newArgs : List α),
        mixedFrom dollarReplace args () (a ++ t) buf i newArgs arg renumbered
          = mixedFrom dollarReplace args () t (buf ++ p) i2 (newArgs ++ na) arg2
              renumbered2) := by
  induction a using mixed_induction with
  | nil =>
    intro i arg renumbered
    exact Or.inr ⟨[], [], i, arg, renumbered, fun t _ buf newArgs => by simp⟩
  | literal c r hq hd ih =>
    intro i arg renumbered
    rcases ih i arg renumbered with ⟨w, h⟩ | ⟨p, na, i2, arg2, ren2, h⟩
    · refine Or.inl ⟨w, fun t ht buf newArgs => ?_⟩
      rw [List.cons_append, mixedFrom_literal _ _ _ _ _ _ _ _ _ _ hq hd, h t ht.tail]
    · refine Or.inr ⟨c :: p, na, i2, arg2, ren2, fun t ht buf newArgs => ?_⟩
      rw [List.cons_append, mixedFrom_literal _ _ _ _ _ _ _ _ _ _ hq hd, h t ht.tail]
      simp
  | escapeQ r ih =>
    intro i arg renumbered
    rcases ih i arg renumbered with ⟨w, h⟩ | ⟨p, na, i2, arg2, ren2, h⟩
    · refine Or.inl ⟨w, fun t ht buf newArgs => ?_⟩
      rw [List.cons_append, List.cons_append, mixedFrom_escapeQ, h t ht.tail.tail]
    · refine Or.inr ⟨'?' :: p, na, i2, arg2, ren2, fun t ht buf newArgs => ?_⟩
      rw [List.cons_append, List.cons_append, mixedFrom_escapeQ, h t ht.tail.tail]
      simp
  | anon r hr ih =>
    intro i arg renumbered
    have hhead : ∀ t, Joins ('?' :: r) t → (r ++ t).head? ≠ some '?' := by
      intro t ht
      cases r with
      | nil => exact ht.1 rfl
      | cons d u => simpa using hr
    cases hget : args[arg]? with
    | none =>
      refine Or.inl ⟨Panic.indexOutOfRange, fun t ht buf newArgs => ?_⟩
      rw [List.cons_append, mixedFrom_anon _ _ _ _ _ _ _ _ _ (hhead t ht), hget]
    | some x =>
      rcases ih (i + 1) (arg + 1) renumbered with ⟨w, h⟩ | ⟨p, na, i2, arg2, ren2, h⟩
      · refine Or.inl ⟨w, fun t ht buf newArgs => ?_⟩
        rw [List.cons_append, mixedFrom_anon _ _ _ _ _ _ _ _ _ (hhead t ht), hget]
        simp only [emitThen_dollar_plain]
        rw [h t ht.tail]
      · refine Or.inr ⟨'$' :: (itoa (i + 1) ++ p), x :: na, i2, arg2, ren2,
          fun t ht buf newArgs => ?_⟩
        rw [List.cons_append, mixedFrom_anon _ _ _ _ _ _ _ _ _ (hhead t ht), hget]
        simp only [emitThen_dollar_plain]
        rw [h t ht.tail]
        simp
  | escapeD r ih =>
    intro i arg renumbered
    rcases ih i arg renumbered with ⟨w, h⟩ | ⟨p, na, i2, arg2, ren2, h⟩
    · refine Or.inl ⟨w, fun t ht buf newArgs => ?_⟩
      rw [List.cons_append, List.cons_append, mixedFrom_escapeD, h t ht.tail.tail]
    · refine Or.inr ⟨'$' :: p, na, i2, arg2, ren2, fun t ht buf newArgs => ?_⟩
      rw [List.cons_append, List.cons_append, mixedFrom_escapeD, h t ht.tail.tail]
      simp
  | bare r hd hr ih =>
    intro i arg renumbered
    have hhead : ∀ t, Joins ('$' :: r) t →
        (r ++ t).head? ≠ some '$' ∧ ∀ d, (r ++ t).head? = some d → isDigit d = false := by
      intro t ht
      cases r with
      | nil => exact ht.2.1 rfl
      | cons d u => exact ⟨by simpa using hd, by simpa using hr⟩
    rcases ih i arg renumbered with ⟨w, h⟩ | ⟨p, na, i2, arg2, ren2, h⟩
    · refine Or.inl ⟨w, fun t ht buf newArgs => ?_⟩
      rw [List.cons_append,
        mixedFrom_bare _ _ _ _ _ _ _ _ _ (hhead t ht).1 (hhead t ht).2, h t ht.tail]
    · refine Or.inr ⟨'$' :: p, na, i2, arg2, ren2, fun t ht buf newArgs => ?_⟩
      rw [List.cons_append,
        mixedFrom_bare _ _ _ _ _ _ _ _ _ (hhead t ht).1 (hhead t ht).2, h t ht.tail]
      simp
  | numbered ds rest hne hall hrest ih =>
    intro i arg renumbered
    have hjoin : ∀ t, Joins ('$' :: (ds ++ rest)) t → Joins rest t := by
      intro t ht
      cases rest with
      | nil => exact Joins.nil_left t
      | cons d u =>
        have e : ('$' :: (ds ++ d :: u)).getLast? = (d :: u).getLast? := by
          rw [← List.cons_append]
          exact getLast?_append_of_ne_nil _ (by simp)
        unfold Joins at ht ⊢
        rw [e] at ht
        exact ht
    have hhead : ∀ t, Joins ('$' :: (ds ++ rest)) t →
        ∀ d, (rest ++ t).head? = some d → isDigit d = false := by
      intro t ht
      cases rest with
      | nil =>
        obtain ⟨x, hx, hlast⟩ := getLast?_mem_of_ne_nil hne
        have e : ('$' :: (ds ++ [])).getLast? = some x := by
          rw [List.append_nil, getLast?_cons_of_ne_nil hne, hlast]
        exact ht.2.2 x e (hall x hx)
      | cons d u => simpa using hrest
    have hstep : ∀ t, Joins ('$' :: (ds ++ rest)) t → ∀ (buf : List Char) (newArgs : List α),
        mixedFrom dollarReplace args () ('$' :: (ds ++ rest) ++ t) buf i newArgs arg renumbered
          = match Atoi ds with
            | none => ((), Run.panicked Panic.atoiError)
            | some num =>
              match renumbered.lookup num with
              | some j =>
                mixedFrom dollarReplace args () (rest ++ t) (buf ++ '$' :: itoa j) i newArgs
                  (arg + 1) renumbered
              | none =>
                match args[arg]? with
                | none => ((), Run.panicked Panic.indexOutOfRange)
                | some x =>
                  mixedFrom dollarReplace args () (rest ++ t) (buf ++ '$' :: itoa (i + 1))
                    (i + 1) (newArgs ++ [x]) (arg + 1) ((num, i + 1) :: renumbered) := by
      intro t ht buf newArgs
      rw [List.cons_append, List.append_assoc,
        mixedFrom_numbered _ _ _ _ _ _ _ _ _ _ hne hall (hhead t ht)]
      rfl
    cases hat : Atoi ds with
    | none =>
      refine Or.inl ⟨Panic.atoiError, fun t ht buf newArgs => ?_⟩
      rw [hstep t ht, hat]
    | some num =>
      cases hl : renumbered.lookup num with
      | some j =>
        rcases ih i (arg + 1) renumbered with ⟨w, h⟩ | ⟨p, na, i2, arg2, ren2, h⟩
        · refine Or.inl ⟨w, fun t ht buf newArgs => ?_⟩
          rw [hstep t ht, hat]
          simp only [hl]
          rw [h t (hjoin t ht)]
        · refine Or.inr ⟨'$' :: (itoa j ++ p), na, i2, arg2, ren2, fun t ht buf newArgs => ?_⟩
          rw [hstep t ht, hat]
          simp only [hl]
          rw [h t (hjoin t ht)]
          simp
      | none =>
        cases hget : args[arg]? with
        | none =>
          refine Or.inl ⟨Panic.indexOutOfRange, fun t ht buf newArgs => ?_⟩
          rw [hstep t ht, hat]
          simp only [hl, hget]
        | some x =>
          rcases ih (i + 1) (arg + 1) ((num, i + 1) :: renumbered) with
            ⟨w, h⟩ | ⟨p, na, i2, arg2, ren2, h⟩
          · refine Or.inl ⟨w, fun t ht buf newArgs => ?_⟩
            rw [hstep t ht, hat]
            simp only [hl, hget]
            rw [h t (hjoin t ht)]
          · refine Or.inr ⟨'$' :: (itoa (i + 1) ++ p), x :: na, i2, arg2, ren2,
              fun t ht buf newArgs => ?_⟩
            rw [hstep t ht, hat]
            simp only [hl, hget]
            rw [h t (hjoin t ht)]
            simp

theorem dollarFormat_mixed_eq_mixedFrom {α : Type} (sql : List Char) (args : List α) :
    dollarFormat.ReplacePlaceholdersMixed sql args
      = (mixedFrom dollarReplace args () sql [] 0 [] 0 []).2 :=
  rfl

/-- From any state the mixed scan of `Dollar` either panics, whatever the
buffer, or returns the buffer followed by a text, and the new arguments
followed by a list, that do not depend on them. -/
theorem dollarMixed_outcome {α : Type} (args : List α) (sql : List Char) (i arg : Nat)
    (renumbered : List (Nat × Nat)) :
    (∃ w, ∀ (buf : List Char) (newArgs : List α),
      mixedFrom dollarReplace args () sql buf i newArgs arg renumbered = ((), Run.panicked w)) ∨
    (∃ q n, ∀ (buf : List Char) (newArgs : List α),
      mixedFrom dollarReplace args () sql buf i newArgs arg renumbered
        = ((), Run.returned (buf ++ q, some (newArgs ++ n), none))) := by
  rcases dollarMixed_split args sql i arg renumbered with ⟨w, h⟩ | ⟨p, na, i2, arg2, ren2, h⟩
  · refine Or.inl ⟨w, fun buf newArgs => ?_⟩
    have := h [] (Joins.nil_right sql) buf newArgs
    rwa [List.append_nil] at this
  · refine Or.inr ⟨p, na, fun buf newArgs => ?_⟩
    have := h [] (Joins.nil_right sql) buf newArgs
    rwa [List.append_nil, mixedFrom_nil] at this

/-- The escape law for `$$`, panics included: the runs on `a ++ c ++ b` and on
`a ++ "$$" ++ b` panic alike, or return the text `p` of `a` alone, then `c`
resp. one `$`, then the same text `q`, with the same argument list. -/
theorem dollarMixed_escape_rel {α : Type} (a b : List Char) (c : Char) (args : List α)
    (ha : a.getLast? ≠ some '$') (hc1 : c ≠ '?') (hc2 : c ≠ '$') (hc3 : isDigit c = false) :
    (∃ w, dollarFormat.ReplacePlaceholdersMixed (a ++ c :: b) args = Run.panicked w ∧
      dollarFormat.ReplacePlaceholdersMixed (a ++ '$' :: '$' :: b) args = Run.panicked w) ∨
    (∃ p q na n,
      dollarFormat.ReplacePlaceholdersMixed a args = Run.returned (p, some na, none) ∧
      dollarFormat.ReplacePlaceholdersMixed (a ++ c :: b) args
        = Run.returned (p ++ c :: q, some n, none) ∧
      dollarFormat.ReplacePlaceholdersMixed (a ++ '$' :: '$' :: b) args
        = Run.returned (p ++ '$' :: q, some n, none)) := by
  have hj1 : Joins a (c :: b) :=
    ⟨fun _ => by simpa using hc1, fun h => absurd h ha, fun _ _ _ d hd => by
      simp at hd; subst hd; exact hc3⟩
  have hj2 : Joins a ('$' :: '$' :: b) :=
    ⟨fun _ => by simp, fun h => absurd h ha, fun _ _ _ d hd => by
      simp at hd; subst hd; rfl⟩
  simp only [dollarFormat_mixed_eq_mixedFrom]
  rcases dollarMixed_split args a 0 0 [] with ⟨w, h⟩ | ⟨p, na, i2, arg2, ren2, h⟩
  · exact Or.inl ⟨w, by rw [h _ hj1], by rw [h _ hj2]⟩
  · have h0 := h [] (Joins.nil_right a) [] []
    rw [List.append_nil, mixedFrom_nil] at h0
    rcases dollarMixed_outcome args b i2 arg2 ren2 with ⟨w, hb⟩ | ⟨q, n, hb⟩
    · refine Or.inl ⟨w, ?_, ?_⟩
      · rw [h _ hj1, mixedFrom_literal _ _ _ _ _ _ _ _ _ _ hc1 hc2, hb]
      · rw [h _ hj2, mixedFrom_escapeD, hb]
    · refine Or.inr ⟨p, q, na, na ++ n, ?_, ?_, ?_⟩
      · rw [h0]; simp
      · rw [h _ hj1, mixedFrom_literal _ _ _ _ _ _ _ _ _ _ hc1 hc2, hb]; simp
      · rw [h _ hj2, mixedFrom_escapeD, hb]; simp

/-- The escape law for `$$` on templates whose digit runs fit an `int`, with
an argument per marker occurrence: both runs return. -/
theorem dollarMixed_escape_of_fits {α : Type} (a b : List Char) (c : Char) (args : List α)
    (ha : a.getLast? ≠ some '$') (hc1 : c ≠ '?') (hc2 : c ≠ '$') (hc3 : isDigit c = false)
    (hf : FitsInt (markerOccurrences (a ++ c :: b)))
    (hs : (markerOccurrences (a ++ c :: b)).length ≤ args.length) :
    ∃ p q na n,
      dollarFormat.ReplacePlaceholdersMixed a args = Run.returned (p, some na, none) ∧
      dollarFormat.ReplacePlaceholdersMixed (a ++ c :: b) args
        = Run.returned (p ++ c :: q, some n, none) ∧
      dollarFormat.ReplacePlaceholdersMixed (a ++ '$' :: '$' :: b) args
        = Run.returned (p ++ '$' :: q, some n, none) := by
  rcases dollarMixed_escape_rel a b c args ha hc1 hc2 hc3 with ⟨w, h1, -⟩ | h
  · obtain ⟨q, hq⟩ := (mixed_summary (a ++ c :: b) args hf hs).2
    rw [hq] at h1
    cases h1
  · exact h

/-! ## A reserved character at the end of the template -/

/-- Appending a character other than `?` to a template appends it to the
output of `Dollar.ReplacePlaceholders`. -/
theorem dollarScan_append_char (a : List Char) (c : Char) (hc : c ≠ '?') :
    ∀ i, ∃ s,
      (∀ buf, scanFrom dollarReplace () a buf i = ((), Run.returned (buf ++ s, none))) ∧
      ∀ buf, scanFrom dollarReplace () (a ++ [c]) buf i
        = ((), Run.returned (buf ++ s ++ [c], none)) := by
  induction a using scan_induction with
  | nil =>
    intro i
    exact ⟨[], fun buf => by simp [scanFrom_nil], fun buf => by
      rw [List.nil_append, scanFrom_literal _ _ _ _ _ _ hc, scanFrom_nil]; simp⟩
  | literal x r hx ih =>
    intro i
    obtain ⟨s, h1, h2⟩ := ih i
    exact ⟨x :: s, fun buf => by rw [scanFrom_literal _ _ _ _ _ _ hx, h1]; simp,
      fun buf => by rw [List.cons_append, scanFrom_literal _ _ _ _ _ _ hx, h2]; simp⟩
  | escape r ih =>
    intro i
    obtain ⟨s, h1, h2⟩ := ih i
    exact ⟨'?' :: s, fun buf => by rw [scanFrom_escape, h1]; simp,
      fun buf => by rw [List.cons_append, List.cons_append, scanFrom_escape, h2]; simp⟩
  | marker r hr ih =>
    intro i
    obtain ⟨s, h1, h2⟩ := ih (i + 1)
    have hrc : (r ++ [c]).head? ≠ some '?' := by
      cases r with
      | nil => simpa using hc
      | cons d u => simpa using hr
    exact ⟨'$' :: (itoa (i + 1) ++ s), fun buf => by rw [dollarScan_marker _ _ _ hr, h1]; simp,
      fun buf => by rw [List.cons_append, dollarScan_marker _ _ _ hrc, h2]; simp⟩

theorem replicate_two_mul_succ (k : Nat) (c : Char) :
    List.replicate (2 * (k + 1)) c = c :: c :: List.replicate (2 * k) c := by
  rw [Nat.mul_succ, List.replicate_succ, List.replicate_succ]

theorem dollarScan_escapes (k : Nat) (t buf : List Char) (i : Nat) :
    scanFrom dollarReplace () (List.replicate (2 * k) '?' ++ t) buf i
      = scanFrom dollarReplace () t (buf ++ List.replicate k '?') i := by
  induction k generalizing buf with
  | zero => simp
  | succ k ih =>
    rw [replicate_two_mul_succ, List.cons_append, List.cons_append, scanFrom_escape, ih,
      List.append_assoc]
    rfl

theorem dollarMixed_escapesQ {α : Type} (args : List α) (k : Nat) (t buf : List Char) (i : Nat)
    (newArgs : List α) (arg : Nat) (renumbered : List (Nat × Nat)) :
    mixedFrom dollarReplace args () (List.replicate (2 * k) '?' ++ t) buf i newArgs arg renumbered
      = mixedFrom dollarReplace args () t (buf ++ List.replicate k '?') i newArgs arg
          renumbered := by
  induction k generalizing buf with
  | zero => simp
  | succ k ih =>
    rw [replicate_two_mul_succ, List.cons_append, List.cons_append, mixedFrom_escapeQ, ih,
      List.append_assoc]
    rfl

theorem dollarMixed_escapesD {α : Type} (args : List α) (k : Nat) (t buf : List Char) (i : Nat)
    (newArgs : List α) (arg : Nat) (renumbered : List (Nat × Nat)) :
    mixedFrom dollarReplace args () (List.replicate (2 * k) '$' ++ t) buf i newArgs arg renumbered
      = mixedFrom dollarReplace args () t (buf ++ List.replicate k '$') i newArgs arg
          renumbered := by
  induction k generalizing buf with
  | zero => simp
  | succ k ih =>
    rw [replicate_two_mul_succ, List.cons_append, List.cons_append, mixedFrom_escapeD, ih,
      List.append_assoc]
    rfl

theorem joins_of_head {a t : List Char} {c x : Char} (ha : a.getLast? ≠ some c)
    (hx : t.head? = some x ∨ t = []) (h1 : c = '?' ∨ x ≠ '?')
    (h2 : c = '$' ∨ x ≠ '$') (h3 : isDigit x = false) : Joins a t := by
  rcases hx with hx | rfl
  · refine ⟨fun hl => ?_, fun hl => ?_, fun y _ _ d hd => ?_⟩
    · rcases h1 with rfl | h1
      · exact absurd hl ha
      · rw [hx]; simpa using h1
    · refine ⟨?_, fun d hd => ?_⟩
      · rcases h2 with rfl | h2
        · exact absurd hl ha
        · rw [hx]; simpa using h2
      · rw [hx] at hd; cases hd; exact h3
    · rw [hx] at hd; cases hd; exact h3
  · exact Joins.nil_right a

theorem head?_replicate_append (n : Nat) (c : Char) (t : List Char) :
    (List.replicate n c ++ t).head? = some c ∨ List.replicate n c ++ t = [] ∨
      (n = 0 ∧ List.replicate n c ++ t = t) := by
  cases n with
  | zero => exact Or.inr (Or.inr ⟨rfl, rfl⟩)
  | succ n => exact Or.inl (by simp [List.replicate_succ])

/-- C7, the counterexample: the template `"x = ?"` ends in a single unmatched
`?`, and `Dollar.ReplacePlaceholders` rewrites it to `"x = $1"`, which does
not end in `?`; `Dollar.ReplacePlaceholdersMixed` without arguments panics on
it. -/
theorem trailing_question_is_marker :
    dollarFormat.ReplacePlaceholders "x = ?".toList = Run.returned ("x = $1".toList, none) ∧
    "x = $1".toList.getLast? ≠ some '?' ∧
    dollarFormat.ReplacePlaceholdersMixed "x = ?".toList ([] : List Nat)
      = Run.panicked Panic.indexOutOfRange ∧
    dollarFormat.ReplacePlaceholdersMixed "x = ?".toList [7]
      = Run.returned ("x = $1".toList, some [7], none) := by
  decide

/-- The scan of `a ++ t`, when `a` and `t` join and the scan does not panic
inside `a`: it reaches `t` with the cursor `arg` moved by the number of marker
occurrences of `a` and the counter `i` by the number of arguments kept. -/
theorem dollarMixed_split_cursor {α : Type} (args : List α) (a : List Char) :
    ∀ (i arg : Nat) (renumbered : List (Nat × Nat)),
      (∃ w, ∀ t, Joins a t → ∀ (buf : List Char) (newArgs : List α),
        mixedFrom dollarReplace args () (a ++ t) buf i newArgs arg renumbered
          = ((), Run.panicked w)) ∨
      (∃ p na renumbered2, ∀ t, Joins a t → ∀ (buf : List Char) (newArgs : List α),
        mixedFrom dollarReplace args () (a ++ t) buf i newArgs arg renumbered
          = mixedFrom dollarReplace args () t (buf ++ p) (i + na.length) (newArgs ++ na)
              (arg + (markerOccurrences a).length) renumbered2) := by
  induction a using mixed_induction with
  | nil =>
    intro i arg renumbered
    exact Or.inr ⟨[], [], renumbered, fun t _ buf newArgs => by simp [markerOccurrences]⟩
  | literal c r hq hd ih =>
    intro i arg renumbered
    rcases ih i arg renumbered with ⟨w, h⟩ | ⟨p, na, ren2, h⟩
    · refine Or.inl ⟨w, fun t ht buf newArgs => ?_⟩
      rw [List.cons_append, mixedFrom_literal _ _ _ _ _ _ _ _ _ _ hq hd, h t ht.tail]
    · refine Or.inr ⟨c :: p, na, ren2, fun t ht buf newArgs => ?_⟩
      rw [List.cons_append, mixedFrom_literal _ _ _ _ _ _ _ _ _ _ hq hd, h t ht.tail,
        markerOccurrences_literal c r hq hd]
      simp
  | escapeQ r ih =>
    intro i arg renumbered
    rcases ih i arg renumbered with ⟨w, h⟩ | ⟨p, na, ren2, h⟩
    · refine Or.inl ⟨w, fun t ht buf newArgs => ?_⟩
      rw [List.cons_append, List.cons_append, mixedFrom_escapeQ, h t ht.tail.tail]
    · refine Or.inr ⟨'?' :: p, na, ren2, fun t ht buf newArgs => ?_⟩
      rw [List.cons_append, List.cons_append, mixedFrom_escapeQ, h t ht.tail.tail,
        markerOccurrences_escapeQ]
      simp
  | anon r hr ih =>
    intro i arg renumbered
    have hhead : ∀ t, Joins ('?' :: r) t → (r ++ t).head? ≠ some '?' := by
      intro t ht
      cases r with
      | nil => exact ht.1 rfl
      | cons d u => simpa using hr
    cases hget : args[arg]? with
    | none =>
      refine Or.inl ⟨Panic.indexOutOfRange, fun t ht buf newArgs => ?_⟩
      rw [List.cons_append, mixedFrom_anon _ _ _ _ _ _ _ _ _ (hhead t ht), hget]
    | some x =>
      rcases ih (i + 1) (arg + 1) renumbered with ⟨w, h⟩ | ⟨p, na, ren2, h⟩
      · refine Or.inl ⟨w, fun t ht buf newArgs => ?_⟩
        rw [List.cons_append, mixedFrom_anon _ _ _ _ _ _ _ _ _ (hhead t ht), hget]
        simp only [emitThen_dollar_plain]
        rw [h t ht.tail]
      · refine Or.inr ⟨'$' :: (itoa (i + 1) ++ p), x :: na, ren2,
          fun t ht buf newArgs => ?_⟩
        have e1 : i + 1 + na.length = i + (x :: na).length := by
          rw [List.length_cons]; omega
        have e2 : arg + 1 + (markerOccurrences r).length
            = arg + (markerOccurrences ('?' :: r)).length := by
          rw [markerOccurrences_anon r hr, List.length_cons]; omega
        rw [List.cons_append, mixedFrom_anon _ _ _ _ _ _ _ _ _ (hhead t ht), hget]
        simp only [emitThen_dollar_plain]
        rw [h t ht.tail, e1, e2]
        simp
  | escapeD r ih =>
    intro i arg renumbered
    rcases ih i arg renumbered with ⟨w, h⟩ | ⟨p, na, ren2, h⟩
    · refine Or.inl ⟨w, fun t ht buf newArgs => ?_⟩
      rw [List.cons_append, List.cons_append, mixedFrom_escapeD, h t ht.tail.tail]
    · refine Or.inr ⟨'$' :: p, na, ren2, fun t ht buf newArgs => ?_⟩
      rw [List.cons_append, List.cons_append, mixedFrom_escapeD, h t ht.tail.tail,
        markerOccurrences_escapeD]
      simp
  | bare r hd hr ih =>
    intro i arg renumbered
    have hhead : ∀ t, Joins ('$' :: r) t →
        (r ++ t).head? ≠ some '$' ∧ ∀ d, (r ++ t).head? = some d → isDigit d = false := by
      intro t ht
      cases r with
      | nil => exact ht.2.1 rfl
      | cons d u => exact ⟨by simpa using hd, by simpa using hr⟩
    rcases ih i arg renumbered with ⟨w, h⟩ | ⟨p, na, ren2, h⟩
    · refine Or.inl ⟨w, fun t ht buf newArgs => ?_⟩
      rw [List.cons_append,
        mixedFrom_bare _ _ _ _ _ _ _ _ _ (hhead t ht).1 (hhead t ht).2, h t ht.tail]
    · refine Or.inr ⟨'$' :: p, na, ren2, fun t ht buf newArgs => ?_⟩
      rw [List.cons_append,
        mixedFrom_bare _ _ _ _ _ _ _ _ _ (hhead t ht).1 (hhead t ht).2, h t ht.tail,
        markerOccurrences_bare r hd hr]
      simp
  | numbered ds rest hne hall hrest ih =>
    intro i arg renumbered
    have hjoin : ∀ t, Joins ('$' :: (ds ++ rest)) t → Joins rest t := by
      intro t ht
      cases rest with
      | nil => exact Joins.nil_left t
      | cons d u =>
        have e : ('$' :: (ds ++ d :: u)).getLast? = (d :: u).getLast? := by
          rw [← List.cons_append]
          exact getLast?_append_of_ne_nil _ (by simp)
        unfold Joins at ht ⊢
        rw [e] at ht
        exact ht
    have hhead : ∀ t, Joins ('$' :: (ds ++ rest)) t →
        ∀ d, (rest ++ t).head? = some d → isDigit d = false := by
      intro t ht
      cases rest with
      | nil =>
        obtain ⟨x, hx, hlast⟩ := getLast?_mem_of_ne_nil hne
        have e : ('$' :: (ds ++ [])).getLast? = some x := by
          rw [List.append_nil, getLast?_cons_of_ne_nil hne, hlast]
        exact ht.2.2 x e (hall x hx)
      | cons d u => simpa using hrest
    have hstep : ∀ t, Joins ('$' :: (ds ++ rest)) t → ∀ (buf : List Char) (newArgs : List α),
        mixedFrom dollarReplace args () ('$' :: (ds ++ rest) ++ t) buf i newArgs arg renumbered
          = match Atoi ds with
            | none => ((), Run.panicked Panic.atoiError)
            | some num =>
              match renumbered.lookup num with
              | some j =>
                mixedFrom dollarReplace args () (rest ++ t) (buf ++ '$' :: itoa j) i newArgs
                  (arg + 1) renumbered
              | none =>
                match args[arg]? with
                | none => ((), Run.panicked Panic.indexOutOfRange)
                | some x =>
                  mixedFrom dollarReplace args () (rest ++ t) (buf ++ '$' :: itoa (i + 1))
                    (i + 1) (newArgs ++ [x]) (arg + 1) ((num, i + 1) :: renumbered) := by
      intro t ht buf newArgs
      rw [List.cons_append, List.append_assoc,
        mixedFrom_numbered _ _ _ _ _ _ _ _ _ _ hne hall (hhead t ht)]
      rfl
    have e2 : arg + 1 + (markerOccurrences rest).length
        = arg + (markerOccurrences ('$' :: (ds ++ rest))).length := by
      rw [markerOccurrences_numbered ds rest hne hall hrest, List.length_cons]; omega
    cases hat : Atoi ds with
    | none =>
      refine Or.inl ⟨Panic.atoiError, fun t ht buf newArgs => ?_⟩
      rw [hstep t ht, hat]
    | some num =>
      cases hl : renumbered.lookup num with
      | some j =>
        rcases ih i (arg + 1) renumbered with ⟨w, h⟩ | ⟨p, na, ren2, h⟩
        · refine Or.inl ⟨w, fun t ht buf newArgs => ?_⟩
          rw [hstep t ht, hat]
          simp only [hl]
          rw [h t (hjoin t ht)]
        · refine Or.inr ⟨'$' :: (itoa j ++ p), na, ren2, fun t ht buf newArgs => ?_⟩
          rw [hstep t ht, hat]
          simp only [hl]
          rw [h t (hjoin t ht), e2]
          simp
      | none =>
        cases hget : args[arg]? with
        | none =>
          refine Or.inl ⟨Panic.indexOutOfRange, fun t ht buf newArgs => ?_⟩
          rw [hstep t ht, hat]
          simp only [hl, hget]
        | some x =>
          rcases ih (i + 1) (arg + 1) ((num, i + 1) :: renumbered) with
            ⟨w, h⟩ | ⟨p, na, ren2, h⟩
          · refine Or.inl ⟨w, fun t ht buf newArgs => ?_⟩
            rw [hstep t ht, hat]
            simp only [hl, hget]
            rw [h t (hjoin t ht)]
          · refine Or.inr ⟨'$' :: (itoa (i + 1) ++ p), x :: na, ren2,
              fun t ht buf newArgs => ?_⟩
            have e1 : i + 1 + na.length = i + (x :: na).length := by
              rw [List.length_cons]; omega
            rw [hstep t ht, hat]
            simp only [hl, hget]
            rw [h t (hjoin t ht), e1, e2]
            simp

/-- C7, amended.  A final unmatched `$` (after `a0` not ending in `$` and an
even number of `$`) is copied literally: `Dollar.ReplacePlaceholders`, for
which `$` is plain text in every template, and
`Dollar.ReplacePlaceholdersMixed` give the result of the template without it
with `$` appended to the text, the same argument list and a nil error, the
mixed function panicking exactly when it panics without the final `$`.  A
final unmatched `?` (after `a0` not ending in `?` and an even number of `?`)
is an anonymous marker: the output of `Dollar.ReplacePlaceholders` is that of
the template without it followed by `$j` with `j ≥ 1`.  The mixed function
panics as it does without the final `?`; otherwise, with `(s, n)` its result
without the final `?` and `c` the number of marker occurrences of `a0`, it
panics on the index when `args` has no position `c`, and else returns `s`
followed by `$j` for `j = len(n) + 1` and `n` followed by `args[c]`. -/
theorem trailing_reserved {α : Type} (a0 : List Char) (k : Nat) (args : List α) :
    (∃ s, dollarFormat.ReplacePlaceholders a0 = Run.returned (s, none) ∧
      dollarFormat.ReplacePlaceholders (a0 ++ ['$']) = Run.returned (s ++ ['$'], none)) ∧
    (a0.getLast? ≠ some '$' →
      (∃ w, dollarFormat.ReplacePlaceholdersMixed (a0 ++ List.replicate (2 * k) '$') args
            = Run.panicked w ∧
          dollarFormat.ReplacePlaceholdersMixed (a0 ++ List.replicate (2 * k) '$' ++ ['$']) args
            = Run.panicked w) ∨
      (∃ s n, dollarFormat.ReplacePlaceholdersMixed (a0 ++ List.replicate (2 * k) '$') args
            = Run.returned (s, some n, none) ∧
          dollarFormat.ReplacePlaceholdersMixed (a0 ++ List.replicate (2 * k) '$' ++ ['$']) args
            = Run.returned (s ++ ['$'], some n, none))) ∧
    (a0.getLast? ≠ some '?' →
      (∃ s j, 1 ≤ j ∧
        dollarFormat.ReplacePlaceholders (a0 ++ List.replicate (2 * k) '?')
          = Run.returned (s, none) ∧
        dollarFormat.ReplacePlaceholders (a0 ++ List.replicate (2 * k) '?' ++ ['?'])
          = Run.returned (s ++ '$' :: itoa j, none)) ∧
      ((∃ w, dollarFormat.ReplacePlaceholdersMixed (a0 ++ List.replicate (2 * k) '?') args
            = Run.panicked w ∧
          dollarFormat.ReplacePlaceholdersMixed (a0 ++ List.replicate (2 * k) '?' ++ ['?']) args
            = Run.panicked w) ∨
       (∃ s n, dollarFormat.ReplacePlaceholdersMixed (a0 ++ List.replicate (2 * k) '?') args
            = Run.returned (s, some n, none) ∧
          (args[(markerOccurrences a0).length]? = none →
            dollarFormat.ReplacePlaceholdersMixed (a0 ++ List.replicate (2 * k) '?' ++ ['?']) args
              = Run.panicked Panic.indexOutOfRange) ∧
          (∀ x, args[(markerOccurrences a0).length]? = some x →
            dollarFormat.ReplacePlaceholdersMixed (a0 ++ List.replicate (2 * k) '?' ++ ['?']) args
              = Run.returned (s ++ '$' :: itoa (n.length + 1), some (n ++ [x]), none))))) := by
  refine ⟨?_, fun ha => ?_, fun ha => ⟨?_, ?_⟩⟩
  · obtain ⟨s, h1, h2⟩ := dollarScan_append_char a0 '$' (by decide) 0
    exact ⟨s, by rw [dollarFormat_eq_scanFrom, h1]; simp,
      by rw [dollarFormat_eq_scanFrom, h2]; simp⟩
  · have hj : ∀ t, Joins a0 (List.replicate (2 * k) '$' ++ t) ∨ k = 0 := by
      intro t
      rcases head?_replicate_append (2 * k) '$' t with h | h | ⟨h, -⟩
      · exact Or.inl (joins_of_head ha (Or.inl h) (Or.inr (by decide)) (Or.inl rfl) rfl)
      · exact Or.inl (by rw [h]; exact Joins.nil_right a0)
      · exact Or.inr (by omega)
    have hj1 : Joins a0 (List.replicate (2 * k) '$' ++ []) := by
      rcases hj [] with h | h
      · exact h
      · subst h; exact Joins.nil_right a0
    have hj2 : Joins a0 (List.replicate (2 * k) '$' ++ ['$']) := by
      rcases hj ['$'] with h | h
      · exact h
      · subst h
        exact joins_of_head ha (Or.inl rfl) (Or.inr (by decide)) (Or.inl rfl) rfl
    have e1 : a0 ++ List.replicate (2 * k) '$' = a0 ++ (List.replicate (2 * k) '$' ++ []) := by
      simp
    rw [List.append_assoc, e1]
    simp only [dollarFormat_mixed_eq_mixedFrom]
    rcases dollarMixed_split args a0 0 0 [] with ⟨w, h⟩ | ⟨p, na, i2, arg2, ren2, h⟩
    · exact Or.inl ⟨w, by rw [h _ hj1], by rw [h _ hj2]⟩
    · refine Or.inr ⟨p ++ List.replicate k '$', na, ?_, ?_⟩
      · rw [h _ hj1, dollarMixed_escapesD, mixedFrom_nil]; simp
      · rw [h _ hj2, dollarMixed_escapesD,
          mixedFrom_bare _ _ _ _ _ _ _ _ [] (by simp) (by simp), mixedFrom_nil]
        simp
  · obtain ⟨p, k0, -, h⟩ := dollarScan_split a0 ha 0
    refine ⟨p ++ List.replicate k '?', k0 + 1, by omega, ?_, ?_⟩
    · have := h (List.replicate (2 * k) '?' ++ []) []
      rw [dollarScan_escapes, scanFrom_nil, List.append_nil] at this
      rw [dollarFormat_eq_scanFrom, this]; simp
    · have := h (List.replicate (2 * k) '?' ++ ['?']) []
      rw [dollarScan_escapes, dollarScan_marker _ _ _ (by simp), scanFrom_nil,
        ← List.append_assoc] at this
      rw [dollarFormat_eq_scanFrom, this]; simp
  · have hj : ∀ t, Joins a0 (List.replicate (2 * k) '?' ++ t) ∨ k = 0 := by
      intro t
      rcases head?_replicate_append (2 * k) '?' t with h | h | ⟨h, -⟩
      · exact Or.inl (joins_of_head ha (Or.inl h) (Or.inl rfl) (Or.inr (by decide)) rfl)
      · exact Or.inl (by rw [h]; exact Joins.nil_right a0)
      · exact Or.inr (by omega)
    have hj1 : Joins a0 (List.replicate (2 * k) '?' ++ []) := by
      rcases hj [] with h | h
      · exact h
      · subst h; exact Joins.nil_right a0
    have hj2 : Joins a0 (List.replicate (2 * k) '?' ++ ['?']) := by
      rcases hj ['?'] with h | h
      · exact h
      · subst h
        exact joins_of_head ha (Or.inl rfl) (Or.inl rfl) (Or.inr (by decide)) rfl
    have e1 : a0 ++ List.replicate (2 * k) '?' = a0 ++ (List.replicate (2 * k) '?' ++ []) := by
      simp
    rw [List.append_assoc, e1]
    simp only [dollarFormat_mixed_eq_mixedFrom]
    rcases dollarMixed_split_cursor args a0 0 0 [] with ⟨w, h⟩ | ⟨p, na, ren2, h⟩
    · exact Or.inl ⟨w, by rw [h _ hj1], by rw [h _ hj2]⟩
    · refine Or.inr ⟨p ++ List.replicate k '?', na, ?_, ?_, ?_⟩
      · rw [h _ hj1, dollarMixed_escapesQ, mixedFrom_nil]; simp
      · intro hnone
        simp only [Nat.zero_add] at h
        rw [h _ hj2, dollarMixed_escapesQ, mixedFrom_anon _ _ _ _ _ _ _ _ [] (by simp), hnone]
      · intro x hx
        simp only [Nat.zero_add] at h
        rw [h _ hj2, dollarMixed_escapesQ, mixedFrom_anon _ _ _ _ _ _ _ _ [] (by simp), hx]
        simp only [emitThen_dollar_plain, mixedFrom_nil]
        simp

/-! ## The claims on `Dollar.ReplacePlaceholdersMixed` that a long digit run breaks

`strconv.Atoi` fails on a digit run above `2^63 - 1`, and the source then
takes the `panic(err)` it comments as "should never happen".  The four
theorems below each give a template on which this makes the function panic
where the specification promises a result, and show that on every template
whose digit runs fit an `int` the promise is kept. -/

/-- C1 (dedup of numbered markers).  On `"$1 AND $99999999999999999999 AND $1"`
with three arguments the function panics in `strconv.Atoi`, so the two
occurrences of `$1` are not rewritten at all.  On every template whose digit
runs fit an `int`, with an argument per marker occurrence, the function
returns, every occurrence is handed a number, two numbered occurrences are
handed the same number exactly when their digit runs denote the same integer,
and the number of an anonymous occurrence is handed to no other occurrence. -/
theorem mixed_dedup :
    (markerOccurrences "$1 AND $99999999999999999999 AND $1".toList
        = [Marker.numbered 1, Marker.numbered 99999999999999999999, Marker.numbered 1] ∧
      dollarFormat.ReplacePlaceholdersMixed "$1 AND $99999999999999999999 AND $1".toList
          ["a", "b", "c"]
        = Run.panicked Panic.atoiError) ∧
    ∀ (α : Type) (sql : List Char) (args : List α),
      FitsInt (markerOccurrences sql) → (markerOccurrences sql).length ≤ args.length →
      (∃ s newArgs, dollarFormat.ReplacePlaceholdersMixed sql args
        = Run.returned (s, some newArgs, none)) ∧
      (handedNumbers sql args).length = (markerOccurrences sql).length ∧
      (∀ (a b n1 n2 : Nat), (markerOccurrences sql)[a]? = some (Marker.numbered n1) →
        (markerOccurrences sql)[b]? = some (Marker.numbered n2) →
        ((handedNumbers sql args)[a]? = (handedNumbers sql args)[b]? ↔ n1 = n2)) ∧
      (∀ (a b : Nat), (markerOccurrences sql)[a]? = some Marker.anon →
        b < (markerOccurrences sql).length → b ≠ a →
        (handedNumbers sql args)[b]? ≠ (handedNumbers sql args)[a]?) :=
  ⟨by decide, fun _ sql args hf hs => mixed_dedup_of_fits sql args hf hs⟩

/-- C1 at `TestDollarMixed`: the markers `?, $20, $1, ?, $20, $1, ?` are
handed `1, 2, 3, 4, 2, 3, 5`; and `$7` and `$07` are the same marker. -/
theorem mixed_dedup_witness :
    dollarFormat.ReplacePlaceholdersMixed "$7 = $07".toList ["a", "b"]
      = Run.returned ("$1 = $1".toList, some ["a"], none) ∧
    markerOccurrences "x = ? AND y = $20 AND z = $1 AND w = ? AND m = ($20, $1) AND a = ?".toList
      = [Marker.anon, Marker.numbered 20, Marker.numbered 1, Marker.anon,
          Marker.numbered 20, Marker.numbered 1, Marker.anon] ∧
    handedNumbers "x = ? AND y = $20 AND z = $1 AND w = ? AND m = ($20, $1) AND a = ?".toList
        ["x", "y", "z", "w", "y", "z", "a"]
      = [1, 2, 3, 4, 2, 3, 5] ∧
    dollarFormat.ReplacePlaceholdersMixed
        "x = ? AND y = $20 AND z = $1 AND w = ? AND m = ($20, $1) AND a = ?".toList
        ["x", "y", "z", "w", "y", "z", "a"]
      = Run.returned
          ("x = $1 AND y = $2 AND z = $3 AND w = $4 AND m = ($2, $3) AND a = $5".toList,
            some ["x", "y", "z", "w", "a"], none) ∧
    ((handedNumbers
          "x = ? AND y = $20 AND z = $1 AND w = ? AND m = ($20, $1) AND a = ?".toList
          ["x", "y", "z", "w", "y", "z", "a"])[1]?
      = (handedNumbers
          "x = ? AND y = $20 AND z = $1 AND w = ? AND m = ($20, $1) AND a = ?".toList
          ["x", "y", "z", "w", "y", "z", "a"])[4]? ↔ 20 = 20) :=
  ⟨by decide, by decide, by decide, by decide,
    (mixed_dedup.2 String
      "x = ? AND y = $20 AND z = $1 AND w = ? AND m = ($20, $1) AND a = ?".toList
      ["x", "y", "z", "w", "y", "z", "a"] (by decide) (by decide)).2.2.1 1 4 20 20
      (by decide) (by decide)⟩

/-- C2 (argument reconciliation).  On `"y = $99999999999999999999"` with the
one argument the claim asks for, the function panics in `strconv.Atoi`
instead of returning the list `["y"]`.  On every template whose digit runs
fit an `int`, with `len(args)` at least the number `n` of marker occurrences,
the returned list is the arguments of the occurrences that are anonymous or
the first of their integer, in order; it is a subsequence of `args`, and it
is `args[0..n)` when no numbered marker repeats. -/
theorem mixed_args_reconciled :
    (markerOccurrences "y = $99999999999999999999".toList
        = [Marker.numbered 99999999999999999999] ∧
      dollarFormat.ReplacePlaceholdersMixed "y = $99999999999999999999".toList ["y"]
        = Run.panicked Panic.atoiError) ∧
    ∀ (α : Type) (sql : List Char) (args : List α),
      FitsInt (markerOccurrences sql) → (markerOccurrences sql).length ≤ args.length →
      (∃ s, dollarFormat.ReplacePlaceholdersMixed sql args
        = Run.returned (s, some (pick args
            ((List.range (markerOccurrences sql).length).map
              (introduces (markerOccurrences sql)))), none)) ∧
      (pick args ((List.range (markerOccurrences sql).length).map
        (introduces (markerOccurrences sql)))).Sublist args ∧
      ((∀ k, k < (markerOccurrences sql).length →
          introduces (markerOccurrences sql) k = true) →
        pick args ((List.range (markerOccurrences sql).length).map
          (introduces (markerOccurrences sql))) = args.take (markerOccurrences sql).length) :=
  ⟨by decide, fun _ sql args hf hs => mixed_args_of_fits sql args hf hs⟩

/-- C2 at `TestDollarMixed`: of the arguments `x, y, z, w, y, z, a` the ones
at the occurrences 0, 1, 2, 3 and 6 are kept. -/
theorem mixed_args_reconciled_witness :
    (List.range 7).map (introduces (markerOccurrences
        "x = ? AND y = $20 AND z = $1 AND w = ? AND m = ($20, $1) AND a = ?".toList))
      = [true, true, true, true, false, false, true] ∧
    pick ["x", "y", "z", "w", "y", "z", "a"] [true, true, true, true, false, false, true]
      = ["x", "y", "z", "w", "a"] ∧
    ∃ s, dollarFormat.ReplacePlaceholdersMixed
        "x = ? AND y = $20 AND z = $1 AND w = ? AND m = ($20, $1) AND a = ?".toList
        ["x", "y", "z", "w", "y", "z", "a"]
      = Run.returned (s, some (pick ["x", "y", "z", "w", "y", "z", "a"]
          ((List.range (markerOccurrences
              "x = ? AND y = $20 AND z = $1 AND w = ? AND m = ($20, $1) AND a = ?".toList).length).map
            (introduces (markerOccurrences
              "x = ? AND y = $20 AND z = $1 AND w = ? AND m = ($20, $1) AND a = ?".toList)))),
        none) :=
  ⟨by decide, by decide,
    (mixed_args_reconciled.2 String
      "x = ? AND y = $20 AND z = $1 AND w = ? AND m = ($20, $1) AND a = ?".toList
      ["x", "y", "z", "w", "y", "z", "a"] (by decide) (by decide)).1⟩

/-- C3 (dense renumbering).  On `"$99999999999999999999"` with one argument
the function panics in `strconv.Atoi` before the callback is called at all:
no number is handed out and no argument list is returned, where the claim
asks for the number 1 and a list of length 1.  On every template whose digit
runs fit an `int`, with an argument per marker occurrence, the function
returns, the first number handed out is 1, every number is at most one more
than the largest before it and a new number is exactly that, the numbers used
are exactly `1 .. len(newArgs)`,
`len(newArgs)` is the number of distinct markers, and every number `j` is a
valid position `j - 1` of the returned list. -/
theorem mixed_dense_renumbering :
    (markerOccurrences "$99999999999999999999".toList
        = [Marker.numbered 99999999999999999999] ∧
      handedNumbers "$99999999999999999999".toList ["y"] = [] ∧
      dollarFormat.ReplacePlaceholdersMixed "$99999999999999999999".toList ["y"]
        = Run.panicked Panic.atoiError) ∧
    ∀ (α : Type) (sql : List Char) (args : List α),
      FitsInt (markerOccurrences sql) → (markerOccurrences sql).length ≤ args.length →
      ∃ s newArgs,
        dollarFormat.ReplacePlaceholdersMixed sql args
          = Run.returned (s, some newArgs, none) ∧
        (markerOccurrences sql ≠ [] → (handedNumbers sql args)[0]? = some 1) ∧
        (∀ (t j : Nat), (handedNumbers sql args)[t]? = some j →
          j ≤ 1 + ((handedNumbers sql args).take t).foldl max 0 ∧
          (introduces (markerOccurrences sql) t = true →
            j = 1 + ((handedNumbers sql args).take t).foldl max 0)) ∧
        (∀ j, j ∈ handedNumbers sql args ↔ 1 ≤ j ∧ j ≤ newArgs.length) ∧
        newArgs.length = distinctMarkers (markerOccurrences sql) ∧
        (∀ j ∈ handedNumbers sql args, ∃ x, newArgs[j - 1]? = some x) :=
  ⟨by decide, fun _ sql args hf hs => mixed_dense_of_fits sql args hf hs⟩

/-- C3 at `TestDollarMixed`: three anonymous markers and the two integers 20
and 1 make five distinct markers, numbered 1 to 5. -/
theorem mixed_dense_renumbering_witness :
    distinctMarkers (markerOccurrences
        "x = ? AND y = $20 AND z = $1 AND w = ? AND m = ($20, $1) AND a = ?".toList) = 5 ∧
    ∃ s newArgs,
      dollarFormat.ReplacePlaceholdersMixed
          "x = ? AND y = $20 AND z = $1 AND w = ? AND m = ($20, $1) AND a = ?".toList
          ["x", "y", "z", "w", "y", "z", "a"]
        = Run.returned (s, some newArgs, none) ∧
      newArgs.length = distinctMarkers (markerOccurrences
        "x = ? AND y = $20 AND z = $1 AND w = ? AND m = ($20, $1) AND a = ?".toList) :=
  ⟨by decide,
    match mixed_dense_renumbering.2 String
      "x = ? AND y = $20 AND z = $1 AND w = ? AND m = ($20, $1) AND a = ?".toList
      ["x", "y", "z", "w", "y", "z", "a"] (by decide) (by decide) with
    | ⟨s, newArgs, h1, _, _, _, h5, _⟩ => ⟨s, newArgs, h1, h5⟩⟩

/-- C6 (escape law for `$$`).  With `a` empty, `c = 'x'` and
`b = "$99999999999999999999"`, and the one argument the claim asks for, both
`a ++ c ++ b` and `a ++ "$$" ++ b` make the function panic in `strconv.Atoi`
where the claim promises two results.  For every `a` not ending in `$`, every
`b` and every `c` other than `?`, `$` and the digits, the two runs panic
alike or return `p ++ c ++ q` and `p ++ "$" ++ q` with the same argument
list, `p` being the text returned for `a` alone; and they do return when the
digit runs of `a ++ c ++ b` fit an `int` and `args` has an argument per marker
occurrence. -/
theorem mixed_escape_law :
    (markerOccurrences ('x' :: "$99999999999999999999".toList)
        = [Marker.numbered 99999999999999999999] ∧
      dollarFormat.ReplacePlaceholdersMixed ([] ++ 'x' :: "$99999999999999999999".toList) ["y"]
        = Run.panicked Panic.atoiError ∧
      dollarFormat.ReplacePlaceholdersMixed
          ([] ++ '$' :: '$' :: "$99999999999999999999".toList) ["y"]
        = Run.panicked Panic.atoiError) ∧
    ∀ (α : Type) (a b : List Char) (c : Char) (args : List α),
      a.getLast? ≠ some '$' → c ≠ '?' → c ≠ '$' → isDigit c = false →
      ((∃ w, dollarFormat.ReplacePlaceholdersMixed (a ++ c :: b) args = Run.panicked w ∧
          dollarFormat.ReplacePlaceholdersMixed (a ++ '$' :: '$' :: b) args = Run.panicked w) ∨
        (∃ p q na n,
          dollarFormat.ReplacePlaceholdersMixed a args = Run.returned (p, some na, none) ∧
          dollarFormat.ReplacePlaceholdersMixed (a ++ c :: b) args
            = Run.returned (p ++ c :: q, some n, none) ∧
          dollarFormat.ReplacePlaceholdersMixed (a ++ '$' :: '$' :: b) args
            = Run.returned (p ++ '$' :: q, some n, none))) ∧
      (FitsInt (markerOccurrences (a ++ c :: b)) →
        (markerOccurrences (a ++ c :: b)).length ≤ args.length →
        ∃ p q na n,
          dollarFormat.ReplacePlaceholdersMixed a args = Run.returned (p, some na, none) ∧
          dollarFormat.ReplacePlaceholdersMixed (a ++ c :: b) args
            = Run.returned (p ++ c :: q, some n, none) ∧
          dollarFormat.ReplacePlaceholdersMixed (a ++ '$' :: '$' :: b) args
            = Run.returned (p ++ '$' :: q, some n, none)) :=
  ⟨by decide, fun _ a b c args ha hc1 hc2 hc3 =>
    ⟨dollarMixed_escape_rel a b c args ha hc1 hc2 hc3,
      fun hf hs => dollarMixed_escape_of_fits a b c args ha hc1 hc2 hc3 hf hs⟩⟩

/-- C6 on a shortened form of the second template of `TestEscape`, with its
two arguments: `"t $$| ['$4'] = $1"` gives `"t $| ['$1'] = $2"`, and the same
template with `#` for the escape gives `"t #| ['$1'] = $2"`. -/
theorem mixed_escape_law_witness :
    dollarFormat.ReplacePlaceholdersMixed "t $$| ['$4'] = $1".toList [1, 2]
      = Run.returned ("t $| ['$1'] = $2".toList, some [1, 2], none) ∧
    dollarFormat.ReplacePlaceholdersMixed "t #| ['$4'] = $1".toList [1, 2]
      = Run.returned ("t #| ['$1'] = $2".toList, some [1, 2], none) ∧
    ∃ p q na n,
      dollarFormat.ReplacePlaceholdersMixed "t ".toList [1, 2]
        = Run.returned (p, some na, none) ∧
      dollarFormat.ReplacePlaceholdersMixed ("t ".toList ++ '#' :: "| ['$4'] = $1".toList) [1, 2]
        = Run.returned (p ++ '#' :: q, some n, none) ∧
      dollarFormat.ReplacePlaceholdersMixed
          ("t ".toList ++ '$' :: '$' :: "| ['$4'] = $1".toList) [1, 2]
        = Run.returned (p ++ '$' :: q, some n, none) :=
  ⟨by decide, by decide,
    (mixed_escape_law.2 Nat "t ".toList "| ['$4'] = $1".toList '#' [1, 2]
      (by decide) (by decide) (by decide) (by decide)).2 (by decide) (by decide)⟩

/-- C7, the amended claim at `"x = "`, no doubled pair and one argument:
`"x = $"` stays as it is, and `"x = ?"` becomes `"x = $1"` with the argument
`args[0]` kept, the template `"x = "` having no marker occurrence. -/
theorem trailing_reserved_witness :
    "x = ".toList.getLast? ≠ some '?' ∧
    (∃ s, dollarFormat.ReplacePlaceholders "x = ".toList = Run.returned (s, none) ∧
      dollarFormat.ReplacePlaceholders ("x = ".toList ++ ['$'])
        = Run.returned (s ++ ['$'], none)) ∧
    dollarFormat.ReplacePlaceholdersMixed ("x = ".toList ++ List.replicate (2 * 0) '$' ++ ['$']) [7]
      = Run.returned ("x = $".toList, some [], none) ∧
    dollarFormat.ReplacePlaceholders ("x = ".toList ++ List.replicate (2 * 0) '?' ++ ['?'])
      = Run.returned ("x = $1".toList, none) ∧
    ((∃ w, dollarFormat.ReplacePlaceholdersMixed ("x = ".toList ++ List.replicate (2 * 0) '?') [7]
          = Run.panicked w ∧
        dollarFormat.ReplacePlaceholdersMixed
            ("x = ".toList ++ List.replicate (2 * 0) '?' ++ ['?']) [7]
          = Run.panicked w) ∨
      (∃ s n, dollarFormat.ReplacePlaceholdersMixed ("x = ".toList ++ List.replicate (2 * 0) '?') [7]
          = Run.returned (s, some n, none) ∧
        (([7] : List Nat)[(markerOccurrences "x = ".toList).length]? = none →
          dollarFormat.ReplacePlaceholdersMixed
              ("x = ".toList ++ List.replicate (2 * 0) '?' ++ ['?']) [7]
            = Run.panicked Panic.indexOutOfRange) ∧
        (∀ x, ([7] : List Nat)[(markerOccurrences "x = ".toList).length]? = some x →
          dollarFormat.ReplacePlaceholdersMixed
              ("x = ".toList ++ List.replicate (2 * 0) '?' ++ ['?']) [7]
            = Run.returned (s ++ '$' :: itoa (n.length + 1), some (n ++ [x]), none)))) :=
  ⟨by decide, (trailing_reserved "x = ".toList 0 [7]).1, by decide, by decide,
    ((trailing_reserved "x = ".toList 0 [7]).2.2 (by decide)).2⟩

/-- C10 on the template `"a ? b ? c ?"` with a callback that writes `#` and
fails at the number 2: the callback is called for 1 and 2 only, and the
functions return the empty text with its error. -/
theorem formatter_failure_atomic_witness :
    replacePlaceholders
        (traced fun (st : Unit) buf i => (st, buf ++ ['#'], if i = 2 then some "boom" else none))
        ((), []) "a ? b ? c ?".toList
      = (((), [(1, none), (2, some "boom")]), Run.returned ([], some "boom")) ∧
    replacePlaceholdersMixed
        (traced fun (st : Unit) buf i => (st, buf ++ ['#'], if i = 2 then some "boom" else none))
        ((), []) "a ? b ? c ?".toList [7, 8, 9]
      = (((), [(1, none), (2, some "boom")]), Run.returned ([], none, some "boom")) ∧
    (replacePlaceholders
        (fun (st : Unit) buf i => (st, buf ++ ['#'], if i = 2 then some "boom" else none))
        () "a ? b ? c ?".toList).2 = Run.returned ([], some "boom") :=
  ⟨by decide, by decide,
    ((formatter_failure_atomic
      (fun (st : Unit) buf i => (st, buf ++ ['#'], if i = 2 then some "boom" else none))
      () "a ? b ? c ?".toList [7, 8, 9]).1.2.1 2 "boom" (by decide)).1⟩

/-! ## The two panics of the mixed scan -/

/-- With an argument for every marker occurrence still to come, a digit run
that does not fit an `int` makes the mixed scan panic in `strconv.Atoi`. -/
theorem dollarMixed_overflow {α : Type} (args : List α) (sql : List Char) :
    ∀ (i arg : Nat) (renumbered : List (Nat × Nat)),
      arg + (markerOccurrences sql).length ≤ args.length →
      ¬ FitsInt (markerOccurrences sql) →
      ∀ (buf : List Char) (newArgs : List α),
        mixedFrom dollarReplace args () sql buf i newArgs arg renumbered
          = ((), Run.panicked Panic.atoiError) := by
  induction sql using mixed_induction with
  | nil =>
    intro i arg renumbered _ hf
    exact absurd (fun m hm => by simp [markerOccurrences] at hm) hf
  | literal c r hq hd ih =>
    intro i arg renumbered hs hf buf newArgs
    rw [markerOccurrences_literal c r hq hd] at hf hs
    rw [mixedFrom_literal _ _ _ _ _ _ _ _ _ _ hq hd, ih i arg renumbered hs hf]
  | escapeQ r ih =>
    intro i arg renumbered hs hf buf newArgs
    rw [markerOccurrences_escapeQ] at hf hs
    rw [mixedFrom_escapeQ, ih i arg renumbered hs hf]
  | anon r hr ih =>
    intro i arg renumbered hs hf buf newArgs
    rw [markerOccurrences_anon r hr] at hf hs
    have hlt : arg < args.length := by simp at hs; omega
    have hget : args[arg]? = some args[arg] := List.getElem?_eq_getElem hlt
    have hf2 : ¬ FitsInt (markerOccurrences r) := by
      intro h
      apply hf
      intro m hm
      rcases List.mem_cons.1 hm with rfl | hm
      · rfl
      · exact h m hm
    rw [mixedFrom_anon _ _ _ _ _ _ _ _ _ hr, hget]
    simp only [emitThen_dollar_plain]
    exact ih (i + 1) (arg + 1) renumbered (by simp at hs; omega) hf2 _ _
  | escapeD r ih =>
    intro i arg renumbered hs hf buf newArgs
    rw [markerOccurrences_escapeD] at hf hs
    rw [mixedFrom_escapeD, ih i arg renumbered hs hf]
  | bare r hd hr ih =>
    intro i arg renumbered hs hf buf newArgs
    rw [markerOccurrences_bare r hd hr] at hf hs
    rw [mixedFrom_bare _ _ _ _ _ _ _ _ _ hd hr, ih i arg renumbered hs hf]
  | numbered ds rest hne hall hrest ih =>
    intro i arg renumbered hs hf buf newArgs
    rw [markerOccurrences_numbered ds rest hne hall hrest] at hf hs
    rw [mixedFrom_numbered _ _ _ _ _ _ _ _ _ _ hne hall hrest]
    by_cases hfit : digitsValue ds ≤ maxInt
    · have hlt : arg < args.length := by simp at hs; omega
      have hget : args[arg]? = some args[arg] := List.getElem?_eq_getElem hlt
      have hf2 : ¬ FitsInt (markerOccurrences rest) := by
        intro h
        apply hf
        intro m hm
        rcases List.mem_cons.1 hm with rfl | hm
        · simpa [Marker.fits] using hfit
        · exact h m hm
      have hs2 : arg + 1 + (markerOccurrences rest).length ≤ args.length := by
        simp at hs; omega
      rw [Atoi_of_le hfit]
      cases hl : renumbered.lookup (digitsValue ds) with
      | some j =>
        simp only [hl, emitThen_dollar_plain]
        exact ih i (arg + 1) renumbered hs2 hf2 _ _
      | none =>
        simp only [hl, hget, emitThen_dollar_plain]
        exact ih (i + 1) (arg + 1) _ hs2 hf2 _ _
    · simp [Atoi, hfit]

/-- The mixed scan reads `args` only at the positions of the marker
occurrences still to come: two argument lists that agree there give the same
run. -/
theorem dollarMixed_args_congr {α : Type} (args1 args2 : List α) (sql : List Char) :
    ∀ (i arg : Nat) (renumbered : List (Nat × Nat)),
      (∀ k, arg ≤ k → k < arg + (markerOccurrences sql).length → args1[k]? = args2[k]?) →
      ∀ (buf : List Char) (newArgs : List α),
        mixedFrom dollarReplace args1 () sql buf i newArgs arg renumbered
          = mixedFrom dollarReplace args2 () sql buf i newArgs arg renumbered := by
  induction sql using mixed_induction with
  | nil =>
    intro i arg renumbered _ buf newArgs
    rw [mixedFrom_nil, mixedFrom_nil]
  | literal c r hq hd ih =>
    intro i arg renumbered h buf newArgs
    rw [markerOccurrences_literal c r hq hd] at h
    rw [mixedFrom_literal _ _ _ _ _ _ _ _ _ _ hq hd, mixedFrom_literal _ _ _ _ _ _ _ _ _ _ hq hd,
      ih i arg renumbered h]
  | escapeQ r ih =>
    intro i arg renumbered h buf newArgs
    rw [markerOccurrences_escapeQ] at h
    rw [mixedFrom_escapeQ, mixedFrom_escapeQ, ih i arg renumbered h]
  | anon r hr ih =>
    intro i arg renumbered h buf newArgs
    rw [markerOccurrences_anon r hr] at h
    have h0 : args1[arg]? = args2[arg]? := h arg (le_refl _) (by simp)
    have h2 : ∀ k, arg + 1 ≤ k → k < arg + 1 + (markerOccurrences r).length →
        args1[k]? = args2[k]? := fun k hk1 hk2 => h k (by omega) (by simp; omega)
    rw [mixedFrom_anon _ _ _ _ _ _ _ _ _ hr, mixedFrom_anon _ _ _ _ _ _ _ _ _ hr, h0]
    cases args2[arg]? with
    | none => rfl
    | some x =>
      simp only [emitThen_dollar_plain]
      exact ih (i + 1) (arg + 1) renumbered h2 _ _
  | escapeD r ih =>
    intro i arg renumbered h buf newArgs
    rw [markerOccurrences_escapeD] at h
    rw [mixedFrom_escapeD, mixedFrom_escapeD, ih i arg renumbered h]
  | bare r hd hr ih =>
    intro i arg renumbered h buf newArgs
    rw [markerOccurrences_bare r hd hr] at h
    rw [mixedFrom_bare _ _ _ _ _ _ _ _ _ hd hr, mixedFrom_bare _ _ _ _ _ _ _ _ _ hd hr,
      ih i arg renumbered h]
  | numbered ds rest hne hall hrest ih =>
    intro i arg renumbered h buf newArgs
    rw [markerOccurrences_numbered ds rest hne hall hrest] at h
    have h0 : args1[arg]? = args2[arg]? := h arg (le_refl _) (by simp)
    have h2 : ∀ k, arg + 1 ≤ k → k < arg + 1 + (markerOccurrences rest).length →
        args1[k]? = args2[k]? := fun k hk1 hk2 => h k (by omega) (by simp; omega)
    rw [mixedFrom_numbered _ _ _ _ _ _ _ _ _ _ hne hall hrest,
      mixedFrom_numbered _ _ _ _ _ _ _ _ _ _ hne hall hrest, h0]
    cases Atoi ds with
    | none => rfl
    | some num =>
      dsimp only
      cases renumbered.lookup num with
      | some j =>
        simp only [emitThen_dollar_plain]
        exact ih i (arg + 1) renumbered h2 _ _
      | none =>
        dsimp only
        cases args2[arg]? with
        | none => rfl
        | some x =>
          simp only [emitThen_dollar_plain]
          exact ih (i + 1) (arg + 1) _ h2 _ _


/-- With an argument per marker occurrence the function returns when the
digit runs fit an `int`, and panics in `strconv.Atoi` when one does not: it
never reads `args` out of range. -/
theorem mixed_sufficient {α : Type} (sql : List Char) (args : List α)
    (hs : (markerOccurrences sql).length ≤ args.length) :
    (FitsInt (markerOccurrences sql) ∧
      ∃ s newArgs, dollarFormat.ReplacePlaceholdersMixed sql args
        = Run.returned (s, some newArgs, none)) ∨
    (¬ FitsInt (markerOccurrences sql) ∧
      dollarFormat.ReplacePlaceholdersMixed sql args = Run.panicked Panic.atoiError) := by
  by_cases hf : FitsInt (markerOccurrences sql)
  · obtain ⟨q, hq⟩ := (mixed_summary sql args hf hs).2
    exact Or.inl ⟨hf, q, _, hq⟩
  · refine Or.inr ⟨hf, ?_⟩
    rw [dollarFormat_mixed_eq_mixedFrom,
      dollarMixed_overflow args sql 0 0 [] (by simpa using hs) hf]

/-- C11 (no error from the built-in strategies).  For every string,
`Question.ReplacePlaceholders` and `Dollar.ReplacePlaceholders` return a nil
error, and `Dollar.ReplacePlaceholdersMixed`, for every `args`, either panics
or returns a text and an argument list with a nil error: whenever it returns,
its error is nil. -/
theorem builtin_error_unreachable {α : Type} (s : List Char) (args : List α) :
    (questionFormat.ReplacePlaceholders s).2 = none ∧
    (∃ q, dollarFormat.ReplacePlaceholders s = Run.returned (q, none)) ∧
    ((∃ w, dollarFormat.ReplacePlaceholdersMixed s args = Run.panicked w) ∨
      ∃ q n, dollarFormat.ReplacePlaceholdersMixed s args = Run.returned (q, some n, none)) ∧
    (∀ v, dollarFormat.ReplacePlaceholdersMixed s args = Run.returned v → v.2.2 = none) := by
  have hm : (∃ w, dollarFormat.ReplacePlaceholdersMixed s args = Run.panicked w) ∨
      ∃ q n, dollarFormat.ReplacePlaceholdersMixed s args = Run.returned (q, some n, none) := by
    rw [dollarFormat_mixed_eq_mixedFrom]
    rcases dollarMixed_outcome args s 0 0 [] with ⟨w, h⟩ | ⟨q, n, h⟩
    · exact Or.inl ⟨w, by rw [h]⟩
    · exact Or.inr ⟨q, n, by rw [h]; simp⟩
  refine ⟨rfl, ?_, hm, ?_⟩
  · obtain ⟨q, hq⟩ := dollarScan_returns s 0
    exact ⟨q, by rw [dollarFormat_eq_scanFrom, hq]; simp⟩
  · intro v hv
    rcases hm with ⟨w, h⟩ | ⟨q, n, h⟩
    · rw [h] at hv; cases hv
    · rw [h] at hv; cases hv; rfl

/-- C11 on the templates of the tests. -/
theorem builtin_error_unreachable_witness :
    (questionFormat.ReplacePlaceholders "x = ? AND y = ?".toList).2 = none ∧
    dollarFormat.ReplacePlaceholders "x = ? AND y = ?".toList
      = Run.returned ("x = $1 AND y = $2".toList, none) ∧
    dollarFormat.ReplacePlaceholdersMixed "x = ? AND y = $4".toList [1, 2]
      = Run.returned ("x = $1 AND y = $2".toList, some [1, 2], none) ∧
    ∀ v, dollarFormat.ReplacePlaceholdersMixed "x = ? AND y = $4".toList [1, 2] = Run.returned v →
      v.2.2 = none :=
  ⟨by decide, by decide, by decide,
    (builtin_error_unreachable "x = ? AND y = $4".toList [1, 2]).2.2.2⟩

/-- C12 (argument indexing).  On `"? AND $99999999999999999999"` with the two
arguments the claim asks for, the function does not return normally: it
panics in `strconv.Atoi`.  For every template with `n` marker occurrences and
every `args` with `len(args) ≥ n`, the function never panics on an index out
of range, its outcome is the one for the first `n` arguments alone (all
further arguments are ignored), and it returns normally exactly when every
digit run fits an `int`, panicking in `strconv.Atoi` otherwise. -/
theorem mixed_args_indexing :
    (markerOccurrences "? AND $99999999999999999999".toList
        = [Marker.anon, Marker.numbered 99999999999999999999] ∧
      dollarFormat.ReplacePlaceholdersMixed "? AND $99999999999999999999".toList ["x", "y"]
        = Run.panicked Panic.atoiError) ∧
    ∀ (α : Type) (sql : List Char) (args : List α),
      (markerOccurrences sql).length ≤ args.length →
      dollarFormat.ReplacePlaceholdersMixed sql args ≠ Run.panicked Panic.indexOutOfRange ∧
      dollarFormat.ReplacePlaceholdersMixed sql args
        = dollarFormat.ReplacePlaceholdersMixed sql (args.take (markerOccurrences sql).length) ∧
      (FitsInt (markerOccurrences sql) →
        ∃ s newArgs, dollarFormat.ReplacePlaceholdersMixed sql args
          = Run.returned (s, some newArgs, none)) ∧
      (¬ FitsInt (markerOccurrences sql) →
        dollarFormat.ReplacePlaceholdersMixed sql args = Run.panicked Panic.atoiError) := by
  refine ⟨by decide, fun α sql args hs => ⟨?_, ?_, ?_, ?_⟩⟩
  · rcases mixed_sufficient sql args hs with ⟨-, s, n, h⟩ | ⟨-, h⟩
    · rw [h]; simp
    · rw [h]; simp
  · rw [dollarFormat_mixed_eq_mixedFrom, dollarFormat_mixed_eq_mixedFrom,
      dollarMixed_args_congr args (args.take (markerOccurrences sql).length) sql 0 0 []]
    intro k _ hk
    rw [List.getElem?_take, if_pos (by simpa using hk)]
  · intro hf
    rcases mixed_sufficient sql args hs with ⟨-, h⟩ | ⟨hnf, -⟩
    · exact h
    · exact absurd hf hnf
  · intro hnf
    rcases mixed_sufficient sql args hs with ⟨hf, -⟩ | ⟨-, h⟩
    · exact absurd hf hnf
    · exact h

/-- C12 at `TestDollarMixed` with two arguments too many: they are ignored. -/
theorem mixed_args_indexing_witness :
    dollarFormat.ReplacePlaceholdersMixed
        "x = ? AND y = $20 AND z = $1 AND w = ? AND m = ($20, $1) AND a = ?".toList
        ["x", "y", "z", "w", "y", "z", "a", "b", "c"]
      = Run.returned
          ("x = $1 AND y = $2 AND z = $3 AND w = $4 AND m = ($2, $3) AND a = $5".toList,
            some ["x", "y", "z", "w", "a"], none) ∧
    dollarFormat.ReplacePlaceholdersMixed
        "x = ? AND y = $20 AND z = $1 AND w = ? AND m = ($20, $1) AND a = ?".toList
        ["x", "y", "z", "w", "y", "z", "a", "b", "c"]
      ≠ Run.panicked Panic.indexOutOfRange :=
  ⟨by decide,
    (mixed_args_indexing.2 String
      "x = ? AND y = $20 AND z = $1 AND w = ? AND m = ($20, $1) AND a = ?".toList
      ["x", "y", "z", "w", "y", "z", "a", "b", "c"] (by decide)).1⟩

/-- C13 (the integer parse).  The digit run of `"$9223372036854775808"`, the
integer `2^63`, does not parse: `strconv.Atoi` fails and the function panics,
while `"$9223372036854775807"` is rewritten.  In general the parse of a digit
run fails exactly when its value exceeds `2^63 - 1`, whatever its length, and
with an argument per marker occurrence the function panics in `strconv.Atoi`
exactly when some digit run of the template does. -/
theorem atoi_parse_can_fail :
    (Atoi "9223372036854775808".toList = none ∧
      Atoi "9223372036854775807".toList = some (2 ^ 63 - 1) ∧
      Atoi "0000000000000000000000007".toList = some 7 ∧
      dollarFormat.ReplacePlaceholdersMixed "$9223372036854775808".toList ["y"]
        = Run.panicked Panic.atoiError ∧
      dollarFormat.ReplacePlaceholdersMixed "$9223372036854775807".toList ["y"]
        = Run.returned ("$1".toList, some ["y"], none)) ∧
    (∀ ds, Atoi ds = none ↔ maxInt < digitsValue ds) ∧
    ∀ (α : Type) (sql : List Char) (args : List α),
      (markerOccurrences sql).length ≤ args.length →
      (dollarFormat.ReplacePlaceholdersMixed sql args = Run.panicked Panic.atoiError ↔
        ¬ FitsInt (markerOccurrences sql)) := by
  refine ⟨by decide, fun ds => ?_, fun α sql args hs => ?_⟩
  · unfold Atoi
    split
    · simp; omega
    · simp; omega
  · rcases mixed_sufficient sql args hs with ⟨hf, s, n, h⟩ | ⟨hnf, h⟩
    · rw [h]; simp [hf]
    · rw [h]; simp [hnf]

/-- C19 (bare `$`).  With `a` empty and `b = "x$99999999999999999999"`, and
the one argument `b` needs, the function panics in `strconv.Atoi` on
`a ++ "$" ++ b`, where the claim promises a result.  For every `a` without
`?` and `$` and every `b` that is empty or begins with a character that is
neither a digit nor `$`, the run on `a ++ "$" ++ b` panics as the run on `b`
does or returns the text of `b` after `a ++ "$"`, with the same argument
list; and both return when the digit runs of `b` fit an `int` and `args` has an
argument per marker occurrence of `b`. -/
theorem mixed_bare_dollar :
    (dollarFormat.ReplacePlaceholdersMixed
        ([] ++ '$' :: "x$99999999999999999999".toList) ["y"]
        = Run.panicked Panic.atoiError ∧
      markerOccurrences "x$99999999999999999999".toList
        = [Marker.numbered 99999999999999999999]) ∧
    ∀ (α : Type) (a b : List Char) (args : List α),
      '?' ∉ a → '$' ∉ a → b.head? ≠ some '$' →
      (∀ d, b.head? = some d → isDigit d = false) →
      (∀ w, dollarFormat.ReplacePlaceholdersMixed b args = Run.panicked w →
        dollarFormat.ReplacePlaceholdersMixed (a ++ '$' :: b) args = Run.panicked w) ∧
      (∀ s n, dollarFormat.ReplacePlaceholdersMixed b args = Run.returned (s, n, none) →
        dollarFormat.ReplacePlaceholdersMixed (a ++ '$' :: b) args
          = Run.returned (a ++ '$' :: s, n, none)) ∧
      (FitsInt (markerOccurrences b) → (markerOccurrences b).length ≤ args.length →
        ∃ s n, dollarFormat.ReplacePlaceholdersMixed b args = Run.returned (s, some n, none) ∧
          dollarFormat.ReplacePlaceholdersMixed (a ++ '$' :: b) args
            = Run.returned (a ++ '$' :: s, some n, none)) := by
  refine ⟨by decide, fun α a b args hq hd hb1 hb2 => ?_⟩
  have hstep : ∀ (buf : List Char),
      mixedFrom dollarReplace args () (a ++ '$' :: b) buf 0 [] 0 []
        = mixedFrom dollarReplace args () b (buf ++ a ++ ['$']) 0 [] 0 [] := by
    intro buf
    rw [mixedFrom_skip _ _ _ _ _ _ _ _ _ _ hq hd, mixedFrom_bare _ _ _ _ _ _ _ _ _ hb1 hb2]
  have key : (∃ w, dollarFormat.ReplacePlaceholdersMixed b args = Run.panicked w ∧
        dollarFormat.ReplacePlaceholdersMixed (a ++ '$' :: b) args = Run.panicked w) ∨
      (∃ s n, dollarFormat.ReplacePlaceholdersMixed b args = Run.returned (s, some n, none) ∧
        dollarFormat.ReplacePlaceholdersMixed (a ++ '$' :: b) args
          = Run.returned (a ++ '$' :: s, some n, none)) := by
    simp only [dollarFormat_mixed_eq_mixedFrom, hstep]
    rcases dollarMixed_outcome args b 0 0 [] with ⟨w, h⟩ | ⟨q, n, h⟩
    · exact Or.inl ⟨w, by rw [h], by rw [h]⟩
    · exact Or.inr ⟨q, n, by rw [h]; simp, by rw [h]; simp⟩
  refine ⟨fun w hw => ?_, fun s n hsn => ?_, fun hf hs => ?_⟩
  · rcases key with ⟨w2, h1, h2⟩ | ⟨s, n, h1, -⟩
    · rw [h1] at hw; cases hw; exact h2
    · rw [h1] at hw; cases hw
  · rcases key with ⟨w2, h1, -⟩ | ⟨s2, n2, h1, h2⟩
    · rw [h1] at hsn; cases hsn
    · rw [h1] at hsn; cases hsn; exact h2
  · rcases key with ⟨w2, h1, -⟩ | h
    · obtain ⟨q, hq2⟩ := (mixed_summary b args hf hs).2
      rw [hq2] at h1; cases h1
    · exact h

/-- C19 with the `$` last and with the `$` before text: `"a $"` and
`"a $ b = ?"`. -/
theorem mixed_bare_dollar_witness :
    dollarFormat.ReplacePlaceholdersMixed "a $".toList ([] : List Nat)
      = Run.returned ("a $".toList, some [], none) ∧
    dollarFormat.ReplacePlaceholdersMixed "a $ b = ?".toList [7]
      = Run.returned ("a $ b = $1".toList, some [7], none) ∧
    ∃ s n, dollarFormat.ReplacePlaceholdersMixed " b = ?".toList [7]
        = Run.returned (s, some n, none) ∧
      dollarFormat.ReplacePlaceholdersMixed ("a ".toList ++ '$' :: " b = ?".toList) [7]
        = Run.returned ("a ".toList ++ '$' :: s, some n, none) :=
  ⟨by decide, by decide,
    (mixed_bare_dollar.2 Nat "a ".toList " b = ?".toList [7]
      (by decide) (by decide) (by decide) (by decide)).2.2 (by decide) (by decide)⟩

/-! ## `Placeholders` -/

theorem repeatText_succ (s : List Char) (n : Nat) :
    repeatText s (n + 1) = s ++ repeatText s n := by
  simp [repeatText, List.replicate_succ]

theorem repeatText_length (s : List Char) (n : Nat) :
    (repeatText s n).length = n * s.length := by
  induction n with
  | zero => simp [repeatText]
  | succ n ih => rw [repeatText_succ, List.length_append, ih]; ring

theorem repeatText_count (n : Nat) :
    (repeatText [',', '?'] n).count '?' = n := by
  induction n with
  | zero => simp [repeatText]
  | succ n ih =>
    rw [repeatText_succ, List.count_append, ih]
    have h : [',', '?'].count '?' = 1 := by decide
    omega

theorem repeatText_getLast (n : Nat) :
    ('?' :: repeatText [',', '?'] n).getLast? = some '?' := by
  induction n with
  | zero => simp [repeatText]
  | succ n ih =>
    rw [repeatText_succ]
    simpa [List.getLast?_cons_cons] using ih

theorem repeatText_intercalate (n : Nat) :
    '?' :: repeatText [',', '?'] n
      = [','].intercalate (List.replicate (n + 1) ['?']) := by
  induction n with
  | zero => simp [repeatText, List.intercalate]
  | succ n ih =>
    rw [repeatText_succ, List.replicate_succ]
    have h : ∀ (x : List Char) (xs : List (List Char)), xs ≠ [] →
        [','].intercalate (x :: xs) = x ++ ',' :: [','].intercalate xs := by
      intro x xs hxs
      cases xs with
      | nil => exact absurd rfl hxs
      | cons y ys => simp [List.intercalate, List.intersperse]
    rw [h _ _ (by simp [List.replicate_succ]), ← ih]
    rfl

theorem maxInt_eq : (maxInt : Int) = 9223372036854775807 := by
  simp [maxInt]

/-- Below the length an `int` can hold, `Placeholders(n + 1)` is a `?`
followed by `n` copies of `,?`. -/
theorem Placeholders_of_pos (n : Nat) (h : 2 * ((n : Int) + 1) ≤ (maxInt : Int)) :
    Placeholders ((n : Int) + 1) = Except.ok ('?' :: repeatText [',', '?'] n) := by
  have h1 : ¬ ((n : Int) + 1 < 1) := by omega
  have h0 : ¬ ((n : Int) + 1 = 0) := by omega
  cases n with
  | zero => simp [Placeholders, stringsRepeat, repeatText]
  | succ m =>
    have hne : ¬ (((m + 1 : Nat) : Int) + 1 = 1) := by omega
    have hneg : ¬ (((m + 1 : Nat) : Int) + 1 < 0) := by omega
    have hov : ¬ ((([',', '?'] : List Char).length : Int) * (((m + 1 : Nat) : Int) + 1)
        > (maxInt : Int)) := by
      simp only [List.length_cons, List.length_nil]
      omega
    have ht : (((m + 1 : Nat) : Int) + 1).toNat = m + 1 + 1 := by omega
    simp only [Placeholders, stringsRepeat, if_neg h1, if_neg h0, if_neg hne, if_neg hneg,
      if_neg hov, ht]
    rw [repeatText_succ]
    rfl

/-- From `2^62` on, `Placeholders(count)` panics in `strings.Repeat`. -/
theorem Placeholders_of_large (count : Int) (h : (maxInt : Int) < 2 * count) :
    Placeholders count = Except.error "strings: Repeat output length overflow" := by
  rw [maxInt_eq] at h
  have h1 : ¬ (count < 1) := by omega
  have h0 : ¬ (count = 0) := by omega
  have hne : ¬ (count = 1) := by omega
  have hneg : ¬ (count < 0) := by omega
  have hov : (([',', '?'] : List Char).length : Int) * count > (maxInt : Int) := by
    rw [maxInt_eq]
    simp only [List.length_cons, List.length_nil]
    omega
  simp only [Placeholders, stringsRepeat, if_neg h1, if_neg h0, if_neg hne, if_neg hneg,
    if_pos hov]

/-- C14, the counterexample: `Placeholders(4611686018427387904)`, the count
`2^62 ≥ 1`, returns no string: `strings.Repeat(",?", count)` panics, the
length `2^63` being more than an `int` can hold. -/
theorem placeholders_panics :
    (1 : Int) ≤ 4611686018427387904 ∧
    Placeholders 4611686018427387904
      = Except.error "strings: Repeat output length overflow" ∧
    ¬ ∃ s, Placeholders 4611686018427387904 = Except.ok s := by
  have h := Placeholders_of_large 4611686018427387904 (by rw [maxInt_eq]; decide)
  refine ⟨by decide, h, ?_⟩
  rintro ⟨s, hs⟩
  rw [h] at hs
  cases hs

/-- C14, amended.  For `1 ≤ count < 2^62` (the counts whose result an `int`
can measure), `Placeholders(count)` returns a `?` followed by `count - 1`
copies of `,?`, which is `count` question marks joined with commas: its
length is `2·count − 1`, it holds exactly `count` question marks, and it
begins and ends with `?`; for `count < 1` it returns the empty string; for
`count ≥ 2^62` it panics in `strings.Repeat`; and `Placeholders(2) = "?,?"`. -/
theorem placeholders_shape (count : Int) :
    (1 ≤ count → 2 * count ≤ (maxInt : Int) →
      ∃ s, Placeholders count = Except.ok s ∧
        s = '?' :: repeatText [',', '?'] (count.toNat - 1) ∧
        s = [','].intercalate (List.replicate count.toNat ['?']) ∧
        (s.length : Int) = 2 * count - 1 ∧
        (s.count '?' : Int) = count ∧
        s.head? = some '?' ∧
        s.getLast? = some '?') ∧
    (count < 1 → Placeholders count = Except.ok []) ∧
    ((maxInt : Int) < 2 * count →
      Placeholders count = Except.error "strings: Repeat output length overflow") ∧
    Placeholders 2 = Except.ok "?,?".toList := by
  refine ⟨?_, ?_, Placeholders_of_large count, ?_⟩
  · intro h hfit
    obtain ⟨n, rfl⟩ : ∃ n : Nat, count = (n : Int) + 1 := ⟨(count - 1).toNat, by omega⟩
    have hn : ((n : Int) + 1).toNat = n + 1 := by omega
    refine ⟨_, Placeholders_of_pos n hfit, ?_⟩
    rw [hn]
    refine ⟨rfl, repeatText_intercalate n, ?_, ?_, rfl, repeatText_getLast n⟩
    · simp [repeatText_length]; ring
    · have hc : ('?' :: repeatText [',', '?'] n).count '?' = n + 1 := by
        rw [List.count_cons_self, repeatText_count]
      rw [hc]; simp
  · intro h
    simp [Placeholders, h]
  · exact Placeholders_of_pos 1 (by rw [maxInt_eq]; decide)

/-- The statement of `placeholders_shape` at the counts 3, 0 and `2^62`. -/
theorem placeholders_shape_witness :
    (∃ s, Placeholders 3 = Except.ok s ∧
      s = '?' :: repeatText [',', '?'] ((3 : Int).toNat - 1) ∧
      s = [','].intercalate (List.replicate (3 : Int).toNat ['?']) ∧
      (s.length : Int) = 2 * 3 - 1 ∧
      (s.count '?' : Int) = 3 ∧
      s.head? = some '?' ∧
      s.getLast? = some '?') ∧
    Placeholders 0 = Except.ok [] ∧
    Placeholders 4611686018427387904
      = Except.error "strings: Repeat output length overflow" :=
  ⟨(placeholders_shape 3).1 (by decide) (by rw [maxInt_eq]; decide),
    (placeholders_shape 0).2.1 (by decide),
    (placeholders_shape 4611686018427387904).2.2.1 (by rw [maxInt_eq]; decide)⟩

/-! ## `WherePart` -/

/-- C15.  A string predicate is passed through verbatim: `NewWherePart(s,
args...).ToSql()` returns `(s, args, nil)`, with the text and the arguments
untouched whatever they are, `Pred()` returns `s` and `Args()` returns
`args`; and `NewWherePart("x = ?", 1)` gives `("x = ?", [1], nil)`. -/
theorem wherePart_string {α μ : Type} (eqToSql : μ → SqlResult α) (s : List Char)
    (args : Option (List α)) :
    (NewWherePart (PredValue.str s) args).ToSql eqToSql = (s, args, none) ∧
    (NewWherePart (PredValue.str s : PredValue α μ) args).Pred = PredValue.str s ∧
    (NewWherePart (PredValue.str s : PredValue α μ) args).Args = args ∧
    (NewWherePart (PredValue.str "x = ?".toList : PredValue Nat μ) (some [1])).ToSql
        (fun _ => ([], none, none))
      = ("x = ?".toList, some [1], none) :=
  ⟨rfl, rfl, rfl, rfl⟩

/-- C16.  `WherePart.ToSql` returns `("", nil, nil)` for a nil predicate
whatever the arguments, returns a nil error for a string predicate, returns
what the `ToSql` of a `Sqlizer` predicate returns, and for a predicate of any
other type than these and `map[string]interface{}` returns an empty text, nil
arguments and the error that names the type. -/
theorem wherePart_errors {α μ : Type} (eqToSql : μ → SqlResult α)
    (args : Option (List α)) :
    (NewWherePart PredValue.nil args).ToSql eqToSql = ([], none, none) ∧
    (∀ s, ((NewWherePart (PredValue.str s) args).ToSql eqToSql).2.2 = none) ∧
    (∀ r, (NewWherePart (PredValue.sqlizer r) args).ToSql eqToSql = r) ∧
    (∀ m, (NewWherePart (PredValue.stringMap m) args).ToSql eqToSql = eqToSql m) ∧
    (∀ typeName,
      (NewWherePart (PredValue.other typeName) args).ToSql eqToSql
        = ([], none, some ("expected string-keyed map or string, not " ++ typeName)) ∧
      ((NewWherePart (PredValue.other typeName) args).ToSql eqToSql).2.2 ≠ none) ∧
    (NewWherePart (PredValue.other "int" : PredValue Nat μ) none).ToSql
        (fun _ => ([], none, none))
      = ([], none, some "expected string-keyed map or string, not int") :=
  ⟨rfl, fun _ => rfl, fun _ => rfl, fun _ => rfl,
    fun _ => ⟨rfl, by simp [WherePart.ToSql, NewWherePart]⟩, rfl⟩

/-! ## `UpdateBuilder.SetMap` -/

theorem keys_foldl {β : Type} (clauses : List (List Char × β)) (acc : List (List Char)) :
    clauses.foldl (fun keys entry => keys ++ [entry.1]) acc
      = acc ++ clauses.map Prod.fst := by
  induction clauses generalizing acc with
  | nil => simp
  | cons e es ih => simp [ih]

theorem set_foldl {α ς : Type} (value : List Char → SetValue α) (keys : List (List Char))
    (b : UpdateBuilder α ς) :
    keys.foldl (fun b key => b.Set key (value key)) b
      = { b with setClauses := b.setClauses
            ++ keys.map fun key => { column := key, value := value key } } := by
  induction keys generalizing b with
  | nil => simp
  | cons k ks ih =>
    rw [List.foldl_cons, ih]
    simp [UpdateBuilder.Set]

theorem setMap_setClauses {α ς : Type} [Inhabited α] (b : UpdateBuilder α ς)
    (clauses : List (List Char × SetValue α)) :
    b.SetMap clauses
      = { b with setClauses := b.setClauses
            ++ (sortStrings (clauses.map Prod.fst)).map fun key =>
                { column := key, value := mapIndex clauses key } } := by
  simp only [UpdateBuilder.SetMap, keys_foldl, List.nil_append, set_foldl]

theorem lookup_of_mem {β : Type} (m : List (List Char × β)) (h : (m.map Prod.fst).Nodup)
    (k : List Char) (v : β) : m.lookup k = some v ↔ (k, v) ∈ m := by
  induction m with
  | nil => simp
  | cons e es ih =>
    obtain ⟨k0, v0⟩ := e
    simp only [List.map_cons, List.nodup_cons] at h
    rw [List.lookup_cons]
    by_cases hk : k = k0
    · subst hk
      simp only [beq_self_eq_true, List.mem_cons, Prod.mk.injEq, true_and, Option.some.injEq]
      constructor
      · intro hv; exact Or.inl hv.symm
      · rintro (hv | hv)
        · exact hv.symm
        · exact absurd (List.mem_map_of_mem Prod.fst hv) h.1
    · have hb : (k == k0) = false := by simpa using hk
      simp only [hb, List.mem_cons, Prod.mk.injEq, hk, false_and, false_or]
      exact ih h.2

theorem mapIndex_of_mem {α : Type} [Inhabited α] (m : List (List Char × SetValue α))
    (h : (m.map Prod.fst).Nodup) (e : List Char × SetValue α) (he : e ∈ m) :
    mapIndex m e.1 = e.2 := by
  have := (lookup_of_mem m h e.1 e.2).2 he
  simp [mapIndex, this]

theorem mapIndex_perm {α : Type} [Inhabited α] (m m2 : List (List Char × SetValue α))
    (h : (m.map Prod.fst).Nodup) (hp : m2.Perm m) (k : List Char) :
    mapIndex m2 k = mapIndex m k := by
  have h2 : (m2.map Prod.fst).Nodup := ((hp.map Prod.fst).nodup_iff).2 h
  have hl : m2.lookup k = m.lookup k := by
    apply Option.ext
    intro v
    rw [Option.mem_def, Option.mem_def, lookup_of_mem m h, lookup_of_mem m2 h2, hp.mem_iff]
  simp [mapIndex, hl]

theorem sortStrings_sorted (keys : List (List Char)) :
    (sortStrings keys).Sorted (· ≤ ·) :=
  List.sorted_insertionSort _ keys

theorem sortStrings_perm (keys : List (List Char)) : (sortStrings keys).Perm keys :=
  List.perm_insertionSort _ keys

theorem sortStrings_congr (keys keys2 : List (List Char)) (h : keys2.Perm keys) :
    sortStrings keys2 = sortStrings keys :=
  List.eq_of_perm_of_sorted ((sortStrings_perm keys2).trans (h.trans (sortStrings_perm keys).symm))
    (sortStrings_sorted keys2) (sortStrings_sorted keys)

/-- C17.  For a map `m` (its entries, with distinct keys, in the order the
run iterates over them), `SetMap(m)` is one `Set` call per entry of `m`, made
in ascending order of the keys: the set clauses afterwards are the previous
ones followed by the entries of `m` sorted by key, `ExtractColumns` gives the
previous columns followed by the sorted keys, `ExtractValues` gives the single
row of the previous values followed by the values in that order, and another
iteration order of the same map gives the same builder. -/
theorem setMap_sorted {α ς : Type} [Inhabited α] (b : UpdateBuilder α ς)
    (m : List (List Char × SetValue α)) (hm : (m.map Prod.fst).Nodup) :
    ∃ entries : List (List Char × SetValue α),
      entries.Perm m ∧
      (entries.map Prod.fst).Sorted (· < ·) ∧
      b.SetMap m = entries.foldl (fun b entry => b.Set entry.1 entry.2) b ∧
      (b.SetMap m).setClauses
        = b.setClauses ++ entries.map (fun entry => { column := entry.1, value := entry.2 }) ∧
      ExtractColumns (Builder.update (b.SetMap m))
        = Except.ok ((b.setClauses.map fun clause => clause.column) ++ entries.map Prod.fst) ∧
      ExtractValues (Builder.update (b.SetMap m))
        = Except.ok [(b.setClauses.map fun clause => clause.value) ++ entries.map Prod.snd] ∧
      ∀ m2 : List (List Char × SetValue α), m2.Perm m → b.SetMap m2 = b.SetMap m := by
  have hval : ∀ e ∈ m, (e.1, mapIndex m e.1) = e := fun e he => by
    rw [mapIndex_of_mem m hm e he]
  have hperm : ((sortStrings (m.map Prod.fst)).map fun key => (key, mapIndex m key)).Perm m := by
    have h1 := (sortStrings_perm (m.map Prod.fst)).map fun key => (key, mapIndex m key)
    have h2 : (m.map Prod.fst).map (fun key => (key, mapIndex m key)) = m := by
      rw [List.map_map]
      conv_rhs => rw [← List.map_id m]
      exact List.map_congr_left fun e he => hval e he
    rw [h2] at h1
    exact h1
  have hfst : ((sortStrings (m.map Prod.fst)).map fun key => (key, mapIndex m key)).map Prod.fst
      = sortStrings (m.map Prod.fst) := by
    rw [List.map_map]
    exact List.map_id _
  have hsnd : ((sortStrings (m.map Prod.fst)).map fun key => (key, mapIndex m key)).map
      (fun entry => ({ column := entry.1, value := entry.2 } : setClause α))
      = (sortStrings (m.map Prod.fst)).map fun key =>
          { column := key, value := mapIndex m key } := by
    rw [List.map_map]
    rfl
  refine ⟨(sortStrings (m.map Prod.fst)).map fun key => (key, mapIndex m key),
    hperm, ?_, ?_, ?_, ?_, ?_, ?_⟩
  · rw [hfst]
    have hs := sortStrings_sorted (m.map Prod.fst)
    have hn : (sortStrings (m.map Prod.fst)).Nodup :=
      (sortStrings_perm (m.map Prod.fst)).nodup_iff.2 hm
    exact (List.Sorted.lt_of_le hs hn)
  · rw [setMap_setClauses]
    have := set_foldl (fun key => mapIndex m key)
      (sortStrings (m.map Prod.fst)) b
    rw [List.foldl_map]
    exact this.symm
  · rw [setMap_setClauses, hsnd]
  · rw [setMap_setClauses]
    simp [ExtractColumns, List.map_map, Function.comp_def]
  · rw [setMap_setClauses]
    simp [ExtractValues, List.map_map, Function.comp_def]
  · intro m2 hp
    rw [setMap_setClauses, setMap_setClauses, sortStrings_congr _ _ (hp.map Prod.fst)]
    have : (fun key => ({ column := key, value := mapIndex m2 key } : setClause α))
        = fun key => { column := key, value := mapIndex m key } := by
      funext key
      rw [mapIndex_perm m m2 hm hp key]
    rw [this]

/-- The statement of `setMap_sorted` at the map with the entries `b: 2` and
`a: 1`, met in this order. -/
theorem setMap_sorted_witness :
    (["b".toList, "a".toList]).Nodup ∧
    ExtractColumns (Builder.update
        ((NewUpdateBuilder Question : UpdateBuilder Nat Unit).SetMap
          [("b".toList, SetValue.plain 2), ("a".toList, SetValue.plain 1)]))
      = Except.ok ["a".toList, "b".toList] ∧
    ∃ entries : List (List Char × SetValue Nat),
      entries.Perm [("b".toList, SetValue.plain 2), ("a".toList, SetValue.plain 1)] ∧
      (entries.map Prod.fst).Sorted (· < ·) :=
  have h := setMap_sorted (NewUpdateBuilder Question : UpdateBuilder Nat Unit)
    [("b".toList, SetValue.plain 2), ("a".toList, SetValue.plain 1)] (by decide)
  ⟨by decide, by rfl, h.choose, h.choose_spec.1, h.choose_spec.2.1⟩

/-! ## `DeleteBuilder` -/

theorem tailToSql_bare {α ς : Type} (ext : Externals α ς) (format : PlaceholderFormat)
    (limit offset : Nat) (sql : List Char) (args : Option (List α)) :
    tailToSql ext format [] [] limit false offset false [] [] sql args
      = finishToSql format sql args := by
  simp [tailToSql]

theorem finishToSql_Question {α : Type} (sql : List Char) (args : Option (List α)) :
    finishToSql Question sql args = Run.returned (sql, args, none) :=
  rfl

theorem what_foldl (what acc : List (List Char)) :
    what.foldl (fun filtered item => if item.length > 0 then filtered ++ [item] else filtered)
        acc
      = acc ++ what.filter fun item => decide (item ≠ []) := by
  induction what generalizing acc with
  | nil => simp
  | cons w ws ih =>
    rw [List.foldl_cons, ih]
    cases w with
    | nil => simp
    | cons c r => simp

theorem What_what {α ς : Type} (b : DeleteBuilder α ς) (w : List (List Char)) :
    (b.What w).what = w.filter fun item => decide (item ≠ []) := by
  simp only [DeleteBuilder.What, what_foldl, List.nil_append]
  split <;> rfl

theorem What_from {α ς : Type} (b : DeleteBuilder α ς) (w : List (List Char)) :
    (b.What w).from_ =
      match w.filter fun item => decide (item ≠ []) with
      | [a] => a
      | _ => b.from_ := by
  simp only [DeleteBuilder.What, what_foldl, List.nil_append]
  split <;> simp_all [DeleteBuilder.From]

/-- A builder with nothing but the table list and the `FROM` table: the
table list is written when it is not empty and is not the list of the `FROM`
table alone. -/
theorem delete_bare {α ς : Type} (ext : Externals α ς) (what : List (List Char))
    (f : List Char) (hf : f ≠ []) :
    ({ (NewDeleteBuilder Question : DeleteBuilder α ς) with what := what, from_ := f }).ToSql
        ext
      = Run.returned
          ("DELETE ".toList
            ++ (if what ≠ [] ∧ what ≠ [f] then stringsJoin what ", ".toList ++ " ".toList
                else [])
            ++ "FROM ".toList ++ f, none, none) := by
  have hlen : f.length ≠ 0 := by simpa using hf
  have hcond : (what.length > 0 ∧ (what.length ≠ 1 ∨ what.head? ≠ some f))
      ↔ (what ≠ [] ∧ what ≠ [f]) := by
    cases what with
    | nil => simp
    | cons x xs =>
      cases xs with
      | nil => simp
      | cons y ys => simp
  simp only [DeleteBuilder.ToSql, NewDeleteBuilder, hlen, if_false, List.length_nil,
    gt_iff_lt, lt_irrefl, List.nil_append, tailToSql_bare, finishToSql_Question, hcond]
  split <;> simp

/-- On a builder with a `FROM` table, `ToSql` writes the prefixes, `DELETE`,
the table list when it is not empty and is not the list of the `FROM` table
alone, `FROM` and the table, and goes on with the rest of the statement. -/
theorem delete_toSql_head {α ς : Type} (ext : Externals α ς) (b : DeleteBuilder α ς)
    (hf : b.from_ ≠ []) :
    b.ToSql ext
      = b.afterFrom ext
          ((b.beforeDelete ext).1 ++ "DELETE ".toList
            ++ (if b.what ≠ [] ∧ b.what ≠ [b.from_] then
                  stringsJoin b.what ", ".toList ++ " ".toList
                else [])
            ++ "FROM ".toList ++ b.from_)
          (b.beforeDelete ext).2 := by
  have hlen : b.from_.length ≠ 0 := by simpa using hf
  have hcond : (b.what.length > 0 ∧ (b.what.length ≠ 1 ∨ b.what.head? ≠ some b.from_))
      ↔ (b.what ≠ [] ∧ b.what ≠ [b.from_]) := by
    cases b.what with
    | nil => simp
    | cons x xs =>
      cases xs with
      | nil => simp
      | cons y ys => simp
  unfold DeleteBuilder.ToSql DeleteBuilder.afterFrom DeleteBuilder.beforeDelete
  rw [if_neg hlen]
  by_cases hc : b.what ≠ [] ∧ b.what ≠ [b.from_]
  · simp only [if_pos hc, if_pos (hcond.2 hc), List.append_assoc]
  · have hc2 : ¬ (b.what.length > 0 ∧ (b.what.length ≠ 1 ∨ b.what.head? ≠ some b.from_)) :=
      fun h => hc (hcond.1 h)
    simp only [if_neg hc, if_neg hc2, List.append_assoc, List.nil_append]

/-- Without a `FROM` table `ToSql` returns its error, whatever else the
builder holds. -/
theorem delete_toSql_no_from {α ς : Type} (ext : Externals α ς) (b : DeleteBuilder α ς)
    (hf : b.from_ = []) :
    b.ToSql ext
      = Run.returned ([], none, some "delete statements must specify a From table") := by
  simp [DeleteBuilder.ToSql, hf]

/-- C18, the counterexample: after `What("a")`, the call `From("")` names a
table other than `a`, and `ToSql` returns the error of the missing `FROM`
table with an empty text instead of `"DELETE a FROM "`. -/
theorem delete_from_empty :
    ("" : String).toList ≠ "a".toList ∧
    ∀ ext : Externals Nat Unit,
      (((NewDeleteBuilder Question : DeleteBuilder Nat Unit).What ["a".toList]).From
          "".toList).ToSql ext
        = Run.returned ([], none, some "delete statements must specify a From table") :=
  ⟨by decide, fun _ => rfl⟩

/-- C18, amended.  `What(w...)` stores `w` without its empty strings and,
when exactly one name `x` is left, sets the `FROM` table to `x`, leaving it
as it was otherwise.  On every builder whose `FROM` table is not empty,
`ToSql` writes, after the prefixes, `DELETE`, then the table list only when
it is not empty and is not the one-element list of the `FROM` table, then
`FROM` and the table, and the rest of the statement, which does not depend on
the table list; on every builder whose `FROM` table is empty it returns an
empty text, nil arguments and the error of the missing table.  Hence, for a
non-empty name `a`, a fresh builder with the Question format gives
`"DELETE FROM a"` after `What` of `a` among any number of empty strings,
`"DELETE a FROM b"` after `What(a)` and `From(b)` for every non-empty `b`
other than `a`, and the error after `What(a)` and `From("")`. -/
theorem delete_what_from {α ς : Type} (ext : Externals α ς) (a : List Char) (ha : a ≠ []) :
    (∀ (b : DeleteBuilder α ς) (w : List (List Char)),
      (b.What w).what = (w.filter fun item => decide (item ≠ [])) ∧
      (∀ x, (w.filter fun item => decide (item ≠ [])) = [x] → (b.What w).from_ = x) ∧
      ((w.filter fun item => decide (item ≠ [])).length ≠ 1 → (b.What w).from_ = b.from_)) ∧
    (∀ b : DeleteBuilder α ς, b.from_ ≠ [] →
      b.ToSql ext
        = b.afterFrom ext
            ((b.beforeDelete ext).1 ++ "DELETE ".toList
              ++ (if b.what ≠ [] ∧ b.what ≠ [b.from_] then
                    stringsJoin b.what ", ".toList ++ " ".toList
                  else [])
              ++ "FROM ".toList ++ b.from_)
            (b.beforeDelete ext).2) ∧
    (∀ (b : DeleteBuilder α ς) (w : List (List Char)),
      ({ b with what := w }).afterFrom ext = b.afterFrom ext ∧
      ({ b with what := w }).beforeDelete ext = b.beforeDelete ext) ∧
    (∀ b : DeleteBuilder α ς, b.from_ = [] →
      b.ToSql ext
        = Run.returned ([], none, some "delete statements must specify a From table")) ∧
    (∀ (what : List (List Char)) (f : List Char), f ≠ [] →
      ({ (NewDeleteBuilder Question : DeleteBuilder α ς) with
          what := what, from_ := f }).ToSql ext
        = Run.returned
            ("DELETE ".toList
              ++ (if what ≠ [] ∧ what ≠ [f] then stringsJoin what ", ".toList ++ " ".toList
                  else [])
              ++ "FROM ".toList ++ f, none, none)) ∧
    (∀ i j : Nat,
      ((NewDeleteBuilder Question : DeleteBuilder α ς).What
          (List.replicate i [] ++ a :: List.replicate j [])).ToSql ext
        = Run.returned ("DELETE FROM ".toList ++ a, none, none)) ∧
    (∀ b : List Char, b ≠ [] → b ≠ a →
      (((NewDeleteBuilder Question : DeleteBuilder α ς).What [a]).From b).ToSql ext
        = Run.returned ("DELETE ".toList ++ a ++ " FROM ".toList ++ b, none, none)) ∧
    (((NewDeleteBuilder Question : DeleteBuilder α ς).What [a]).From []).ToSql ext
      = Run.returned ([], none, some "delete statements must specify a From table") := by
  refine ⟨?_, fun b hf => delete_toSql_head ext b hf, fun b w => ⟨rfl, rfl⟩,
    fun b hf => delete_toSql_no_from ext b hf,
    fun what f hf => delete_bare ext what f hf, ?_, ?_, ?_⟩
  · intro b w
    refine ⟨What_what b w, ?_, ?_⟩
    · intro x hx
      rw [What_from, hx]
    · intro hn
      rw [What_from]
      split
      · rename_i x hx
        rw [hx] at hn
        exact absurd rfl hn
      · rfl
  · intro i j
    have hfilter : (List.replicate i [] ++ a :: List.replicate j []).filter
        (fun item => decide (item ≠ [])) = [a] := by
      have h0 : ∀ n : Nat, (List.replicate n ([] : List Char)).filter
          (fun item => decide (item ≠ [])) = [] := by
        intro n
        induction n with
        | zero => rfl
        | succ n ih => rw [List.replicate_succ]; simp
      rw [List.filter_append, List.filter_cons, h0, h0]
      simp [ha]
    have hb : (NewDeleteBuilder Question : DeleteBuilder α ς).What
          (List.replicate i [] ++ a :: List.replicate j [])
        = { (NewDeleteBuilder Question : DeleteBuilder α ς) with what := [a], from_ := a } := by
      simp only [DeleteBuilder.What, what_foldl, List.nil_append, hfilter]
      rfl
    rw [hb, delete_bare ext [a] a ha]
    simp
  · intro b hb hba
    have hB : ((NewDeleteBuilder Question : DeleteBuilder α ς).What [a]).From b
        = { (NewDeleteBuilder Question : DeleteBuilder α ς) with what := [a], from_ := b } := by
      have hfilter : [a].filter (fun item => decide (item ≠ [])) = [a] := by simp [ha]
      simp only [DeleteBuilder.What, what_foldl, List.nil_append, hfilter]
      rfl
    rw [hB, delete_bare ext [a] b hb]
    have : ([a] : List (List Char)) ≠ [b] := by
      intro h
      exact hba (List.cons.inj h).1.symm
    simp [this, stringsJoin]
  · exact delete_toSql_no_from ext _ rfl

/-- The statement of `delete_what_from` at the table `a`. -/
theorem delete_what_from_witness :
    "a".toList ≠ [] ∧
    ((NewDeleteBuilder Question : DeleteBuilder Nat Unit).What
        ["".toList, "a".toList, "".toList]).ToSql
        ⟨fun _ w _ args => (w, args, none), fun _ w _ args => (w, args, none),
          fun _ w args => (w, args, none)⟩
      = Run.returned ("DELETE FROM a".toList, none, none) ∧
    (((NewDeleteBuilder Question : DeleteBuilder Nat Unit).What ["a".toList]).From
        "b".toList).ToSql
        ⟨fun _ w _ args => (w, args, none), fun _ w _ args => (w, args, none),
          fun _ w args => (w, args, none)⟩
      = Run.returned ("DELETE a FROM b".toList, none, none) ∧
    (((NewDeleteBuilder Question : DeleteBuilder Nat Unit).What ["a".toList]).From []).ToSql
        ⟨fun _ w _ args => (w, args, none), fun _ w _ args => (w, args, none),
          fun _ w args => (w, args, none)⟩
      = Run.returned ([], none, some "delete statements must specify a From table") :=
  have h := @delete_what_from Nat Unit
    ⟨fun _ w _ args => (w, args, none), fun _ w _ args => (w, args, none),
      fun _ w args => (w, args, none)⟩ "a".toList (by decide)
  ⟨by decide, h.2.2.2.2.2.1 1 1, h.2.2.2.2.2.2.1 "b".toList (by decide) (by decide),
    h.2.2.2.2.2.2.2⟩

/-! ## `UpdateBuilder.ToSql` on plain values -/

theorem goAppend_goAppend {α : Type} (s : Option (List α)) (v : α) (xs : List α) :
    goAppend (goAppend s [v]) xs = goAppend s (v :: xs) := by
  cases s <;> simp [goAppend]

theorem setClausesToSql_plain {α : Type} (cs : List (List Char × α)) :
    ∀ (setSqls : List (List Char)) (args : Option (List α)),
      setClausesToSql (cs.map fun c => { column := c.1, value := SetValue.plain c.2 })
          setSqls args
        = Except.ok (setSqls ++ cs.map (fun c => c.1 ++ " = ?".toList),
            goAppend args (cs.map Prod.snd)) := by
  induction cs with
  | nil =>
    intro setSqls args
    cases args <;> simp [setClausesToSql, goAppend]
  | cons c cs ih =>
    intro setSqls args
    simp only [List.map_cons, setClausesToSql, ih, goAppend_goAppend]
    simp

theorem set_plain_foldl {α ς : Type} (cs : List (List Char × α)) (b : UpdateBuilder α ς) :
    cs.foldl (fun b c => b.Set c.1 (SetValue.plain c.2)) b
      = { b with setClauses := b.setClauses
            ++ cs.map fun c => { column := c.1, value := SetValue.plain c.2 } } := by
  induction cs generalizing b with
  | nil => simp
  | cons c cs ih =>
    rw [List.foldl_cons, ih]
    simp [UpdateBuilder.Set]

theorem update_plain_finish {α ς : Type} (ext : Externals α ς) (format : PlaceholderFormat)
    (t : List Char) (cs : List (List Char × α)) (ht : t ≠ []) (hcs : cs ≠ []) :
    (cs.foldl (fun b c => b.Set c.1 (SetValue.plain c.2))
        ((NewUpdateBuilder format : UpdateBuilder α ς).Table t)).ToSql ext
      = finishToSql format
          ("UPDATE ".toList ++ t ++ " SET ".toList
            ++ stringsJoin (cs.map fun c => c.1 ++ " = ?".toList) ", ".toList)
          (some (cs.map Prod.snd)) := by
  have hlen : t.length ≠ 0 := by simpa using ht
  have hn : cs.length ≠ 0 := by simpa using hcs
  have hargs : goAppend (none : Option (List α)) (cs.map Prod.snd) = some (cs.map Prod.snd) := by
    cases cs with
    | nil => exact absurd rfl hcs
    | cons c r => simp [goAppend]
  rw [set_plain_foldl]
  simp only [UpdateBuilder.ToSql, UpdateBuilder.Table, NewUpdateBuilder, hlen, if_false,
    List.length_nil, gt_iff_lt, lt_irrefl, List.nil_append, List.length_map, hn,
    setClausesToSql_plain, hargs, tailToSql_bare]

theorem dollarScan_setList (cols : List (List Char)) (hc : ∀ c ∈ cols, '?' ∉ c) :
    ∀ (buf : List Char) (i : Nat),
      scanFrom dollarReplace () (stringsJoin (cols.map fun c => c ++ " = ?".toList) ", ".toList)
          buf i
        = ((), Run.returned (buf ++ dollarSetList i cols, none)) := by
  induction cols with
  | nil => intro buf i; simp [stringsJoin, dollarSetList, scanFrom_nil]
  | cons c cs ih =>
    intro buf i
    have hc0 : '?' ∉ c ++ " = ".toList := by
      have := hc c (by simp)
      simp [this]
    cases cs with
    | nil =>
      have e : stringsJoin ([c].map fun c => c ++ " = ?".toList) ", ".toList
          = (c ++ " = ".toList) ++ '?' :: [] := by simp [stringsJoin]
      rw [e, dollarScan_skip _ _ _ _ hc0, dollarScan_marker _ _ _ (by simp), scanFrom_nil]
      simp [dollarSetList]
    | cons d ds =>
      have e : stringsJoin ((c :: d :: ds).map fun c => c ++ " = ?".toList) ", ".toList
          = (c ++ " = ".toList) ++ '?' :: (", ".toList
              ++ stringsJoin ((d :: ds).map fun c => c ++ " = ?".toList) ", ".toList) := by
        simp [stringsJoin]
      rw [e, dollarScan_skip _ _ _ _ hc0, dollarScan_marker _ _ _ (by simp),
        dollarScan_skip _ _ _ _ (by decide), ih (fun x hx => hc x (by simp [hx]))]
      simp [dollarSetList]

theorem count_stringsJoin (cols : List (List Char)) (hc : ∀ c ∈ cols, '?' ∉ c) :
    (stringsJoin (cols.map fun c => c ++ " = ?".toList) ", ".toList).count '?'
      = cols.length := by
  induction cols with
  | nil => simp [stringsJoin]
  | cons c cs ih =>
    have h0 : c.count '?' = 0 := List.count_eq_zero.2 (hc c (by simp))
    have ih2 := ih fun x hx => hc x (by simp [hx])
    cases cs with
    | nil => simp [stringsJoin, h0, List.count_append]
    | cons d ds =>
      have e : stringsJoin ((c :: d :: ds).map fun c => c ++ " = ?".toList) ", ".toList
          = c ++ " = ?".toList ++ ", ".toList
              ++ stringsJoin ((d :: ds).map fun c => c ++ " = ?".toList) ", ".toList := by
        simp [stringsJoin]
      rw [e, List.count_append, List.count_append, List.count_append, ih2, h0]
      have h1 : " = ?".toList.count '?' = 1 := by decide
      have h2 : ", ".toList.count '?' = 0 := by decide
      rw [h1, h2]
      simp only [List.length_cons]
      omega

/-- C20.  For a non-empty table `t` and a non-empty list of set clauses
`(c₁, v₁), ..., (cₙ, vₙ)` with plain values, a builder with nothing else set
returns, with the Question format, the text `"UPDATE " + t + " SET "` followed
by the texts `cᵢ + " = ?"` joined by `", "`, the arguments `[v₁, ..., vₙ]` and
a nil error: one placeholder per clause, the i-th for `vᵢ`, and when the
column names hold no `?` the `SET` list holds as many `?` as there are
arguments.  With the Dollar format, and no `?` in `t` and the column names,
the i-th placeholder is `$i` and the arguments are the same. -/
theorem update_plain_values {α ς : Type} (ext : Externals α ς) (t : List Char)
    (cs : List (List Char × α)) (ht : t ≠ []) (hcs : cs ≠ []) :
    (cs.foldl (fun b c => b.Set c.1 (SetValue.plain c.2))
        ((NewUpdateBuilder Question : UpdateBuilder α ς).Table t)).ToSql ext
      = Run.returned
          ("UPDATE ".toList ++ t ++ " SET ".toList
            ++ stringsJoin (cs.map fun c => c.1 ++ " = ?".toList) ", ".toList,
           some (cs.map Prod.snd), none) ∧
    (cs.map fun c => c.1 ++ " = ?".toList).length = (cs.map Prod.snd).length ∧
    ((∀ c ∈ cs, '?' ∉ c.1) →
      (stringsJoin (cs.map fun c => c.1 ++ " = ?".toList) ", ".toList).count '?'
        = (cs.map Prod.snd).length) ∧
    ('?' ∉ t → (∀ c ∈ cs, '?' ∉ c.1) →
      (cs.foldl (fun b c => b.Set c.1 (SetValue.plain c.2))
          ((NewUpdateBuilder Dollar : UpdateBuilder α ς).Table t)).ToSql ext
        = Run.returned
            ("UPDATE ".toList ++ t ++ " SET ".toList ++ dollarSetList 0 (cs.map Prod.fst),
             some (cs.map Prod.snd), none)) := by
  refine ⟨?_, by simp, ?_, ?_⟩
  · rw [update_plain_finish ext Question t cs ht hcs, finishToSql_Question]
  · intro hc
    have := count_stringsJoin (cs.map Prod.fst) (by
      intro c hcm
      obtain ⟨e, he, rfl⟩ := List.mem_map.1 hcm
      exact hc e he)
    simpa [List.map_map, Function.comp_def] using this
  · intro hq hc
    rw [update_plain_finish ext Dollar t cs ht hcs]
    have hcols : ∀ c ∈ cs.map Prod.fst, '?' ∉ c := by
      intro c hcm
      obtain ⟨e, he, rfl⟩ := List.mem_map.1 hcm
      exact hc e he
    have hpre : '?' ∉ "UPDATE ".toList ++ t ++ " SET ".toList := by
      simp [hq]
    have hscan := dollarScan_setList (cs.map Prod.fst) hcols
      ("UPDATE ".toList ++ t ++ " SET ".toList) 0
    have hmap : ((cs.map Prod.fst).map fun c => c ++ " = ?".toList)
        = cs.map fun c => c.1 ++ " = ?".toList := by
      rw [List.map_map]; rfl
    rw [hmap] at hscan
    simp only [finishToSql, Dollar, dollarFormat_eq_scanFrom]
    rw [dollarScan_skip _ _ _ _ hpre, List.nil_append, hscan]

/-- The statement of `update_plain_values` at the table `a` with the clauses
`b = 1` and `c = 2`. -/
theorem update_plain_values_witness :
    "a".toList ≠ [] ∧
    [("b".toList, 1), ("c".toList, 2)] ≠ ([] : List (List Char × Nat)) ∧
    ((((NewUpdateBuilder Question : UpdateBuilder Nat Unit).Table "a".toList).Set "b".toList
        (SetValue.plain 1)).Set "c".toList (SetValue.plain 2)).ToSql
        ⟨fun _ w _ args => (w, args, none), fun _ w _ args => (w, args, none),
          fun _ w args => (w, args, none)⟩
      = Run.returned ("UPDATE a SET b = ?, c = ?".toList, some [1, 2], none) ∧
    ((((NewUpdateBuilder Dollar : UpdateBuilder Nat Unit).Table "a".toList).Set "b".toList
        (SetValue.plain 1)).Set "c".toList (SetValue.plain 2)).ToSql
        ⟨fun _ w _ args => (w, args, none), fun _ w _ args => (w, args, none),
          fun _ w args => (w, args, none)⟩
      = Run.returned ("UPDATE a SET b = $1, c = $2".toList, some [1, 2], none) :=
  have h := @update_plain_values Nat Unit
    ⟨fun _ w _ args => (w, args, none), fun _ w _ args => (w, args, none),
      fun _ w args => (w, args, none)⟩ "a".toList [("b".toList, 1), ("c".toList, 2)]
    (by decide) (by decide)
  ⟨by decide, by decide, h.1, h.2.2.2 (by decide) (by decide)⟩

/-! ## The two rewrite shapes on templates without `$` -/

theorem anonymousMarkers_literal (c : Char) (r : List Char) (hc : c ≠ '?') :
    anonymousMarkers (c :: r) = anonymousMarkers r := by
  cases r with
  | nil => simp [anonymousMarkers, hc]
  | cons d t => simp [anonymousMarkers, hc]

theorem anonymousMarkers_escape (r : List Char) :
    anonymousMarkers ('?' :: '?' :: r) = anonymousMarkers r := by
  simp [anonymousMarkers]

theorem anonymousMarkers_marker (r : List Char) (hr : r.head? ≠ some '?') :
    anonymousMarkers ('?' :: r) = anonymousMarkers r + 1 := by
  cases r with
  | nil => simp [anonymousMarkers]
  | cons d t =>
    have hd : d ≠ '?' := fun h => hr (by simp [h])
    simp [anonymousMarkers, hd, Nat.add_comm]

theorem anonymousMarkers_eq (sql : List Char) (hd : '$' ∉ sql) :
    markerOccurrences sql = List.replicate (anonymousMarkers sql) Marker.anon := by
  induction sql using scan_induction with
  | nil => simp [markerOccurrences, anonymousMarkers]
  | literal c r hc ih =>
    have hc2 : c ≠ '$' := fun h => hd (by simp [h])
    have hr : '$' ∉ r := fun h => hd (by simp [h])
    rw [markerOccurrences_literal c r hc hc2, anonymousMarkers_literal c r hc, ih hr]
  | escape r ih =>
    have hr : '$' ∉ r := fun h => hd (by simp [h])
    rw [markerOccurrences_escapeQ, anonymousMarkers_escape, ih hr]
  | marker r hq ih =>
    have hr : '$' ∉ r := fun h => hd (by simp [h])
    rw [markerOccurrences_anon r hq, anonymousMarkers_marker r hq, ih hr, List.replicate_succ]

/-- On a template without `$`, with an argument for every `?` marker still to
come, the two scans write the same text, and the mixed scan keeps the
arguments the cursor passes. -/
theorem dollarMixed_no_dollar {α : Type} (args : List α) (sql : List Char) :
    '$' ∉ sql → ∀ (i arg : Nat) (renumbered : List (Nat × Nat)) (buf : List Char)
      (newArgs : List α), arg + anonymousMarkers sql ≤ args.length →
      ∃ q, scanFrom dollarReplace () sql buf i = ((), Run.returned (buf ++ q, none)) ∧
        mixedFrom dollarReplace args () sql buf i newArgs arg renumbered
          = ((), Run.returned (buf ++ q,
              some (newArgs ++ (args.drop arg).take (anonymousMarkers sql)), none)) := by
  induction sql using scan_induction with
  | nil =>
    intro _ i arg renumbered buf newArgs _
    exact ⟨[], by simp [scanFrom_nil], by simp [mixedFrom_nil, anonymousMarkers]⟩
  | literal c r hc ih =>
    intro hd i arg renumbered buf newArgs hs
    have hc2 : c ≠ '$' := fun h => hd (by simp [h])
    have hr : '$' ∉ r := fun h => hd (by simp [h])
    rw [anonymousMarkers_literal c r hc] at hs ⊢
    obtain ⟨q, h1, h2⟩ := ih hr i arg renumbered (buf ++ [c]) newArgs hs
    refine ⟨c :: q, ?_, ?_⟩
    · rw [scanFrom_literal _ _ _ _ _ _ hc, h1]; simp
    · rw [mixedFrom_literal _ _ _ _ _ _ _ _ _ _ hc hc2, h2]; simp
  | escape r ih =>
    intro hd i arg renumbered buf newArgs hs
    have hr : '$' ∉ r := fun h => hd (by simp [h])
    rw [anonymousMarkers_escape] at hs ⊢
    obtain ⟨q, h1, h2⟩ := ih hr i arg renumbered (buf ++ ['?']) newArgs hs
    refine ⟨'?' :: q, ?_, ?_⟩
    · rw [scanFrom_escape, h1]; simp
    · rw [mixedFrom_escapeQ, h2]; simp
  | marker r hq ih =>
    intro hd i arg renumbered buf newArgs hs
    have hr : '$' ∉ r := fun h => hd (by simp [h])
    rw [anonymousMarkers_marker r hq] at hs ⊢
    have hlt : arg < args.length := by omega
    have hget : args[arg]? = some args[arg] := List.getElem?_eq_getElem hlt
    obtain ⟨q, h1, h2⟩ := ih hr (i + 1) (arg + 1) renumbered (buf ++ '$' :: itoa (i + 1))
      (newArgs ++ [args[arg]]) (by omega)
    refine ⟨'$' :: itoa (i + 1) ++ q, ?_, ?_⟩
    · rw [dollarScan_marker _ _ _ hq, h1]; simp
    · rw [mixedFrom_anon _ _ _ _ _ _ _ _ _ hq, hget]
      simp only [emitThen_dollar_plain]
      rw [h2, List.drop_eq_getElem_cons hlt, List.take_succ_cons]
      simp

/-- C21.  On a template `t` without `$`, with `k` the number of its
anonymous markers (the `?` left after pairing `??` greedily from the left)
and `len(args) ≥ k`, `Dollar.ReplacePlaceholdersMixed(t, args)` returns the
text `Dollar.ReplacePlaceholders(t)` returns, the arguments `args[0..k)` and a
nil error; the markers of `t` are these `k` anonymous ones. -/
theorem mixed_agrees_without_dollar {α : Type} (t : List Char) (args : List α)
    (hd : '$' ∉ t) (hk : anonymousMarkers t ≤ args.length) :
    markerOccurrences t = List.replicate (anonymousMarkers t) Marker.anon ∧
    ∃ q, dollarFormat.ReplacePlaceholders t = Run.returned (q, none) ∧
      dollarFormat.ReplacePlaceholdersMixed t args
        = Run.returned (q, some (args.take (anonymousMarkers t)), none) := by
  refine ⟨anonymousMarkers_eq t hd, ?_⟩
  obtain ⟨q, h1, h2⟩ := dollarMixed_no_dollar args t hd 0 0 [] [] [] (by simpa using hk)
  refine ⟨q, ?_, ?_⟩
  · rw [dollarFormat_eq_scanFrom, h1]; simp
  · rw [dollarFormat_mixed_eq_mixedFrom, h2]; simp

/-- The statement of `mixed_agrees_without_dollar` at the template of
`TestDollar` with an escape added, and one argument too many. -/
theorem mixed_agrees_without_dollar_witness :
    '$' ∉ "x = ? AND y ?? ?".toList ∧
    anonymousMarkers "x = ? AND y ?? ?".toList = 2 ∧
    dollarFormat.ReplacePlaceholders "x = ? AND y ?? ?".toList
      = Run.returned ("x = $1 AND y ? $2".toList, none) ∧
    dollarFormat.ReplacePlaceholdersMixed "x = ? AND y ?? ?".toList [7, 8, 9]
      = Run.returned ("x = $1 AND y ? $2".toList, some [7, 8], none) ∧
    ∃ q, dollarFormat.ReplacePlaceholders "x = ? AND y ?? ?".toList = Run.returned (q, none) ∧
      dollarFormat.ReplacePlaceholdersMixed "x = ? AND y ?? ?".toList [7, 8, 9]
        = Run.returned (q, some ([7, 8, 9].take (anonymousMarkers "x = ? AND y ?? ?".toList)),
            none) :=
  ⟨by decide, by decide, by decide, by decide,
    (mixed_agrees_without_dollar "x = ? AND y ?? ?".toList [7, 8, 9]
      (by decide) (by decide)).2⟩

/-! ## Runs of question marks -/

/-- C22.  For texts `a` and `b` without `?`, `Dollar.ReplacePlaceholders`
turns a run of `2n` question marks between them into `n` question marks and
allocates no placeholder, and a run of `2n + 1` into `n` question marks
followed by `$1`: the pairs are taken from the left and the last `?` of an
odd run is the marker. -/
theorem question_runs (n : Nat) (a b : List Char) (ha : '?' ∉ a) (hb : '?' ∉ b) :
    dollarFormat.ReplacePlaceholders (a ++ List.replicate (2 * n) '?' ++ b)
      = Run.returned (a ++ List.replicate n '?' ++ b, none) ∧
    dollarFormat.ReplacePlaceholders (a ++ List.replicate (2 * n + 1) '?' ++ b)
      = Run.returned (a ++ List.replicate n '?' ++ "$1".toList ++ b, none) := by
  have hb0 : b.head? ≠ some '?' := by
    cases b with
    | nil => simp
    | cons c r => intro h; apply hb; simp at h; simp [h]
  have hfin : ∀ (buf : List Char) (i : Nat),
      scanFrom dollarReplace () b buf i = ((), Run.returned (buf ++ b, none)) := by
    intro buf i
    have := dollarScan_skip b [] buf i hb
    rw [List.append_nil] at this
    rw [this, scanFrom_nil]
  constructor
  · rw [dollarFormat_eq_scanFrom, List.append_assoc, dollarScan_skip _ _ _ _ ha,
      dollarScan_escapes, hfin]
    simp
  · have e : a ++ List.replicate (2 * n + 1) '?' ++ b
        = a ++ (List.replicate (2 * n) '?' ++ '?' :: b) := by
      rw [List.replicate_succ', List.append_assoc, List.append_assoc]
      rfl
    rw [e, dollarFormat_eq_scanFrom, dollarScan_skip _ _ _ _ ha, dollarScan_escapes,
      dollarScan_marker _ _ _ hb0, hfin]
    have h1 : itoa (0 + 1) = ['1'] := by decide
    rw [h1]
    simp

/-- The statement of `question_runs` at runs of four and five question
marks. -/
theorem question_runs_witness :
    '?' ∉ "a ".toList ∧ '?' ∉ " b".toList ∧
    dollarFormat.ReplacePlaceholders "a ???? b".toList
      = Run.returned ("a ?? b".toList, none) ∧
    dollarFormat.ReplacePlaceholders "a ????? b".toList
      = Run.returned ("a ??$1 b".toList, none) :=
  ⟨by decide, by decide,
    (question_runs 2 "a ".toList " b".toList (by decide) (by decide)).1,
    (question_runs 2 "a ".toList " b".toList (by decide) (by decide)).2⟩

/-! ## `Dollar.ReplacePlaceholders` on `Placeholders` -/

theorem stringsJoin_cons_cons (x y : List Char) (rest : List (List Char)) (sep : List Char) :
    stringsJoin (x :: y :: rest) sep = x ++ sep ++ stringsJoin (y :: rest) sep := by
  simp [stringsJoin]

theorem dollarScan_placeholders (n : Nat) :
    ∀ (buf : List Char) (i : Nat),
      scanFrom dollarReplace () ('?' :: repeatText [',', '?'] n) buf i
        = ((), Run.returned
            (buf ++ stringsJoin ((List.range' (i + 1) (n + 1)).map fun j => '$' :: itoa j) [','],
              none)) := by
  induction n with
  | zero =>
    intro buf i
    rw [dollarScan_marker _ _ _ (by simp [repeatText])]
    simp [repeatText, scanFrom_nil, stringsJoin, List.range']
  | succ n ih =>
    intro buf i
    rw [repeatText_succ, dollarScan_marker _ _ _ (by simp)]
    have e : [',', '?'] ++ repeatText [',', '?'] n
        = ',' :: ('?' :: repeatText [',', '?'] n) := rfl
    rw [e, scanFrom_literal _ _ _ _ _ _ (by decide), ih]
    have hj : stringsJoin ((List.range' (i + 1) (n + 1 + 1)).map fun j => '$' :: itoa j) [',']
        = ('$' :: itoa (i + 1)) ++ [','] ++
            stringsJoin ((List.range' (i + 1 + 1) (n + 1)).map fun j => '$' :: itoa j) [','] :=
      stringsJoin_cons_cons _ _ _ _
    rw [hj]
    simp

theorem markerOccurrences_placeholders (n : Nat) :
    markerOccurrences ('?' :: repeatText [',', '?'] n)
      = List.replicate (n + 1) Marker.anon := by
  induction n with
  | zero => simp [repeatText, markerOccurrences]
  | succ n ih =>
    have e : repeatText [',', '?'] (n + 1) = ',' :: ('?' :: repeatText [',', '?'] n) := by
      rw [repeatText_succ]; rfl
    rw [e, markerOccurrences_anon _ (by simp),
      markerOccurrences_literal _ _ (by decide) (by decide), ih]
    rfl

theorem dollarList_eq (n : Nat) :
    dollarList n = stringsJoin ((List.range' 1 n).map fun j => '$' :: itoa j) [','] := by
  unfold dollarList
  congr 1
  rw [List.range'_eq_map_range, List.map_map]
  apply List.map_congr_left
  intro i _
  simp [Nat.add_comm]

/-- C23, the counterexample: for `n = 4611686018427387904`, the count
`2^62 ≥ 1`, `Placeholders(n)` panics in `strings.Repeat`, so
`Dollar.ReplacePlaceholders(Placeholders(n))` is handed no string and returns
nothing. -/
theorem dollar_of_placeholders_panics :
    (1 : Int) ≤ 4611686018427387904 ∧
    ¬ ∃ s, Placeholders 4611686018427387904 = Except.ok s ∧
      dollarFormat.ReplacePlaceholders s
        = Run.returned (dollarList (4611686018427387904 : Int).toNat, none) := by
  refine ⟨by decide, ?_⟩
  rintro ⟨s, hs, -⟩
  rw [Placeholders_of_large 4611686018427387904 (by rw [maxInt_eq]; decide)] at hs
  cases hs

/-- C23, amended.  For `1 ≤ n < 2^62`, `Placeholders(n)` returns a string on
which `Dollar.ReplacePlaceholders` returns the text `$1,$2,...,$n` with a nil
error, every one of its `n` question marks being a marker and none half of an
escape `??`; for `n < 1` both return the empty string; for `n ≥ 2^62`
`Placeholders(n)` panics in `strings.Repeat`.  `Placeholders(3)`, the string
`"?,?,?"`, gives `"$1,$2,$3"`. -/
theorem dollar_of_placeholders (n : Int) :
    (1 ≤ n → 2 * n ≤ (maxInt : Int) →
      ∃ s, Placeholders n = Except.ok s ∧
        dollarFormat.ReplacePlaceholders s = Run.returned (dollarList n.toNat, none) ∧
        markerOccurrences s = List.replicate n.toNat Marker.anon ∧
        s.count '?' = n.toNat) ∧
    (n < 1 →
      Placeholders n = Except.ok [] ∧
      dollarFormat.ReplacePlaceholders [] = Run.returned ([], none)) ∧
    ((maxInt : Int) < 2 * n →
      Placeholders n = Except.error "strings: Repeat output length overflow") ∧
    (Placeholders 3 = Except.ok "?,?,?".toList ∧
      dollarFormat.ReplacePlaceholders "?,?,?".toList
        = Run.returned ("$1,$2,$3".toList, none)) := by
  refine ⟨?_, ?_, Placeholders_of_large n, ?_, by decide⟩
  · intro h hfit
    obtain ⟨k, rfl⟩ : ∃ k : Nat, n = (k : Int) + 1 := ⟨(n - 1).toNat, by omega⟩
    have hk : ((k : Int) + 1).toNat = k + 1 := by omega
    refine ⟨_, Placeholders_of_pos k hfit, ?_, ?_, ?_⟩
    · rw [hk, dollarFormat_eq_scanFrom, dollarScan_placeholders, dollarList_eq]
      simp
    · rw [hk, markerOccurrences_placeholders]
    · rw [hk, List.count_cons_self, repeatText_count]
  · intro h
    exact ⟨by simp [Placeholders, h], rfl⟩
  · exact Placeholders_of_pos 2 (by rw [maxInt_eq]; decide)

/-- The statement of `dollar_of_placeholders` at the counts 3 and 0. -/
theorem dollar_of_placeholders_witness :
    (∃ s, Placeholders 3 = Except.ok s ∧
      dollarFormat.ReplacePlaceholders s
        = Run.returned (dollarList (3 : Int).toNat, none) ∧
      markerOccurrences s = List.replicate (3 : Int).toNat Marker.anon ∧
      s.count '?' = (3 : Int).toNat) ∧
    Placeholders 0 = Except.ok [] ∧
    dollarList 3 = "$1,$2,$3".toList :=
  ⟨(dollar_of_placeholders 3).1 (by decide) (by rw [maxInt_eq]; decide),
    ((dollar_of_placeholders 0).2.1 (by decide)).1, by decide⟩

/-! ## `UpdateBuilder.ToSql` on incomplete statements -/

theorem finishToSql_Dollar {α : Type} (sql : List Char) (args : Option (List α)) :
    ∃ q, finishToSql Dollar sql args = Run.returned (q, args, none) := by
  obtain ⟨q, hq⟩ := dollarScan_returns sql 0
  refine ⟨q, ?_⟩
  simp only [finishToSql, Dollar, dollarFormat_eq_scanFrom, hq]
  simp

/-- C24.  `UpdateBuilder.ToSql` returns an empty text, nil arguments and the
error `update statements must specify a table` whenever the table name is
empty, whatever else the builder holds (also no Set clause), and the error
`update statements must have at least one Set clause` whenever the table is
named and there is no Set clause; with a non-empty table, at least one Set
clause with a plain value and nothing else, it returns what the placeholder
format makes of the statement, with a nil error for `Question` and for
`Dollar`. -/
theorem update_rejects_incomplete {α ς : Type} (ext : Externals α ς) :
    (∀ b : UpdateBuilder α ς, b.table = [] →
      b.ToSql ext = Run.returned ([], none, some "update statements must specify a table")) ∧
    (∀ b : UpdateBuilder α ς, b.table ≠ [] → b.setClauses = [] →
      b.ToSql ext
        = Run.returned ([], none, some "update statements must have at least one Set clause")) ∧
    (∀ (t : List Char) (cs : List (List Char × α)), t ≠ [] → cs ≠ [] →
      (∀ format : PlaceholderFormat,
        (cs.foldl (fun b c => b.Set c.1 (SetValue.plain c.2))
            ((NewUpdateBuilder format : UpdateBuilder α ς).Table t)).ToSql ext
          = finishToSql format
              ("UPDATE ".toList ++ t ++ " SET ".toList
                ++ stringsJoin (cs.map fun c => c.1 ++ " = ?".toList) ", ".toList)
              (some (cs.map Prod.snd))) ∧
      (∃ q,
        (cs.foldl (fun b c => b.Set c.1 (SetValue.plain c.2))
            ((NewUpdateBuilder Question : UpdateBuilder α ς).Table t)).ToSql ext
          = Run.returned (q, some (cs.map Prod.snd), none)) ∧
      (∃ q,
        (cs.foldl (fun b c => b.Set c.1 (SetValue.plain c.2))
            ((NewUpdateBuilder Dollar : UpdateBuilder α ς).Table t)).ToSql ext
          = Run.returned (q, some (cs.map Prod.snd), none))) := by
  refine ⟨?_, ?_, ?_⟩
  · intro b hb
    simp [UpdateBuilder.ToSql, hb]
  · intro b hb hc
    have hlen : b.table.length ≠ 0 := by simpa using hb
    simp [UpdateBuilder.ToSql, hlen, hc]
  · intro t cs ht hcs
    refine ⟨fun format => update_plain_finish ext format t cs ht hcs, ?_, ?_⟩
    · rw [update_plain_finish ext Question t cs ht hcs, finishToSql_Question]
      exact ⟨_, rfl⟩
    · rw [update_plain_finish ext Dollar t cs ht hcs]
      exact finishToSql_Dollar _ _

/-- The statement of `update_rejects_incomplete` at a builder with clauses
but no table, at one with a table but no Set clause, and at one with both. -/
theorem update_rejects_incomplete_witness :
    (((NewUpdateBuilder Dollar : UpdateBuilder Nat Unit).Set "b".toList
        (SetValue.plain 1)).ToSql
        ⟨fun _ w _ args => (w, args, none), fun _ w _ args => (w, args, none),
          fun _ w args => (w, args, none)⟩
      = Run.returned ([], none, some "update statements must specify a table")) ∧
    (({ (NewUpdateBuilder Question : UpdateBuilder Nat Unit) with
          table := "a".toList, limit := 3, limitValid := true, orderBys := ["b".toList] }).ToSql
        ⟨fun _ w _ args => (w, args, none), fun _ w _ args => (w, args, none),
          fun _ w args => (w, args, none)⟩
      = Run.returned ([], none, some "update statements must have at least one Set clause")) ∧
    ∃ q, (((NewUpdateBuilder Dollar : UpdateBuilder Nat Unit).Table "a".toList).Set "b".toList
        (SetValue.plain 1)).ToSql
        ⟨fun _ w _ args => (w, args, none), fun _ w _ args => (w, args, none),
          fun _ w args => (w, args, none)⟩
      = Run.returned (q, some [1], none) :=
  have h := @update_rejects_incomplete Nat Unit
    ⟨fun _ w _ args => (w, args, none), fun _ w _ args => (w, args, none),
      fun _ w args => (w, args, none)⟩
  ⟨h.1 _ rfl, h.2.1 _ (by decide) rfl,
    (h.2.2 "a".toList [("b".toList, 1)] (by decide) (by decide)).2.2⟩

end Sqrl
